import Mathlib

/-!
Verification of the nu-plugin runtime (Go) against its specification.

The Go sources are shallowly embedded in Lean:

* The MessagePack wire is modelled at the granularity the repository's own
  code manipulates it: a list of `Tok` tokens, one token per call to an
  encoder primitive of the msgpack library (`EncodeMapLen`, `EncodeString`,
  `EncodeInt`, ...).  The library's primitives are modelled as total
  functions from/to this token list; the repository's encoders and decoders
  are translated statement by statement on top of them.
* Machine integers are `Int`/`Nat` with explicit two's-complement wrapping
  (`wrap64`) where the Go code can overflow.
* Fallible Go functions returning `error` become `Except String`.
* Go byte slices become `List Nat` (each element < 256); a `nil` slice is
  `Option.none` where the distinction matters.
* Go maps (`Record`, `NamedParams`) become association lists whose key lists
  are `Nodup`; Go map iteration order is not observable through the
  round-trip properties proved here.
-/

/-! ## MessagePack wire token model -/

/-- One MessagePack value-atom as produced by a single call to an encoder
primitive of the msgpack library.  `f64` carries the IEEE-754 bit pattern of
the encoded float (the library writes exactly those 8 bytes). -/
inductive Tok where
  | mapLen (n : Nat)
  | arrLen (n : Nat)
  | str (s : String)
  | int (i : Int)
  | bin (b : List Nat)
  | boolv (b : Bool)
  | f64 (bits : Nat)
  | nilv
deriving DecidableEq, Repr

/-- Int64 range bounds. -/
def minI64 : Int := -(2 ^ 63)

def maxI64 : Int := 2 ^ 63 - 1

/-- Two's-complement wrap into the int64 range, the semantics of Go's
overflowing `int64` arithmetic. -/
def wrap64 (x : Int) : Int := (x + 2 ^ 63) % 2 ^ 64 - 2 ^ 63

/-- msgpack `Decoder.DecodeMapLen`: map header, or `-1` (here `none`) for
wire-nil. -/
def decMapLen : List Tok → Except String (Option Nat × List Tok)
  | .mapLen n :: rest => .ok (some n, rest)
  | .nilv :: rest => .ok (none, rest)
  | _ => .error "msgpack: invalid code decoding map length"

/-- msgpack `Decoder.DecodeArrayLen`: array header, or `none` for wire-nil.
Note that it does not accept the `bin` family of codes. -/
def decArrLen : List Tok → Except String (Option Nat × List Tok)
  | .arrLen n :: rest => .ok (some n, rest)
  | .nilv :: rest => .ok (none, rest)
  | _ => .error "msgpack: invalid code decoding array length"

/-- msgpack `Decoder.DecodeString` (wire-nil decodes to the empty string). -/
def decStr : List Tok → Except String (String × List Tok)
  | .str s :: rest => .ok (s, rest)
  | .nilv :: rest => .ok ("", rest)
  | _ => .error "msgpack: invalid code decoding string"

/-- msgpack `Decoder.DecodeInt64` (also `DecodeInt`, Go's `int` being 64-bit
here): any integer code within the int64 range. -/
def decInt64 : List Tok → Except String (Int × List Tok)
  | .int i :: rest =>
      if minI64 ≤ i ∧ i ≤ maxI64 then .ok (i, rest)
      else .error "msgpack: decoding int64 overflow"
  | .nilv :: rest => .ok (0, rest)
  | _ => .error "msgpack: invalid code decoding int64"

/-- msgpack `Decoder.DecodeUint`/`DecodeUint64`: non-negative integers. -/
def decUint : List Tok → Except String (Nat × List Tok)
  | .int i :: rest =>
      if 0 ≤ i ∧ i < 2 ^ 64 then .ok (i.toNat, rest)
      else .error "msgpack: invalid code decoding uint64"
  | .nilv :: rest => .ok (0, rest)
  | _ => .error "msgpack: invalid code decoding uint64"

/-- msgpack `Decoder.DecodeUint8`. -/
def decUint8 : List Tok → Except String (Nat × List Tok)
  | .int i :: rest =>
      if 0 ≤ i ∧ i < 2 ^ 8 then .ok (i.toNat, rest)
      else .error "msgpack: invalid code decoding uint8"
  | _ => .error "msgpack: invalid code decoding uint8"

/-- msgpack `Decoder.DecodeBool` (wire-nil decodes to `false`). -/
def decBool : List Tok → Except String (Bool × List Tok)
  | .boolv b :: rest => .ok (b, rest)
  | .nilv :: rest => .ok (false, rest)
  | _ => .error "msgpack: invalid code decoding bool"

/-- msgpack `Decoder.DecodeBytes`: the `bin` family (wire-nil gives the nil
slice, conflated here with the empty list). -/
def decBytes : List Tok → Except String (List Nat × List Tok)
  | .bin b :: rest => .ok (b, rest)
  | .nilv :: rest => .ok ([], rest)
  | _ => .error "msgpack: invalid code decoding bytes"

/-- msgpack `Decoder.DecodeFloat64`. -/
def decF64 : List Tok → Except String (Nat × List Tok)
  | .f64 bits :: rest => .ok (bits, rest)
  | _ => .error "msgpack: invalid code decoding float64"

/-- msgpack `Decoder.DecodeNil`. -/
def decNil : List Tok → Except String (List Tok)
  | .nilv :: rest => .ok rest
  | _ => .error "msgpack: invalid code decoding nil"

/-- msgpack `Decoder.PeekCode`: the next token, without consuming it. -/
def peekTok : List Tok → Except String Tok
  | t :: _ => .ok t
  | [] => .error "EOF"

/-- `msgpcode.IsString` / `IsFixedString` combined: the repository always
checks the two together. -/
def isStrCode : Tok → Bool
  | .str _ => true
  | _ => false

/-- `msgpcode.IsFixedMap`: a map header of fewer than 16 entries (the
canonical encoder emits fixmap exactly for those). -/
def isFixedMapCode : Tok → Bool
  | .mapLen n => n < 16
  | _ => false

/-- `msgpcode.IsFixedMap(code) || code == Map16 || code == Map32`: any map
header. -/
def isMapCode : Tok → Bool
  | .mapLen _ => true
  | _ => false

/-- `msgpcode.IsFixedArray(code) || code == Array16 || code == Array32`. -/
def isArrCode : Tok → Bool
  | .arrLen _ => true
  | _ => false

/-- `msgpcode.IsBin`. -/
def isBinCode : Tok → Bool
  | .bin _ => true
  | _ => false

/-- `code == msgpcode.Nil`. -/
def isNilCode : Tok → Bool
  | .nilv => true
  | _ => false

/-- Sequencing of decode steps (Go's `if err != nil { return err }` idiom),
written as an explicit match so that proofs reduce mechanically. -/
def eBind {α β : Type} (x : Except String α) (f : α → Except String β) :
    Except String β :=
  match x with
  | .ok a => f a
  | .error e => .error e

/-! ## Shared codec helpers (`util.go`) -/

/-- `encodeMapStart` (util.go): single-key map, caller writes the value. -/
def encodeMapStart (key : String) : List Tok := [.mapLen 1, .str key]

/-- `encodeTupleInMap` (util.go): `\x7b key: [id, ?] \x7d`, caller writes the
tuple's second item. -/
def encodeTupleInMap (key : String) (id : Int) : List Tok :=
  [.mapLen 1, .str key, .arrLen 2, .int id]

/-- `decodeWrapperMap` (util.go): reads the single-item map header and its
string key. -/
def decodeWrapperMap (toks : List Tok) : Except String (String × List Tok) :=
  eBind (decMapLen toks) fun (cnt, toks) =>
    match cnt with
    | some 1 => decStr toks
    | some n => .error ("wrapper map is expected to contain one item, got " ++ toString n)
    | none => .error "wrapper map is expected to contain one item, got -1"

/-- `decodeTupleStart` (util.go): reads `[id, <something>]` up to the id. -/
def decodeTupleStart (toks : List Tok) : Except String (Int × List Tok) :=
  eBind (decArrLen toks) fun (n, toks) =>
    match n with
    | some 2 => decInt64 toks
    | some n => .error ("unexpected tuple array length " ++ toString n)
    | none => .error "unexpected tuple array length -1"

/-! ## `ToValue` promotion of unsigned 64-bit inputs (`to_value.go`) -/

/-- The payload of the `Value` produced by `ToValue` for an input that is a
primitive integer kind: either the `Int` value or an error payload. -/
inductive TVResult where
  | errPayload (msg : String)
  | intPayload (i : Int)
deriving DecidableEq, Repr

/-- `ToValue` for a `uint64` input `u` (to_value.go, `case uint64`; same code
as `case uint` and the `reflect.Uint, reflect.Uint64` branch of `rv2nv`):
inputs above `math.MaxInt64` produce an error payload, otherwise the same
number as an `Int` payload. -/
def toValue_uint64 (u : Nat) : TVResult :=
  if u > maxI64.toNat then
    .errPayload ("uint " ++ toString u ++ " is too large for int64")
  else
    .intPayload (u : Int)

/-! ## Output stream acknowledgements (part_009) -/

/-- State of one output stream's `sent` channel (capacity 1): `true` when a
token is buffered, i.e. the last `Data` was acknowledged but the sender has
not yet consumed the token (or an `Ack` arrived with no send outstanding). -/
structure SentChan where
  full : Bool
deriving DecidableEq, Repr

/-- `rawStreamOut.ack` (part_009 lines 85-92): non-blocking send into the
capacity-1 `sent` channel; a full channel is the protocol error. -/
def rawStreamOut_ack (s : SentChan) : Except String SentChan :=
  if s.full then .error "received unexpected Ack" else .ok { full := true }

/-- `listStreamOut.ack` (part_009 lines 157-165): textually identical body to
`rawStreamOut.ack`. -/
def listStreamOut_ack (s : SentChan) : Except String SentChan :=
  if s.full then .error "received unexpected Ack" else .ok { full := true }

/-! ## The write-once response slot (`response.go`) -/

/-- Contents of `ExecCommand.output` (an `atomic.Value`): unset, a sent
single `Value`, or an open stream (identified by its channel/writer). -/
inductive RespSlot where
  | unset
  | value
  | listStream (ch : Nat)
  | rawStream (w : Nat)
deriving DecidableEq, Repr

/-- `ExecCommand.ReturnListStream` (response.go lines 112-128) restricted to
its effect on the response slot: on an unset slot a fresh stream `newCh` is
recorded and returned; when the slot already holds a `*listStreamOut` its
channel is returned with a nil error; anything else is the
"response has been already sent" error. -/
def returnListStream (newCh : Nat) (s : RespSlot) : Except String (Nat × RespSlot) :=
  match s with
  | .unset => .ok (newCh, .listStream newCh)
  | .listStream ch => .ok (ch, .listStream ch)
  | _ => .error "response has been already sent"

/-- `ExecCommand.ReturnRawStream` (response.go lines 138-154), same shape for
the raw writer. -/
def returnRawStream (newW : Nat) (s : RespSlot) : Except String (Nat × RespSlot) :=
  match s with
  | .unset => .ok (newW, .rawStream newW)
  | .rawStream w => .ok (w, .rawStream w)
  | _ => .error "response has been already sent"

/-! ## Run-handler completion (`plugin.go` handleRun, `response.go`) -/

/-- A frame sent by the run-completion path, at the granularity claim C1
talks about. -/
inductive RunFrame where
  | callResponseError (callID : Int)
  | callResponsePipelineEmpty (callID : Int)
  | dataErrorFrame (streamID : Nat)
deriving DecidableEq, Repr

/-- `ExecCommand.returnError` (response.go lines 166-182): the frames it
emits, by the state of the response slot. -/
def returnErrorFrames (callID : Int) (s : RespSlot) : List RunFrame :=
  match s with
  | .unset => [.callResponseError callID]
  | .value => [.callResponseError callID]
  | .rawStream w => [.dataErrorFrame w]
  | .listStream ch => [.dataErrorFrame ch]

/-- `ExecCommand.returnNothing` (response.go lines 159-164): sends the empty
`PipelineData` response exactly when the response slot is still unset. -/
def returnNothingFrames (callID : Int) (s : RespSlot) : List RunFrame :=
  match s with
  | .unset => [.callResponsePipelineEmpty callID]
  | _ => []

/-- The completion sequence of the goroutine spawned by `Plugin.handleRun`
(plugin.go lines 690-704): if the handler returned an error, `returnError`
runs; then the output stream (if any) is closed (`closeOutputStream`, which
emits no `CallResponse` and does not change the slot); then `returnNothing`
runs unconditionally.  `handlerFailed` is whether `cmd.OnRun` returned an
error, `s` is the response-slot state the handler left behind
(`returnError` does not modify the slot). -/
def handleRunCompletionFrames (callID : Int) (handlerFailed : Bool) (s : RespSlot) :
    List RunFrame :=
  (if handlerFailed then returnErrorFrames callID s else []) ++ returnNothingFrames callID s

/-- Which of the frames are `CallResponse` messages (stream `Data` frames are
not call responses). -/
def isCallResponse : RunFrame → Bool
  | .callResponseError _ => true
  | .callResponsePipelineEmpty _ => true
  | .dataErrorFrame _ => false

/-! ## The main message loop (`plugin.go` mainMsgLoop, lines 542-568) -/

/-- What one iteration's `dec.DecodeInterface()` produced, after
classification by the custom map decoder (`decodeInputMsg`): a decoded
message, end of the byte source, the `Interrupt` sentinel error, or any other
per-frame decode error (one that did not lose framing). -/
inductive LoopEvent where
  | strMsg (s : String)
  | handledMsg (ok : Bool)
  | eof
  | interruptErr
  | decodeErr (e : String)
deriving DecidableEq, Repr

/-- How `mainMsgLoop` returned. -/
inductive LoopExit where
  | eofExit
  | goodbye
  | interrupt
deriving DecidableEq, Repr

/-- `Plugin.mainMsgLoop` (plugin.go lines 542-568) over a finite sequence of
decode results, with the run context never cancelled: `io.EOF` returns nil,
`ErrInterrupt` returns itself, any other decode error is logged and the loop
continues; a decoded string equal to "Goodbye" returns `ErrGoodbye`; any
other message is handled, a handler error (`ok = false`) is logged and the
loop continues.  `none` means the input was exhausted with the loop still
waiting for the next frame. -/
def mainMsgLoop : List LoopEvent → Option LoopExit
  | [] => none
  | .eof :: _ => some .eofExit
  | .interruptErr :: _ => some .interrupt
  | .decodeErr _ :: rest => mainMsgLoop rest
  | .strMsg s :: rest => if s = "Goodbye" then some .goodbye else mainMsgLoop rest
  | .handledMsg _ :: rest => mainMsgLoop rest

/-- Events on which the loop continues to the next iteration. -/
def loopContinues : LoopEvent → Prop
  | .strMsg s => s ≠ "Goodbye"
  | .handledMsg _ => True
  | .eof => False
  | .interruptErr => False
  | .decodeErr _ => True

instance : DecidablePred loopContinues := by
  intro e
  cases e <;> simp [loopContinues] <;> infer_instance

/-! ## Operator codec (operator/operator.go) -/

/-- `op_class_names` (operator.go line 116). -/
def op_class_names : List String := ["Comparison", "Math", "Boolean", "Bits", "Assignment"]

/-- `op_classes` (operator.go lines 118-128), keeping only the class name and
op-name table (the `cid` field is `index <<< 16`, used nowhere in decoding). -/
def op_classes : List (String × List String) :=
  [("Comparison",
    ["Equal", "NotEqual", "LessThan", "GreaterThan", "LessThanOrEqual",
     "GreaterThanOrEqual", "RegexMatch", "NotRegexMatch", "In", "NotIn", "Has",
     "NotHas", "StartsWith", "EndsWith"]),
   ("Math",
    ["Add", "Subtract", "Multiply", "Divide", "FloorDivide", "Modulo", "Pow",
     "Concatenate"]),
   ("Boolean", ["Or", "Xor", "And"]),
   ("Bits", ["BitOr", "BitXor", "BitAnd", "ShiftLeft", "ShiftRight"]),
   ("Assignment",
    ["Assign", "AddAssign", "SubtractAssign", "MultiplyAssign", "DivideAssign",
     "ConcatenateAssign"])]

/-- `Operator.DecodeMsgpack` (operator.go lines 93-114).  The resulting
`Operator` is `classIndex <<< 16 + opIndex`.  The diagnostic strings embed the
offending name with Go's `%q`, which for strings of printable ASCII without
quote or backslash is plain double-quoting (the only strings the tables
contain; `goQuotePlain` scopes the theorems to that case). -/
def Operator_DecodeMsgpack (toks : List Tok) : Except String (Nat × List Tok) :=
  eBind (decodeWrapperMap toks) fun (className, toks) =>
    match op_class_names.indexOf? className with
    | none => .error ("unknown Operator class \"" ++ className ++ "\"")
    | some idx =>
      eBind (decStr toks) fun (opName, toks) =>
        match (op_classes.getD idx ("", [])).2.indexOf? opName with
        | none =>
            .error ("unknown Operator \"" ++ opName ++ "\" in class \"" ++ className ++ "\"")
        | some opIdx => .ok (idx * 2 ^ 16 + opIdx, toks)

/-- The on-wire form of an operator, a single-entry map
`\x7bClassName: OpName\x7d`.  There is no plugin-side encoder for `Operator`
in the sources (the engine produces it); this is the wire form the spec
(§4.8) and the decoder define, as also constructed by the package's test. -/
def encodeOperatorWire (className opName : String) : List Tok :=
  [.mapLen 1, .str className, .str opName]

/-- Strings on which Go's `%q` is plain double-quoting. -/
def goQuotePlain (s : String) : Prop :=
  ∀ c ∈ s.data, 32 ≤ c.toNat ∧ c.toNat < 127 ∧ c ≠ '"' ∧ c ≠ '\\'

instance (s : String) : Decidable (goQuotePlain s) := by
  unfold goQuotePlain
  infer_instance

/-! ## IntRange iteration (`range.go` lines 87-144) -/

/-- `RangeBound` (range.go lines 13-19). -/
inductive RangeBound where
  | included
  | excluded
  | unbounded
deriving DecidableEq, Repr

/-- `IntRange` (range.go lines 46-51); the fields are Go `int64`s, so a
well-formed instance carries values in the int64 range (`WFIntRange`). -/
structure IntRangeM where
  start : Int
  step : Int
  endv : Int
  bound : RangeBound
deriving DecidableEq, Repr

/-- The int64 range constraint of the Go struct fields. -/
def inI64 (x : Int) : Prop := minI64 ≤ x ∧ x ≤ maxI64

def WFIntRange (r : IntRangeM) : Prop := inI64 r.start ∧ inI64 r.step ∧ inI64 r.endv

instance : DecidablePred inI64 := by
  intro x
  unfold inI64
  infer_instance

instance : DecidablePred WFIntRange := by
  intro r
  unfold WFIntRange
  infer_instance

/-- `add` (range.go lines 99-102): wrapping int64 addition together with the
overflow test `(c > a) == (b > 0)`. -/
def addI64 (a b : Int) : Int × Bool :=
  let c := wrap64 (a + b)
  (c, (decide (c > a)) == (decide (b > 0)))

/-- The loop of `IntRange.countUp` (range.go lines 104-124), collected into a
list: `for i, ok := v.Start, true; i <= end && ok; i, ok = add(i, v.Step)
\x7b yield i \x7d`.  The Go loop has no fuel; its iteration count is bounded
by 2^64 + 1 (each step moves by at least 1 inside the int64 range and the
overflow flag stops wrap-around), so any `fuel > 2^64` — `rangeFuel` below —
computes the complete sequence, which the characterization theorem makes
exact. -/
def countUpLoop (E step : Int) : Nat → Int → List Int
  | 0, _ => []
  | fuel + 1, i =>
      if i ≤ E then
        i :: (match addI64 i step with
              | (j, true) => countUpLoop E step fuel j
              | (_, false) => [])
      else []

/-- The loop of `IntRange.countDown` (range.go lines 126-144). -/
def countDownLoop (E step : Int) : Nat → Int → List Int
  | 0, _ => []
  | fuel + 1, i =>
      if i ≥ E then
        i :: (match addI64 i step with
              | (j, true) => countDownLoop E step fuel j
              | (_, false) => [])
      else []

def rangeFuel : Nat := 2 ^ 64 + 2

/-- The terminal computed by `IntRange.countUp` (range.go lines 106-116):
note `end = v.End - 1` for `Excluded` is Go int64 arithmetic, which wraps
when `v.End` is the minimum int64. -/
def codeUpTerminal (r : IntRangeM) : Int :=
  match r.bound with
  | .unbounded => maxI64
  | .included => r.endv
  | .excluded => wrap64 (r.endv - 1)

/-- The terminal computed by `IntRange.countDown` (range.go lines 128-136);
`end = v.End + 1` wraps when `v.End` is the maximum int64. -/
def codeDownTerminal (r : IntRangeM) : Int :=
  match r.bound with
  | .unbounded => minI64
  | .included => r.endv
  | .excluded => wrap64 (r.endv + 1)

/-- `IntRange.countUp` (range.go lines 104-124). -/
def countUp (r : IntRangeM) : List Int :=
  countUpLoop (codeUpTerminal r) r.step rangeFuel r.start

/-- `IntRange.countDown` (range.go lines 126-144). -/
def countDown (r : IntRangeM) : List Int :=
  countDownLoop (codeDownTerminal r) r.step rangeFuel r.start

/-- `IntRange.All` (range.go lines 87-97). -/
def IntRange_All (r : IntRangeM) : List Int :=
  if r.step > 0 then countUp r
  else if r.step < 0 then countDown r
  else []

/-- `IntRange.Validate` (range.go lines 64-80). -/
def IntRange_Validate (r : IntRangeM) : Except String Unit :=
  if r.step > 0 then
    if r.bound ≠ .unbounded ∧ r.start > r.endv then
      .error "start value must be smaller than end value"
    else .ok ()
  else if r.step < 0 then
    if r.bound ≠ .unbounded ∧ r.start ≤ r.endv then
      .error "start value must be greater than end value"
    else .ok ()
  else .error "step must be non-zero"

/-- Specification side of C5: the terminal value of an upward iteration, as
the claim states it (`Included` stops at `end`, `Excluded` strictly before
`end`, `Unbounded` at the int64 maximum).  This is the claim's reading of
the bound — without the wrap-around that the code's `end - 1` performs. -/
def specUpTerminal (r : IntRangeM) : Int :=
  match r.bound with
  | .unbounded => maxI64
  | .included => r.endv
  | .excluded => r.endv - 1

/-- Specification side of C5, downward direction. -/
def specDownTerminal (r : IntRangeM) : Int :=
  match r.bound with
  | .unbounded => minI64
  | .included => r.endv
  | .excluded => r.endv + 1

/-- Number of values an upward iteration from `i` with positive `step` and
terminal `E` yields. -/
def upCount (E step i : Int) : Nat :=
  if i ≤ E then (E - i).toNat / step.toNat + 1 else 0

/-- Number of values a downward iteration yields. -/
def downCount (E step i : Int) : Nat :=
  if i ≥ E then (i - E).toNat / (-step).toNat + 1 else 0

/-! ## List input stream (part_004 lines 307-344, `listStreamIn`) -/

/-- Program counter of the single worker goroutine started by
`listStreamIn.Run`: waiting to pop `lsi.buf` (`idle`), holding a popped item
about to be sent on `lsi.data` (`deliver v`), or about to call `onAck` after
a successful send (`acking`). -/
inductive WorkerPhase (α : Type) where
  | idle
  | deliver (v : α)
  | acking
deriving DecidableEq, Repr

/-- State of one list input stream: the `Data` payloads received so far (in
arrival order), the contents of the buffered channel `lsi.buf`, the worker's
phase, the values the consumer has taken from `lsi.data`, and the number of
`Ack` messages emitted via `onAck`. -/
structure ListStreamInState (α : Type) where
  received : List α
  buf : List α
  phase : WorkerPhase α
  delivered : List α
  acks : Nat
deriving DecidableEq, Repr

/-- The atomic transitions of the stream, as the Go code serializes them:
`recv` is `listStreamIn.received` pushing the payload into `lsi.buf`; the
worker loop of `listStreamIn.Run` then pops an item (`pop`), sends it to the
consumer on `lsi.data` (`deliverStep` — the send completes exactly when the
consumer receives the value), and only then calls `onAck` (`ackStep`).
Context cancellation and `endOfData` are outside this claim. -/
inductive ListStreamStep (α : Type) :
    ListStreamInState α → ListStreamInState α → Prop where
  | recv (s : ListStreamInState α) (v : α) :
      ListStreamStep α s
        { s with received := s.received ++ [v], buf := s.buf ++ [v] }
  | pop (s : ListStreamInState α) (v : α) (rest : List α) :
      s.phase = .idle → s.buf = v :: rest →
      ListStreamStep α s { s with buf := rest, phase := .deliver v }
  | deliverStep (s : ListStreamInState α) (v : α) :
      s.phase = .deliver v →
      ListStreamStep α s
        { s with phase := .acking, delivered := s.delivered ++ [v] }
  | ackStep (s : ListStreamInState α) :
      s.phase = .acking →
      ListStreamStep α s { s with phase := .idle, acks := s.acks + 1 }

/-- States reachable from the stream's initial state (fresh
`newInputStreamList`, worker just started). -/
inductive ListStreamReachable (α : Type) : ListStreamInState α → Prop where
  | init : ListStreamReachable α ⟨[], [], .idle, [], 0⟩
  | step {s s' : ListStreamInState α} :
      ListStreamReachable α s → ListStreamStep α s s' → ListStreamReachable α s'

/-- The item the worker holds, as a list. -/
def phaseHold {α : Type} : WorkerPhase α → List α
  | .idle => []
  | .deliver v => [v]
  | .acking => []

/-- 1 when a delivered item has not been acknowledged yet. -/
def ackDebt {α : Type} : WorkerPhase α → Nat
  | .acking => 1
  | _ => 0

/-- `DecidableEq` for decode results, so concrete decoder runs can be settled
by `decide`. -/
instance {ε α : Type} [DecidableEq ε] [DecidableEq α] : DecidableEq (Except ε α) :=
  fun a b =>
    match a, b with
    | .ok x, .ok y =>
        if h : x = y then isTrue (by rw [h]) else isFalse (by simp [h])
    | .error x, .error y =>
        if h : x = y then isTrue (by rw [h]) else isFalse (by simp [h])
    | .ok _, .error _ => isFalse (by simp)
    | .error _, .ok _ => isFalse (by simp)

/-! ## Generic MessagePack values (`msgpack.RawMessage`, `Decoder.DecodeMap`) -/

/-- A complete generic MessagePack value, as copied verbatim by
`msgpack.RawMessage` (Closure captures) and produced by the generic
`Decoder.DecodeMap` value decoding (hello features). -/
inductive MObj where
  | nilm
  | boolm (b : Bool)
  | intm (i : Int)
  | strm (s : String)
  | binm (b : List Nat)
  | f64m (bits : Nat)
  | arrm (items : List MObj)
  | mapm (pairs : List (MObj × MObj))
deriving Repr

mutual

/-- The token stream of a generic value (what `RawMessage.EncodeMsgpack`
writes back verbatim). -/
def encodeMObj : MObj → List Tok
  | .nilm => [.nilv]
  | .boolm b => [.boolv b]
  | .intm i => [.int i]
  | .strm s => [.str s]
  | .binm b => [.bin b]
  | .f64m bits => [.f64 bits]
  | .arrm items => .arrLen items.length :: encodeMObjList items
  | .mapm pairs => .mapLen pairs.length :: encodeMObjPairs pairs

def encodeMObjList : List MObj → List Tok
  | [] => []
  | x :: xs => encodeMObj x ++ encodeMObjList xs

def encodeMObjPairs : List (MObj × MObj) → List Tok
  | [] => []
  | (k, v) :: xs => encodeMObj k ++ encodeMObj v ++ encodeMObjPairs xs

end

mutual

/-- Reading one complete generic value (`RawMessage.DecodeMsgpack` /
`Decoder.Skip`).  The fuel argument is a recursion bound; any
`fuel ≥ length of the value's token stream` reads the full value. -/
def decodeMObjF : Nat → List Tok → Except String (MObj × List Tok)
  | 0, _ => .error "msgpack: generic value recursion bound exceeded"
  | _ + 1, [] => .error "EOF"
  | _ + 1, .nilv :: rest => .ok (.nilm, rest)
  | _ + 1, .boolv b :: rest => .ok (.boolm b, rest)
  | _ + 1, .int i :: rest => .ok (.intm i, rest)
  | _ + 1, .str s :: rest => .ok (.strm s, rest)
  | _ + 1, .bin b :: rest => .ok (.binm b, rest)
  | _ + 1, .f64 bits :: rest => .ok (.f64m bits, rest)
  | fuel + 1, .arrLen n :: rest =>
      eBind (decodeMObjListF fuel n rest) fun (items, rest) => .ok (.arrm items, rest)
  | fuel + 1, .mapLen n :: rest =>
      eBind (decodeMObjPairsF fuel n rest) fun (pairs, rest) => .ok (.mapm pairs, rest)

def decodeMObjListF : Nat → Nat → List Tok → Except String (List MObj × List Tok)
  | _, 0, toks => .ok ([], toks)
  | fuel, n + 1, toks =>
      eBind (decodeMObjF fuel toks) fun (x, toks) =>
        eBind (decodeMObjListF fuel n toks) fun (xs, toks) => .ok (x :: xs, toks)

def decodeMObjPairsF : Nat → Nat → List Tok → Except String (List (MObj × MObj) × List Tok)
  | _, 0, toks => .ok ([], toks)
  | fuel, n + 1, toks =>
      eBind (decodeMObjF fuel toks) fun (k, toks) =>
        eBind (decodeMObjF fuel toks) fun (v, toks) =>
          eBind (decodeMObjPairsF fuel n toks) fun (xs, toks) => .ok ((k, v) :: xs, toks)

end

/-! ## Span codec (value.go lines 386-434) -/

/-- `Span` (value.go): byte offsets, Go `int` fields. -/
structure SpanM where
  start : Int
  endv : Int
deriving DecidableEq, Repr

/-- `Span.encodeMsgpack` (value.go lines 391-408). -/
def encodeSpanM (v : SpanM) : List Tok :=
  [.mapLen 2, .str "start", .int v.start, .str "end", .int v.endv]

/-- One iteration of the key switch in `Span.decodeMsgpack`; a key other
than "start"/"end" matches no case and its value is not consumed (the Go
switch has no default branch). -/
def decodeSpanField (acc : SpanM) (key : String) (toks : List Tok) :
    Except String (SpanM × List Tok) :=
  match key with
  | "start" => eBind (decInt64 toks) fun (i, toks) => .ok ({ acc with start := i }, toks)
  | "end" => eBind (decInt64 toks) fun (i, toks) => .ok ({ acc with endv := i }, toks)
  | _ => .ok (acc, toks)

def decodeSpanLoop : Nat → SpanM → List Tok → Except String (SpanM × List Tok)
  | 0, acc, toks => .ok (acc, toks)
  | n + 1, acc, toks =>
      eBind (decStr toks) fun (key, toks) =>
        eBind (decodeSpanField acc key toks) fun (acc, toks) =>
          decodeSpanLoop n acc toks

/-- `Span.decodeMsgpack` (value.go lines 410-434): exactly two keys. -/
def decodeSpanM (toks : List Tok) : Except String (SpanM × List Tok) :=
  eBind (decMapLen toks) fun (cnt, toks) =>
    match cnt with
    | some 2 => decodeSpanLoop 2 ⟨0, 0⟩ toks
    | some n => .error ("expected span map to contain two keys, got " ++ toString n)
    | none => .error "expected span map to contain two keys, got -1"

def WFSpan (sp : SpanM) : Prop := inI64 sp.start ∧ inI64 sp.endv

instance : DecidablePred WFSpan := by
  intro sp
  unfold WFSpan
  infer_instance

/-! ## RFC-3339 date formatting and parsing (Go `time.Format`/`time.Parse`
with the `time.RFC3339` layout, used by the Date value variant) -/

/-- Broken-down Go `time.Time` at the precision the RFC-3339 codec can see:
calendar fields, nanoseconds, and the zone offset in minutes (Go offsets are
seconds; RFC-3339 offsets have minute granularity). -/
structure GoTime where
  year : Nat
  month : Nat
  day : Nat
  hour : Nat
  minute : Nat
  second : Nat
  nanosec : Nat
  offsetMin : Int
deriving DecidableEq, Repr

def isLeapYear (y : Nat) : Bool := y % 4 == 0 && (y % 100 != 0 || y % 400 == 0)

def daysInMonth (y m : Nat) : Nat :=
  match m with
  | 1 => 31
  | 2 => if isLeapYear y then 29 else 28
  | 3 => 31
  | 4 => 30
  | 5 => 31
  | 6 => 30
  | 7 => 31
  | 8 => 31
  | 9 => 30
  | 10 => 31
  | 11 => 30
  | 12 => 31
  | _ => 0

/-- A `time.Time` the RFC-3339 layout can represent faithfully. -/
def WFGoTime (t : GoTime) : Prop :=
  t.year ≤ 9999 ∧ 1 ≤ t.month ∧ t.month ≤ 12 ∧ 1 ≤ t.day ∧
    t.day ≤ daysInMonth t.year t.month ∧ t.hour ≤ 23 ∧ t.minute ≤ 59 ∧
    t.second ≤ 59 ∧ t.nanosec < 1000000000 ∧
    -1439 ≤ t.offsetMin ∧ t.offsetMin ≤ 1439

instance : DecidablePred WFGoTime := by
  intro t
  unfold WFGoTime
  infer_instance

def digitChar (d : Nat) : Char := Char.ofNat (48 + d)

def pad2 (n : Nat) : List Char := [digitChar (n / 10), digitChar (n % 10)]

def pad4 (n : Nat) : List Char :=
  [digitChar (n / 1000), digitChar (n / 100 % 10), digitChar (n / 10 % 10),
   digitChar (n % 10)]

/-- The `Z07:00` layout element: `Z` exactly when the offset is zero. -/
def formatOffset (off : Int) : List Char :=
  if off = 0 then ['Z']
  else (if 0 < off then '+' else '-') ::
    (pad2 (off.natAbs / 60) ++ ':' :: pad2 (off.natAbs % 60))

/-- `t.Format(time.RFC3339)` — layout `2006-01-02T15:04:05Z07:00`; the
layout has no fractional-second element, so nanoseconds are dropped. -/
def formatRFC3339 (t : GoTime) : List Char :=
  pad4 t.year ++ '-' :: pad2 t.month ++ '-' :: pad2 t.day ++
    'T' :: pad2 t.hour ++ ':' :: pad2 t.minute ++ ':' :: pad2 t.second ++
    formatOffset t.offsetMin

def readDigit : List Char → Except String (Nat × List Char)
  | c :: rest =>
      if 48 ≤ c.toNat ∧ c.toNat ≤ 57 then .ok (c.toNat - 48, rest)
      else .error "expected a digit"
  | [] => .error "expected a digit, got end of input"

def read2 (cs : List Char) : Except String (Nat × List Char) :=
  eBind (readDigit cs) fun (d1, cs) =>
    eBind (readDigit cs) fun (d2, cs) => .ok (d1 * 10 + d2, cs)

def read4 (cs : List Char) : Except String (Nat × List Char) :=
  eBind (readDigit cs) fun (d1, cs) =>
    eBind (readDigit cs) fun (d2, cs) =>
      eBind (readDigit cs) fun (d3, cs) =>
        eBind (readDigit cs) fun (d4, cs) =>
          .ok (d1 * 1000 + d2 * 100 + d3 * 10 + d4, cs)

def expectChar (c : Char) : List Char → Except String (List Char)
  | x :: rest => if x = c then .ok rest else .error "unexpected character"
  | [] => .error "unexpected end of input"

def isDigitChar (c : Char) : Bool := 48 ≤ c.toNat && c.toNat ≤ 57

def takeDigits : List Char → (List Nat × List Char)
  | c :: rest =>
      if isDigitChar c then
        let (ds, rest2) := takeDigits rest
        ((c.toNat - 48) :: ds, rest2)
      else ([], c :: rest)
  | [] => ([], [])

/-- Nanoseconds from a parsed fraction-digit list: the first nine digits,
right-padded with zeros (Go `parseNanoseconds`). -/
def nanosOfDigits (ds : List Nat) : Nat :=
  ((ds.take 9).foldl (fun acc d => acc * 10 + d) 0) * 10 ^ (9 - min ds.length 9)

/-- Go `Parse`'s special case: after the seconds, a `.` followed by digits
is accepted as a fractional second even though the layout has none. -/
def parseFraction (cs : List Char) : Except String (Nat × List Char) :=
  match cs with
  | c :: rest =>
      if c = '.' then
        match takeDigits rest with
        | ([], _) => .error "bad fractional second"
        | (ds, rest2) => .ok (nanosOfDigits ds, rest2)
      else .ok (0, c :: rest)
  | [] => .ok (0, [])

def parseOffset : List Char → Except String (Int × List Char)
  | c :: rest =>
      if c = 'Z' then .ok (0, rest)
      else if c = '+' ∨ c = '-' then
        eBind (read2 rest) fun (hh, cs) =>
          eBind (expectChar ':' cs) fun cs =>
            eBind (read2 cs) fun (mm, cs) =>
              if hh ≤ 23 then
                if mm ≤ 59 then
                  .ok (if c = '+' then (hh * 60 + mm : Int) else -(hh * 60 + mm : Int), cs)
                else .error "time zone offset minute out of range"
              else .error "time zone offset hour out of range"
      else .error "bad time zone indicator"
  | [] => .error "missing time zone indicator"

/-- `time.Parse(time.RFC3339, s)` restricted to what the Date decoder needs:
fixed-position calendar fields, the optional fractional second, the zone,
no trailing text, and Go's range validation of every field. -/
def parseRFC3339 (cs : List Char) : Except String GoTime :=
  eBind (read4 cs) fun (year, cs) =>
  eBind (expectChar '-' cs) fun cs =>
  eBind (read2 cs) fun (month, cs) =>
  eBind (expectChar '-' cs) fun cs =>
  eBind (read2 cs) fun (day, cs) =>
  eBind (expectChar 'T' cs) fun cs =>
  eBind (read2 cs) fun (hour, cs) =>
  eBind (expectChar ':' cs) fun cs =>
  eBind (read2 cs) fun (minute, cs) =>
  eBind (expectChar ':' cs) fun cs =>
  eBind (read2 cs) fun (second, cs) =>
  eBind (parseFraction cs) fun (nanosec, cs) =>
  eBind (parseOffset cs) fun (offset, cs) =>
  match cs with
  | _ :: _ => .error "extra text"
  | [] =>
      if 1 ≤ month ∧ month ≤ 12 then
        if 1 ≤ day ∧ day ≤ daysInMonth year month then
          if hour ≤ 23 then
            if minute ≤ 59 then
              if second ≤ 59 then
                .ok ⟨year, month, day, hour, minute, second, nanosec, offset⟩
              else .error "second out of range"
            else .error "minute out of range"
          else .error "hour out of range"
        else .error "day out of range"
      else .error "month out of range"

/-! ## Generic decode loops

The repository decodes maps with `for idx := range cnt` loops that read a
string key and dispatch on it, and arrays with count-driven element loops.
The two helpers below capture those shapes once; each concrete decoder
supplies its per-key (or per-element) action. -/

/-- A count-driven element loop (`for i := range cnt` reading one value per
iteration). -/
def decodeListLoop {α : Type} (sub : List Tok → Except String (α × List Tok)) :
    Nat → List Tok → Except String (List α × List Tok)
  | 0, toks => .ok ([], toks)
  | n + 1, toks =>
      eBind (sub toks) fun (x, toks) =>
        eBind (decodeListLoop sub n toks) fun (xs, toks) => .ok (x :: xs, toks)

/-- A map-field loop: each iteration reads a string key and runs the
per-key action on the accumulated struct. -/
def decodeFieldLoop {σ : Type}
    (action : σ → String → List Tok → Except String (σ × List Tok)) :
    Nat → σ → List Tok → Except String (σ × List Tok)
  | 0, acc, toks => .ok (acc, toks)
  | n + 1, acc, toks =>
      eBind (decStr toks) fun (key, toks) =>
        eBind (action acc key toks) fun (acc, toks) =>
          decodeFieldLoop action n acc toks

/-- `startValue` (value.go lines 198-206): key `typeName` whose value is a
two-entry map opened with key `val`; the caller writes the value of `val`
and one more key/value pair. -/
def startValueToks (typeName : String) : List Tok :=
  [.str typeName, .mapLen 2, .str "val"]

/-! ## LabeledError (part_008) and its reflection codec

`LabeledError` carries msgpack tags `msg`, `labels,omitempty`,
`code,omitempty`, `url,omitempty`, `help,omitempty`, `inner,omitempty`;
the msgpack library encodes a tagged struct as a map holding the
non-omitted fields in declaration order and decodes by dispatching on the
key, skipping unknown keys. -/

/-- `ErrorLabel` (part_008): tags `text`, `span`. -/
structure ErrorLabelM where
  text : String
  span : SpanM
deriving DecidableEq, Repr

/-- `LabeledError` (part_008).  `inner` makes the type recursive. -/
inductive LabeledErrorM where
  | mk (msg : String) (labels : List ErrorLabelM) (code url help : String)
      (inner : List LabeledErrorM)
deriving Repr

/-- Reflection encoding of one `ErrorLabel`: a two-entry map, fields in
declaration order (`Span` has no exported msgpack methods, so it is
reflected as the map with keys start and end — the same tokens
`Span.encodeMsgpack` writes). -/
def encodeErrorLabelM (l : ErrorLabelM) : List Tok :=
  [.mapLen 2, .str "text", .str l.text, .str "span"] ++ encodeSpanM l.span

def encodeErrorLabels : List ErrorLabelM → List Tok
  | [] => []
  | l :: ls => encodeErrorLabelM l ++ encodeErrorLabels ls

mutual

/-- Reflection encoding of `LabeledError`: map of the non-empty fields,
keys in declaration order `msg, labels, code, url, help, inner`
(`omitempty` drops empty strings and empty slices). -/
def encodeLabeledErrorM : LabeledErrorM → List Tok
  | .mk msg labels code url help inner =>
      .mapLen (1 + (if labels.isEmpty then 0 else 1) + (if code = "" then 0 else 1) +
          (if url = "" then 0 else 1) + (if help = "" then 0 else 1) +
          (if inner.isEmpty then 0 else 1)) ::
        .str "msg" :: .str msg ::
          ((if labels.isEmpty then [] else
              .str "labels" :: .arrLen labels.length :: encodeErrorLabels labels) ++
            (if code = "" then [] else [.str "code", .str code]) ++
            (if url = "" then [] else [.str "url", .str url]) ++
            (if help = "" then [] else [.str "help", .str help]) ++
            (if inner.isEmpty then [] else
              .str "inner" :: .arrLen inner.length :: encodeLEList inner))

def encodeLEList : List LabeledErrorM → List Tok
  | [] => []
  | e :: es => encodeLabeledErrorM e ++ encodeLEList es

end

/-- One key of the reflection decode of `ErrorLabel`; an unknown key skips
its value (`fuel` bounds the skipped generic value). -/
def decodeErrorLabelField (fuel : Nat) (acc : ErrorLabelM) (key : String)
    (toks : List Tok) : Except String (ErrorLabelM × List Tok) :=
  match key with
  | "text" => eBind (decStr toks) fun (s, toks) => .ok ({ acc with text := s }, toks)
  | "span" => eBind (decodeSpanM toks) fun (sp, toks) => .ok ({ acc with span := sp }, toks)
  | _ => eBind (decodeMObjF fuel toks) fun (_, toks) => .ok (acc, toks)

/-- Reflection decode of one `ErrorLabel` (wire-nil yields the zero value). -/
def decodeErrorLabelM (fuel : Nat) (toks : List Tok) :
    Except String (ErrorLabelM × List Tok) :=
  eBind (decMapLen toks) fun (cnt, toks) =>
    match cnt with
    | none => .ok (⟨"", ⟨0, 0⟩⟩, toks)
    | some n => decodeFieldLoop (decodeErrorLabelField fuel) n ⟨"", ⟨0, 0⟩⟩ toks

/-- One key of the reflection decode of `LabeledError`; `sub` decodes one
nested `LabeledError` (the `inner` elements). -/
def decodeLEField (fuel : Nat)
    (sub : List Tok → Except String (LabeledErrorM × List Tok))
    (acc : LabeledErrorM) (key : String) (toks : List Tok) :
    Except String (LabeledErrorM × List Tok) :=
  match acc with
  | .mk msg labels code url help inner =>
      match key with
      | "msg" => eBind (decStr toks) fun (s, toks) =>
          .ok (.mk s labels code url help inner, toks)
      | "labels" =>
          eBind (decArrLen toks) fun (l, toks) =>
            match l with
            | none => .ok (.mk msg [] code url help inner, toks)
            | some l =>
                eBind (decodeListLoop (decodeErrorLabelM fuel) l toks) fun (ls, toks) =>
                  .ok (.mk msg ls code url help inner, toks)
      | "code" => eBind (decStr toks) fun (s, toks) =>
          .ok (.mk msg labels s url help inner, toks)
      | "url" => eBind (decStr toks) fun (s, toks) =>
          .ok (.mk msg labels code s help inner, toks)
      | "help" => eBind (decStr toks) fun (s, toks) =>
          .ok (.mk msg labels code url s inner, toks)
      | "inner" =>
          eBind (decArrLen toks) fun (l, toks) =>
            match l with
            | none => .ok (.mk msg labels code url help [], toks)
            | some l =>
                eBind (decodeListLoop sub l toks) fun (es, toks) =>
                  .ok (.mk msg labels code url help es, toks)
      | _ => eBind (decodeMObjF fuel toks) fun (_, toks) => .ok (acc, toks)

/-- Reflection decode of `LabeledError` (`dec.DecodeValue`, as used by the
Value decoder field `error`, the Data `Raw`/`Err` arm and the test-side
CallResponse decoder); the fuel bounds the nesting through `inner`. -/
def decodeLabeledErrorF : Nat → List Tok → Except String (LabeledErrorM × List Tok)
  | 0, _ => .error "LabeledError recursion bound exceeded"
  | fuel + 1, toks =>
      eBind (decMapLen toks) fun (cnt, toks) =>
        match cnt with
        | none => .ok (.mk "" [] "" "" "" [], toks)
        | some n =>
            decodeFieldLoop (decodeLEField fuel (fun ts => decodeLabeledErrorF fuel ts)) n
              (.mk "" [] "" "" "" []) toks

def wfErrorLabel (l : ErrorLabelM) : Bool := decide (WFSpan l.span)

mutual

/-- Conditions under which a `LabeledError` survives the wire: every span
must fit int64 (the fields are Go ints). -/
def wfLabeledError : LabeledErrorM → Bool
  | .mk _ labels _ _ _ inner => labels.all wfErrorLabel && wfLEList inner

def wfLEList : List LabeledErrorM → Bool
  | [] => true
  | e :: es => wfLabeledError e && wfLEList es

end

/-! ## PathMember and CellPath (part_011, the revision with `casing`) -/

/-- A `pathItem` (part_011 lines 359-364): either the uint or the string
instantiation of the generic struct. -/
inductive PathMemberM where
  | intMember (value : Nat) (optional : Bool) (casing : Bool) (span : SpanM)
  | strMember (value : String) (optional : Bool) (casing : Bool) (span : SpanM)
deriving DecidableEq, Repr

/-- `pathItem.encodeMsgpack` (part_011 lines 404-435): wrapper key `Int` or
`String`, then a four-entry map `val, span, casing, optional`. -/
def encodePathMemberM : PathMemberM → List Tok
  | .intMember v opt cas sp =>
      encodeMapStart "Int" ++ [.mapLen 4, .str "val", .int v, .str "span"] ++
        encodeSpanM sp ++
        [.str "casing", .str (if cas then "Sensitive" else "Insensitive"),
          .str "optional", .boolv opt]
  | .strMember s opt cas sp =>
      encodeMapStart "String" ++ [.mapLen 4, .str "val", .str s, .str "span"] ++
        encodeSpanM sp ++
        [.str "casing", .str (if cas then "Sensitive" else "Insensitive"),
          .str "optional", .boolv opt]

/-- The key-indexed state of `decodePathMember` (part_011 line 447):
`sVal, iVal, span, opt, casing` with casing defaulting to sensitive. -/
structure PMAcc where
  sVal : String
  iVal : Nat
  span : SpanM
  opt : Bool
  casing : Bool
deriving DecidableEq, Repr

/-- One key of `decodePathMember` (part_011 lines 448-485). -/
def decodePathMemberField (itemType : String) (acc : PMAcc) (key : String)
    (toks : List Tok) : Except String (PMAcc × List Tok) :=
  match key with
  | "val" =>
      match itemType with
      | "Int" => eBind (decUint toks) fun (n, toks) => .ok ({ acc with iVal := n }, toks)
      | "String" => eBind (decStr toks) fun (s, toks) => .ok ({ acc with sVal := s }, toks)
      | _ => .error ("unsupported CellPath val type " ++ itemType)
  | "span" => eBind (decodeSpanM toks) fun (sp, toks) => .ok ({ acc with span := sp }, toks)
  | "optional" => eBind (decBool toks) fun (b, toks) => .ok ({ acc with opt := b }, toks)
  | "casing" =>
      eBind (decStr toks) fun (s, toks) =>
        match s with
        | "Sensitive" => .ok ({ acc with casing := true }, toks)
        | "Insensitive" => .ok ({ acc with casing := false }, toks)
        | _ => .error ("unsupported value " ++ s)
  | _ => .error "unsupported key"

/-- `decodePathMember` (part_011 lines 437-494).  A wire-nil map length is
`-1`, over which the Go `range` loop runs zero iterations. -/
def decodePathMemberM (toks : List Tok) : Except String (PathMemberM × List Tok) :=
  eBind (decodeWrapperMap toks) fun (itemType, toks) =>
    eBind (decMapLen toks) fun (cnt, toks) =>
      eBind (decodeFieldLoop (decodePathMemberField itemType) (cnt.getD 0)
          ⟨"", 0, ⟨0, 0⟩, false, true⟩ toks) fun (acc, toks) =>
        match itemType with
        | "Int" => .ok (.intMember acc.iVal acc.opt acc.casing acc.span, toks)
        | "String" => .ok (.strMember acc.sVal acc.opt acc.casing acc.span, toks)
        | _ => .error ("unsupported CellPath member type " ++ itemType)

def encodePathMembers : List PathMemberM → List Tok
  | [] => []
  | m :: ms => encodePathMemberM m ++ encodePathMembers ms

/-- `CellPath.encodeMsgpack` (part_011 lines 341-357): wrapper key
`members` holding the member array. -/
def encodeCellPathM (members : List PathMemberM) : List Tok :=
  [.mapLen 1, .str "members", .arrLen members.length] ++ encodePathMembers members

/-- `CellPath.decodeMsgpack` (part_011 lines 319-339); a wire-nil member
count is `-1`, over which the Go `range` loop runs zero iterations. -/
def decodeCellPathM (toks : List Tok) : Except String (List PathMemberM × List Tok) :=
  eBind (decodeWrapperMap toks) fun (key, toks) =>
    if key = "members" then
      eBind (decArrLen toks) fun (cnt, toks) =>
        decodeListLoop decodePathMemberM (cnt.getD 0) toks
    else .error ("expected key members, got " ++ key)

/-- Conditions under which a path member survives the wire: the span is an
int64 pair and an integer member fits uint64. -/
def wfPathMember : PathMemberM → Bool
  | .intMember v _ _ sp => decide (v < 2 ^ 64) && decide (WFSpan sp)
  | .strMember _ _ _ sp => decide (WFSpan sp)

/-! ## IntRange wire codec (range.go lines 148-269) -/

/-- `IntRange.encodeEndBound` (range.go lines 180-200): `Unbounded` is the
bare string and carries no end value; the other bounds are a single-entry
map from the bound name to the end value. -/
def encodeEndBound (r : IntRangeM) : List Tok :=
  match r.bound with
  | .unbounded => [.str "Unbounded"]
  | .included => [.mapLen 1, .str "Included", .int r.endv]
  | .excluded => [.mapLen 1, .str "Excluded", .int r.endv]

/-- `IntRange.EncodeMsgpack` (range.go lines 148-178): validates first,
then writes the `IntRange` wrapper and the map `start, step, end`. -/
def IntRange_EncodeMsgpack (r : IntRangeM) : Except String (List Tok) :=
  eBind (IntRange_Validate r) fun _ =>
    .ok (encodeMapStart "IntRange" ++
      [.mapLen 3, .str "start", .int r.start, .str "step", .int r.step, .str "end"] ++
      encodeEndBound r)

/-- The peek-and-name phase of `IntRange.decodeEndBound` (range.go lines
202-221): a map must be a single-entry map; a string is read directly; any
other code leaves the name empty (the Go switch has no default). -/
def decodeEndBoundName (toks : List Tok) : Except String (String × List Tok) :=
  eBind (peekTok toks) fun code =>
    if isMapCode code then
      eBind (decMapLen toks) fun (n, toks) =>
        match n with
        | some 1 => decStr toks
        | _ => .error "expected single item map as end bound"
    else if isStrCode code then decStr toks
    else .ok ("", toks)

/-- The name dispatch of `IntRange.decodeEndBound` (range.go lines
223-237): `Unbounded` reads no end value — a previously decoded `End` is
never restored. -/
def decodeEndBound (acc : IntRangeM) (toks : List Tok) :
    Except String (IntRangeM × List Tok) :=
  eBind (decodeEndBoundName toks) fun (name, toks) =>
    match name with
    | "Unbounded" => .ok ({ acc with bound := .unbounded }, toks)
    | "Included" =>
        eBind (decInt64 toks) fun (e, toks) =>
          .ok ({ acc with bound := .included, endv := e }, toks)
    | "Excluded" =>
        eBind (decInt64 toks) fun (e, toks) =>
          .ok ({ acc with bound := .excluded, endv := e }, toks)
    | _ => .error ("unsupported bound name \"" ++ name ++ "\"")

/-- One key of `IntRange.DecodeMsgpack` (range.go lines 241-269). -/
def decodeIntRangeField (acc : IntRangeM) (key : String) (toks : List Tok) :
    Except String (IntRangeM × List Tok) :=
  match key with
  | "start" => eBind (decInt64 toks) fun (i, toks) => .ok ({ acc with start := i }, toks)
  | "step" => eBind (decInt64 toks) fun (i, toks) => .ok ({ acc with step := i }, toks)
  | "end" => decodeEndBound acc toks
  | _ => .error ("unexpected key " ++ key ++ " in IntRange")

/-- `IntRange.DecodeMsgpack` (range.go lines 241-269): the zero value has
`Start = Step = End = 0` and `Bound = Included`; decoding performs no
validation. -/
def IntRange_DecodeMsgpack (toks : List Tok) : Except String (IntRangeM × List Tok) :=
  eBind (decMapLen toks) fun (cnt, toks) =>
    match cnt with
    | none => .ok (⟨0, 0, 0, .included⟩, toks)
    | some n => decodeFieldLoop decodeIntRangeField n ⟨0, 0, 0, .included⟩ toks

/-- `decodeMsgpackRange` (range.go lines 253-269 of the codec section):
reads the Range wrapper and dispatches on the range kind. -/
def decodeMsgpackRange (toks : List Tok) : Except String (IntRangeM × List Tok) :=
  eBind (decodeWrapperMap toks) fun (name, toks) =>
    match name with
    | "IntRange" => IntRange_DecodeMsgpack toks
    | "FloatRange" => .error "FloatRange is not implemented"
    | _ => .error ("unsupported Range type: " ++ name)

/-- Conditions under which an `IntRange` survives the wire: int64 fields,
`Validate` passes (the encoder runs it), and an `Unbounded` range carries
`End = 0` — the encoder drops the end value for `Unbounded` and the
decoder leaves the zero value in place. -/
def wfRange (r : IntRangeM) : Bool :=
  decide (WFIntRange r) && decide (IntRange_Validate r = .ok ()) &&
    (match r.bound with
     | .unbounded => decide (r.endv = 0)
     | _ => true)

/-! ## Closure codec (part_006 lines 152-212) -/

/-- `Closure.encodeMsgpack` (part_006 lines 157-175): `block_id` then the
raw `captures` message, wire-nil when the raw message is absent. -/
def encodeClosureM (blockId : Nat) (captures : Option MObj) : List Tok :=
  [.mapLen 2, .str "block_id", .int blockId, .str "captures"] ++
    (match captures with
     | none => [.nilv]
     | some m => encodeMObj m)

/-- One key of `decodeClosure` (part_006 lines 187-209); the Go switch has
no default, so an unknown key leaves its value unconsumed. -/
def decodeClosureField (fuel : Nat) (acc : Nat × Option MObj) (key : String)
    (toks : List Tok) : Except String ((Nat × Option MObj) × List Tok) :=
  match key with
  | "block_id" => eBind (decUint toks) fun (n, toks) => .ok ((n, acc.2), toks)
  | "captures" =>
      eBind (peekTok toks) fun code =>
        if isNilCode code then
          eBind (decNil toks) fun toks => .ok (acc, toks)
        else
          eBind (decodeMObjF fuel toks) fun (m, toks) => .ok ((acc.1, some m), toks)
  | _ => .ok (acc, toks)

/-- `decodeClosure` (part_006 lines 177-212): exactly two keys. -/
def decodeClosureM (fuel : Nat) (toks : List Tok) :
    Except String ((Nat × Option MObj) × List Tok) :=
  eBind (decMapLen toks) fun (cnt, toks) =>
    match cnt with
    | some 2 => decodeFieldLoop (decodeClosureField fuel) 2 (0, none) toks
    | some n => .error ("expected Closure to contain 2 keys, got " ++ toString n)
    | none => .error "expected Closure to contain 2 keys, got -1"

/-! ## Custom value codec (call.go lines 455-505 and 675-695)

Encoding writes the value id as a four-byte big-endian `bin`
(`enc.EncodeBytes`); decoding reads it with `readCVID`, which starts with
`DecodeArrayLen` — the engine serializes the id bytes as an array of
integers, and the msgpack library rejects a `bin` code when an array
length is requested.  Decoding also resolves the id in the plugin's
live registry (`p.cvals`), which is runtime state, not wire data; the
registry is a parameter here. -/

/-- `encodeCustomValue` (call.go lines 455-484). -/
def encodeCustomValueM (id : Nat) (name : String) (notifyOnDrop : Bool) : List Tok :=
  .mapLen (3 + if notifyOnDrop then 1 else 0) ::
    [.str "type", .str "PluginCustomValue", .str "name", .str name, .str "data",
      .bin [id / 2 ^ 24 % 256, id / 2 ^ 16 % 256, id / 2 ^ 8 % 256, id % 256]] ++
    (if notifyOnDrop then [.str "notify_on_drop", .boolv true] else [])

/-- `readCVID` (call.go lines 675-695): array of byte-sized integers,
exactly four of them; an absent or empty array yields id 0. -/
def readCVID (toks : List Tok) : Except String (Nat × List Tok) :=
  eBind (decArrLen toks) fun (n, toks) =>
    match n with
    | none => .ok (0, toks)
    | some 0 => .ok (0, toks)
    | some n =>
        eBind (decodeListLoop decUint8 n toks) fun (buf, toks) =>
          match buf with
          | [b0, b1, b2, b3] => .ok (b0 * 2 ^ 24 + b1 * 2 ^ 16 + b2 * 2 ^ 8 + b3, toks)
          | _ => .error ("expected CustomValue data to be 4 bytes, got " ++ toString buf.length)

/-- One key of `decodeCustomValue` (call.go lines 486-505); the state is
the resolved custom value (name and notify-on-drop flag) if any.  Unknown
keys make the absent `decodeMap` helper skip the value. -/
def decodeCustomValueField (cvals : Nat → Option (String × Bool)) (fuel : Nat)
    (acc : Option (String × Bool)) (key : String) (toks : List Tok) :
    Except String (Option (String × Bool) × List Tok) :=
  match key with
  | "type" => eBind (decStr toks) fun (_, toks) => .ok (acc, toks)
  | "name" => eBind (decStr toks) fun (_, toks) => .ok (acc, toks)
  | "data" =>
      eBind (readCVID toks) fun (id, toks) =>
        match cvals id with
        | some cv => .ok (some cv, toks)
        | none => .error ("no CustomValue with id " ++ toString id)
  | "notify_on_drop" => eBind (decBool toks) fun (_, toks) => .ok (acc, toks)
  | _ => eBind (decodeMObjF fuel toks) fun (_, toks) => .ok (acc, toks)

/-- `decodeCustomValue` (call.go lines 486-505).  The `decodeMap` helper
is absent from the snapshot; it is modelled from its call sites as the
key loop with unknown keys skipped. -/
def decodeCustomValueM (cvals : Nat → Option (String × Bool)) (fuel : Nat)
    (toks : List Tok) : Except String (Option (String × Bool) × List Tok) :=
  eBind (decMapLen toks) fun (cnt, toks) =>
    decodeFieldLoop (decodeCustomValueField cvals fuel) (cnt.getD 0) none toks

/-! ## Hello codec (hello.go, command.go Hello branch) -/

structure HelloM where
  protocol : String
  version : String
  localSocket : Bool
deriving DecidableEq, Repr

/-- `hello.EncodeMsgpack` with `EncodeMsgpackFeatures` (hello.go lines
21-71): wrapper `Hello`, then `protocol, version, features`; the feature
array holds the single `name`-keyed map when LocalSocket is on. -/
def hello_EncodeMsgpack (h : HelloM) : List Tok :=
  encodeMapStart "Hello" ++
    [.mapLen 3, .str "protocol", .str h.protocol, .str "version", .str h.version,
      .str "features"] ++
    (if h.localSocket then [.arrLen 1, .mapLen 1, .str "name", .str "LocalSocket"]
     else [.arrLen 0])

/-- A generic `Decoder.DecodeMap` (`map[string]interface \x7bempty\x7d`):
string keys with arbitrary values.  Wire-nil yields the nil map. -/
def decodeGoMap (fuel : Nat) (toks : List Tok) :
    Except String (List (String × MObj) × List Tok) :=
  eBind (decMapLen toks) fun (cnt, toks) =>
    match cnt with
    | none => .ok ([], toks)
    | some n =>
        decodeListLoop
          (fun toks =>
            eBind (decStr toks) fun (k, toks) =>
              eBind (decodeMObjF fuel toks) fun (v, toks) => .ok ((k, v), toks))
          n toks

/-- The comparison `ftre["name"] == "LocalSocket"` of hello.go line 88: an
interface value equals the string literal exactly when it is that string. -/
def isLocalSocketName : Option MObj → Bool
  | some (.strm s) => s == "LocalSocket"
  | _ => false

/-- Go map indexing with duplicate keys: the last write wins. -/
def lookupGoMap (key : String) : List (String × MObj) → Option MObj
  | [] => none
  | (k, v) :: rest =>
      match lookupGoMap key rest with
      | some r => some r
      | none => if k = key then some v else none

/-- The item loop of `features.DecodeMsgpack` (hello.go lines 83-89). -/
def featuresLoop (fuel : Nat) : Nat → Bool → List Tok → Except String (Bool × List Tok)
  | 0, b, toks => .ok (b, toks)
  | n + 1, b, toks =>
      eBind (decodeGoMap fuel toks) fun (m, toks) =>
        featuresLoop fuel n (b || isLocalSocketName (lookupGoMap "name" m)) toks

/-- `features.DecodeMsgpack` (hello.go lines 75-91): fewer than one
feature leaves the zero value. -/
def features_DecodeMsgpack (fuel : Nat) (toks : List Tok) :
    Except String (Bool × List Tok) :=
  eBind (decArrLen toks) fun (cnt, toks) =>
    match cnt with
    | none => .ok (false, toks)
    | some 0 => .ok (false, toks)
    | some n => featuresLoop fuel n false toks

/-- One key of the reflection decode of `hello` (tags `protocol, version,
features`); unknown keys are skipped. -/
def decodeHelloField (fuel : Nat) (acc : HelloM) (key : String) (toks : List Tok) :
    Except String (HelloM × List Tok) :=
  match key with
  | "protocol" => eBind (decStr toks) fun (s, toks) => .ok ({ acc with protocol := s }, toks)
  | "version" => eBind (decStr toks) fun (s, toks) => .ok ({ acc with version := s }, toks)
  | "features" =>
      eBind (features_DecodeMsgpack fuel toks) fun (b, toks) =>
        .ok ({ acc with localSocket := b }, toks)
  | _ => eBind (decodeMObjF fuel toks) fun (_, toks) => .ok (acc, toks)

/-- The Hello branch of `handleMsgDecode` (command.go lines 588-590)
composed with the wrapper read of `decodeInputMsg`: reflection decode into
the `hello` struct.  The other message kinds are modelled separately
(`decodeStreamCtlMsg` for Ack/End/Drop, `decodeDataMsg`, `decodeCallM`). -/
def decodeHelloMsg (fuel : Nat) (toks : List Tok) : Except String (HelloM × List Tok) :=
  eBind (decodeWrapperMap toks) fun (name, toks) =>
    match name with
    | "Hello" =>
        eBind (decMapLen toks) fun (cnt, toks) =>
          match cnt with
          | none => .ok (⟨"", "", false⟩, toks)
          | some n => decodeFieldLoop (decodeHelloField fuel) n ⟨"", "", false⟩ toks
    | _ => .error ("unknown message " ++ name)

/-! ## Ack, End and Drop (value.go lines 459-491, command.go lines 553-563) -/

/-- The three single-field stream-control messages; each Go struct has one
int field whose msgpack tag is the message name. -/
inductive StreamCtlMsg where
  | ackMsg (id : Int)
  | endMsg (id : Int)
  | dropMsg (id : Int)
deriving DecidableEq, Repr

/-- Reflection encoding of `ack`, `end` and `drop`: a single-entry map
from the tag name to the id. -/
def encodeStreamCtlMsg : StreamCtlMsg → List Tok
  | .ackMsg id => [.mapLen 1, .str "Ack", .int id]
  | .endMsg id => [.mapLen 1, .str "End", .int id]
  | .dropMsg id => [.mapLen 1, .str "Drop", .int id]

/-- The Ack, End and Drop branches of `handleMsgDecode` (command.go lines
553-563) composed with the wrapper read of `decodeInputMsg`: the id is
read with `DecodeInt`. -/
def decodeStreamCtlMsg (toks : List Tok) : Except String (StreamCtlMsg × List Tok) :=
  eBind (decodeWrapperMap toks) fun (name, toks) =>
    match name with
    | "Ack" => eBind (decInt64 toks) fun (id, toks) => .ok (.ackMsg id, toks)
    | "End" => eBind (decInt64 toks) fun (id, toks) => .ok (.endMsg id, toks)
    | "Drop" => eBind (decInt64 toks) fun (id, toks) => .ok (.dropMsg id, toks)
    | _ => .error ("unknown message " ++ name)

def wfStreamCtl : StreamCtlMsg → Bool
  | .ackMsg id => decide (inI64 id)
  | .endMsg id => decide (inI64 id)
  | .dropMsg id => decide (inI64 id)

/-! ## The two byte-sequence encoders behind C8 (value.go lines 129-139) -/

/-- The msgpack library primitive `Encoder.EncodeBytes`: a nil Go slice is
written as wire-nil, anything else as a `bin`. -/
def msgpackEncodeBytes (b : Option (List Nat)) : Tok :=
  match b with
  | none => .nilv
  | some bs => .bin bs

/-- The `case []byte` branch of `Value.encodeMsgpack` (value.go lines
129-139): a nil slice is replaced by a zero-length `bin`
(`enc.EncodeBytesLen(0)`), everything else goes through `EncodeBytes`. -/
def encodeBinaryBranch (b : Option (List Nat)) : List Tok :=
  startValueToks "Binary" ++
    (match b with
     | none => [.bin []]
     | some bs => [.bin bs])

/-! ## The Value codec (value.go lines 76-340)

The model covers every variant the encoder can write except `Custom`,
whose encoding allocates an id in the plugin (`p.idGen`) and registers the
live value in `p.cvals` — runtime state, not wire data; the Custom codec
is modelled standalone above (`encodeCustomValueM` / `decodeCustomValueM`)
and the decoder below runs it against the empty registry.  Go further
distinguishes a nil `[]byte` from an empty one; both encode as a
zero-length `bin` and decode as the empty slice, so the model conflates
them. -/

mutual

/-- The payload carried by `Value.Value` (the `any` field), one
constructor per type case of `Value.encodeMsgpack`. -/
inductive NuValue where
  | nothing
  | boolv (b : Bool)
  | intv (i : Int)
  | floatv (bits : Nat)
  | strv (s : String)
  | binary (b : List Nat)
  | filesize (i : Int)
  | duration (i : Int)
  | datev (t : GoTime)
  | blockv (n : Nat)
  | glob (value : String) (noExpand : Bool)
  | record (fields : List (String × ValueM))
  | listv (items : List ValueM)
  | closure (blockId : Nat) (captures : Option MObj)
  | rangev (r : IntRangeM)
  | cellpath (members : List PathMemberM)
  | errorv (e : LabeledErrorM)

/-- `Value` (value.go lines 71-74): a payload and a span. -/
inductive ValueM where
  | mk (val : NuValue) (span : SpanM)

end

def ValueM.val : ValueM → NuValue
  | .mk v _ => v

def ValueM.span : ValueM → SpanM
  | .mk _ sp => sp

def ValueM.setVal : ValueM → NuValue → ValueM
  | .mk _ sp, v => .mk v sp

def ValueM.setSpan : ValueM → SpanM → ValueM
  | .mk v _, sp => .mk v sp

mutual

/-- `Value.encodeMsgpack` (value.go lines 76-189): the one-entry outer
map, the payload tokens of the type switch, then the `span` pair. -/
def encodeValueM : ValueM → Except String (List Tok)
  | .mk v sp =>
      eBind (encodePayload v) fun p =>
        .ok (.mapLen 1 :: p ++ .str "span" :: encodeSpanM sp)

/-- The type switch of `Value.encodeMsgpack` (value.go lines 82-176).
The several integer cases all funnel into `encodeInt`; `uint64` goes
through `encodeUInt`, which rejects values above int64 maximum (the
`Block` case uses it too). -/
def encodePayload : NuValue → Except String (List Tok)
  | .nothing => .ok [.str "Nothing", .mapLen 1]
  | .boolv b => .ok (startValueToks "Bool" ++ [.boolv b])
  | .intv i => .ok (startValueToks "Int" ++ [.int i])
  | .floatv bits => .ok (startValueToks "Float" ++ [.f64 bits])
  | .strv s => .ok (startValueToks "String" ++ [.str s])
  | .binary b => .ok (startValueToks "Binary" ++ [.bin b])
  | .filesize i => .ok (startValueToks "Filesize" ++ [.int i])
  | .duration i => .ok (startValueToks "Duration" ++ [.int i])
  | .datev t => .ok (startValueToks "Date" ++ [.str (String.mk (formatRFC3339 t))])
  | .blockv n =>
      if (n : Int) > maxI64 then .error "uint is too large for int64"
      else .ok (startValueToks "Block" ++ [.int n])
  | .glob v ne =>
      .ok [.str "Glob", .mapLen 3, .str "val", .str v, .str "no_expand", .boolv ne]
  | .record fields =>
      eBind (encodeRecordPairs fields) fun ts =>
        .ok (.str "Record" :: .mapLen 2 :: .str "val" :: .mapLen fields.length :: ts)
  | .listv items =>
      eBind (encodeValueItems items) fun ts =>
        .ok (.str "List" :: .mapLen 2 :: .str "vals" :: .arrLen items.length :: ts)
  | .closure bid caps => .ok (startValueToks "Closure" ++ encodeClosureM bid caps)
  | .rangev r =>
      eBind (IntRange_EncodeMsgpack r) fun ts => .ok (startValueToks "Range" ++ ts)
  | .cellpath ms => .ok (startValueToks "CellPath" ++ encodeCellPathM ms)
  | .errorv e => .ok (.str "Error" :: .mapLen 2 :: .str "error" :: encodeLabeledErrorM e)

/-- `encodeValueList` items (value.go lines 225-244), value tokens only. -/
def encodeValueItems : List ValueM → Except String (List Tok)
  | [] => .ok []
  | v :: vs =>
      eBind (encodeValueM v) fun tv =>
        eBind (encodeValueItems vs) fun tvs => .ok (tv ++ tvs)

/-- `Record.encodeMsgpack` pairs (part_006 lines 114-121), in iteration
order of the Go map. -/
def encodeRecordPairs : List (String × ValueM) → Except String (List Tok)
  | [] => .ok []
  | (k, v) :: xs =>
      eBind (encodeValueM v) fun tv =>
        eBind (encodeRecordPairs xs) fun txs => .ok (.str k :: (tv ++ txs))

end

/-- `decodeBinary` (value.go lines 356-384): a `bin` is read directly; an
array is read element-wise as uint8, with fewer than one element giving
the nil slice; anything else is rejected. -/
def decodeBinaryM (toks : List Tok) : Except String (Option (List Nat) × List Tok) :=
  eBind (peekTok toks) fun c =>
    if isBinCode c then
      eBind (decBytes toks) fun (bs, toks) => .ok (some bs, toks)
    else if isArrCode c then
      eBind (decArrLen toks) fun (n, toks) =>
        match n with
        | none => .ok (none, toks)
        | some 0 => .ok (none, toks)
        | some n =>
            eBind (decodeListLoop decUint8 n toks) fun (bs, toks) => .ok (some bs, toks)
    else .error "unsupported Binary value"

/-- One key of `decodeGlob` (part_006 lines 75-93). -/
def decodeGlobField (acc : String × Bool × SpanM) (key : String) (toks : List Tok) :
    Except String ((String × Bool × SpanM) × List Tok) :=
  match key with
  | "val" => eBind (decStr toks) fun (s, toks) => .ok ((s, acc.2.1, acc.2.2), toks)
  | "no_expand" => eBind (decBool toks) fun (b, toks) => .ok ((acc.1, b, acc.2.2), toks)
  | "span" => eBind (decodeSpanM toks) fun (sp, toks) => .ok ((acc.1, acc.2.1, sp), toks)
  | _ => .error ("unsupported Glob Value field " ++ key)

/-- `decodeGlob` (part_006 lines 65-96): wire-nil leaves the value
untouched (the zero `Value`); otherwise the field loop fills a `Glob`
and the span of the enclosing value. -/
def decodeGlobM (toks : List Tok) : Except String (ValueM × List Tok) :=
  eBind (decMapLen toks) fun (cnt, toks) =>
    match cnt with
    | none => .ok (.mk .nothing ⟨0, 0⟩, toks)
    | some n =>
        eBind (decodeFieldLoop decodeGlobField n ("", false, ⟨0, 0⟩) toks)
          fun (acc, toks) =>
            .ok (.mk (.glob acc.1 acc.2.1) acc.2.2, toks)

/-- The name/value loop of `decodeRecord` (part_006 lines 125-143),
collected in read order (the order the Go map is filled). -/
def decodeRecordLoop (sub : List Tok → Except String (ValueM × List Tok)) :
    Nat → List Tok → Except String (List (String × ValueM) × List Tok)
  | 0, toks => .ok ([], toks)
  | n + 1, toks =>
      eBind (decStr toks) fun (name, toks) =>
        eBind (sub toks) fun (v, toks) =>
          eBind (decodeRecordLoop sub n toks) fun (xs, toks) => .ok ((name, v) :: xs, toks)

/-- One field of `Value.decodeValue` (value.go lines 268-337).  `sub`
decodes one nested `Value`; `fuel` bounds the nesting of payloads decoded
through other codecs (labeled errors, closures).  The `Custom` arm runs
`decodeCustomValue` against the empty registry — the registry holds the
plugin's live custom values and is empty unless the plugin has encoded a
custom value in this session; a non-empty result is unrepresentable
without that runtime state. -/
def decodeValueField (fuel : Nat)
    (sub : List Tok → Except String (ValueM × List Tok))
    (typeName : String) (acc : ValueM) (fieldName : String) (toks : List Tok) :
    Except String (ValueM × List Tok) :=
  match fieldName with
  | "val" =>
      match typeName with
      | "Bool" => eBind (decBool toks) fun (b, toks) => .ok (acc.setVal (.boolv b), toks)
      | "Binary" =>
          eBind (decodeBinaryM toks) fun (ob, toks) =>
            .ok (acc.setVal (.binary (ob.getD [])), toks)
      | "String" => eBind (decStr toks) fun (s, toks) => .ok (acc.setVal (.strv s), toks)
      | "Int" => eBind (decInt64 toks) fun (i, toks) => .ok (acc.setVal (.intv i), toks)
      | "Float" =>
          eBind (decF64 toks) fun (bits, toks) => .ok (acc.setVal (.floatv bits), toks)
      | "Filesize" =>
          eBind (decInt64 toks) fun (i, toks) => .ok (acc.setVal (.filesize i), toks)
      | "Duration" =>
          eBind (decInt64 toks) fun (i, toks) => .ok (acc.setVal (.duration i), toks)
      | "Date" =>
          eBind (decStr toks) fun (d, toks) =>
            eBind (parseRFC3339 d.data) fun t => .ok (acc.setVal (.datev t), toks)
      | "Record" =>
          eBind (decMapLen toks) fun (cnt, toks) =>
            eBind (decodeRecordLoop sub (cnt.getD 0) toks) fun (fields, toks) =>
              .ok (acc.setVal (.record fields), toks)
      | "Closure" =>
          eBind (decodeClosureM fuel toks) fun (c, toks) =>
            .ok (acc.setVal (.closure c.1 c.2), toks)
      | "Block" =>
          eBind (decInt64 toks) fun (i, toks) =>
            .ok (acc.setVal (.blockv (i.emod (2 ^ 64)).toNat), toks)
      | "Range" =>
          eBind (decodeMsgpackRange toks) fun (r, toks) =>
            .ok (acc.setVal (.rangev r), toks)
      | "Custom" =>
          eBind (decodeCustomValueM (fun _ => none) fuel toks) fun (cv, toks) =>
            match cv with
            | none => .ok (acc.setVal .nothing, toks)
            | some _ => .error "CustomValue resolved outside the empty registry"
      | "CellPath" =>
          eBind (decodeCellPathM toks) fun (ms, toks) =>
            .ok (acc.setVal (.cellpath ms), toks)
      | _ => .error ("unsupported Value type " ++ typeName)
  | "vals" =>
      if typeName = "List" then
        eBind (decArrLen toks) fun (cnt, toks) =>
          match cnt with
          | none => .error "makeslice: len out of range"
          | some n =>
              eBind (decodeListLoop sub n toks) fun (items, toks) =>
                .ok (acc.setVal (.listv items), toks)
      else .error ("expected type to be List, got " ++ typeName)
  | "error" =>
      eBind (decodeLabeledErrorF fuel toks) fun (e, toks) =>
        .ok (acc.setVal (.errorv e), toks)
  | "span" =>
      eBind (decodeSpanM toks) fun (sp, toks) => .ok (acc.setSpan sp, toks)
  | _ => .error ("unsupported field " ++ fieldName ++ " in " ++ typeName ++ " Value")

/-- `Value.decodeMsgpack` with `Value.decodeValue` (value.go lines
246-340): the wrapper map names the type, `Glob` takes its own path,
wire-nil leaves the zero value, and the field loop dispatches on each
key. -/
def decodeValueM : Nat → List Tok → Except String (ValueM × List Tok)
  | 0, _ => .error "Value recursion bound exceeded"
  | fuel + 1, toks =>
      eBind (decodeWrapperMap toks) fun (name, toks) =>
        if name = "Glob" then decodeGlobM toks
        else
          eBind (decMapLen toks) fun (cnt, toks) =>
            match cnt with
            | none => .ok (.mk .nothing ⟨0, 0⟩, toks)
            | some n =>
                decodeFieldLoop
                  (decodeValueField fuel (fun ts => decodeValueM fuel ts) name)
                  n (.mk .nothing ⟨0, 0⟩) toks

/-- Conditions under which a `Date` survives the wire: the RFC-3339
layout drops fractional seconds, so the nanosecond field must be zero. -/
def wfGoDate (t : GoTime) : Bool := decide (WFGoTime t) && decide (t.nanosec = 0)

mutual

/-- Conditions under which a `Value` survives the wire. -/
def wfValueM : ValueM → Bool
  | .mk v sp => wfPayload v && decide (WFSpan sp)

def wfPayload : NuValue → Bool
  | .nothing => true
  | .boolv _ => true
  | .intv i => decide (inI64 i)
  | .floatv _ => true
  | .strv _ => true
  | .binary _ => true
  | .filesize i => decide (inI64 i)
  | .duration i => decide (inI64 i)
  | .datev t => wfGoDate t
  | .blockv n => decide ((n : Int) ≤ maxI64)
  | .glob _ _ => true
  | .record fields => wfRecordPairs fields
  | .listv items => wfValueItems items
  | .closure bid caps =>
      decide (bid < 2 ^ 64) &&
        (match caps with
         | some .nilm => false
         | _ => true)
  | .rangev r => wfRange r
  | .cellpath ms => ms.all wfPathMember
  | .errorv e => wfLabeledError e

def wfValueItems : List ValueM → Bool
  | [] => true
  | v :: vs => wfValueM v && wfValueItems vs

def wfRecordPairs : List (String × ValueM) → Bool
  | [] => true
  | (_, v) :: xs => wfValueM v && wfRecordPairs xs

end

/-! ## Data messages (value.go lines 444-576) -/

/-- The payload of a `data` frame: a `Value` for list streams, bytes or a
`LabeledError` for raw streams.  A raw byte payload keeps the Go nil/non-nil
distinction because `data.encodeMsgpack` writes it with the bare
`EncodeBytes`, which turns a nil slice into wire-nil. -/
inductive DataPayload where
  | listData (v : ValueM)
  | rawOk (bytes : Option (List Nat))
  | rawErr (e : LabeledErrorM)

/-- `data` (value.go lines 446-449). -/
structure DataMsg where
  id : Int
  payload : DataPayload

/-- `data.encodeMsgpack` (value.go lines 538-575): the `Data` tuple, then
`List` wrapping a Value, or `Raw` wrapping `Ok` bytes or an `Err`
labeled error. -/
def encodeDataMsg (d : DataMsg) : Except String (List Tok) :=
  match d.payload with
  | .listData v =>
      eBind (encodeValueM v) fun tv =>
        .ok (encodeTupleInMap "Data" d.id ++ encodeMapStart "List" ++ tv)
  | .rawOk b =>
      .ok (encodeTupleInMap "Data" d.id ++ encodeMapStart "Raw" ++ encodeMapStart "Ok" ++
        [msgpackEncodeBytes b])
  | .rawErr e =>
      .ok (encodeTupleInMap "Data" d.id ++ encodeMapStart "Raw" ++ encodeMapStart "Err" ++
        encodeLabeledErrorM e)

/-- `data.decodeMsgpack` (value.go lines 494-536) composed with the
wrapper read of `decodeInputMsg` (the Data branch of `handleMsgDecode`). -/
def decodeDataMsg (fuel : Nat) (toks : List Tok) : Except String (DataMsg × List Tok) :=
  eBind (decodeWrapperMap toks) fun (name, toks) =>
    match name with
    | "Data" =>
        eBind (decodeTupleStart toks) fun (id, toks) =>
          eBind (decodeWrapperMap toks) fun (keyName, toks) =>
            match keyName with
            | "List" =>
                eBind (decodeValueM fuel toks) fun (v, toks) =>
                  .ok (⟨id, .listData v⟩, toks)
            | "Raw" =>
                eBind (decodeWrapperMap toks) fun (keyName, toks) =>
                  match keyName with
                  | "Ok" =>
                      eBind (decodeBinaryM toks) fun (b, toks) =>
                        .ok (⟨id, .rawOk b⟩, toks)
                  | "Err" =>
                      eBind (decodeLabeledErrorF fuel toks) fun (e, toks) =>
                        .ok (⟨id, .rawErr e⟩, toks)
                  | _ => .error ("unexpected key " ++ keyName ++ " under Raw")
            | _ => .error ("unexpected key " ++ keyName ++ " under Data")
    | _ => .error ("unknown message " ++ name)

/-- Conditions under which a `data` frame survives the wire: the raw byte
payload must be a non-nil slice — a nil slice encodes as wire-nil, which
`decodeBinary` rejects. -/
def wfDataMsg (d : DataMsg) : Bool :=
  decide (inI64 d.id) &&
    (match d.payload with
     | .listData v => wfValueM v
     | .rawOk b => b.isSome
     | .rawErr e => wfLabeledError e)

/-! ## Pipeline metadata (part_011 lines 573-577 and 937-1046) -/

/-- `pipelineMetadata` (part_011 lines 573-577). -/
structure PipelineMetadataM where
  dataSource : String
  filePath : String
  contentType : String
deriving DecidableEq, Repr

/-- `pipelineMetadata.EncodeMsgpack` (part_011 lines 937-975): all-empty
metadata is wire-nil; otherwise a two-entry map whose `data_source` is
a `FilePath`-keyed map when the source is a file path. -/
def encodePipelineMetadata (md : PipelineMetadataM) : List Tok :=
  if md.dataSource = "" ∧ md.contentType = "" then [.nilv]
  else
    [.mapLen 2, .str "data_source"] ++
      (if md.dataSource = "FilePath" then [.mapLen 1, .str "FilePath", .str md.filePath]
       else [.str md.dataSource]) ++
      [.str "content_type"] ++
      (if md.contentType = "" then [.nilv] else [.str md.contentType])

/-- One key of `pipelineMetadata.DecodeMsgpack` (part_011 lines 990-1040). -/
def decodeMDField (acc : PipelineMetadataM) (key : String) (toks : List Tok) :
    Except String (PipelineMetadataM × List Tok) :=
  match key with
  | "data_source" =>
      eBind (peekTok toks) fun c =>
        if isStrCode c then
          eBind (decStr toks) fun (s, toks) => .ok ({ acc with dataSource := s }, toks)
        else if isFixedMapCode c then
          eBind (decMapLen toks) fun (ml, toks) =>
            match ml with
            | some 1 =>
                eBind (decStr toks) fun (s, toks) =>
                  eBind (decStr toks) fun (p, toks) =>
                    .ok ({ acc with dataSource := s, filePath := p }, toks)
            | _ => .error "expected value of data_source to be a single item map"
        else .error "unexpected value code for data_source"
  | "content_type" =>
      eBind (peekTok toks) fun c =>
        if isStrCode c then
          eBind (decStr toks) fun (s, toks) => .ok ({ acc with contentType := s }, toks)
        else if isNilCode c then
          eBind (decNil toks) fun toks => .ok (acc, toks)
        else .error "unexpected value code for content_type"
  | _ => .error ("unexpected metadata key " ++ key)

/-- `pipelineMetadata.DecodeMsgpack` (part_011 lines 977-1046). -/
def decodePipelineMetadata (toks : List Tok) :
    Except String (PipelineMetadataM × List Tok) :=
  eBind (peekTok toks) fun c =>
    if isNilCode c then
      eBind (decNil toks) fun toks => .ok (⟨"", "", ""⟩, toks)
    else if isFixedMapCode c then
      eBind (decMapLen toks) fun (ml, toks) =>
        decodeFieldLoop decodeMDField (ml.getD 0) ⟨"", "", ""⟩ toks
    else .error "unexpected Value metadata"

/-! ## Call messages (part_011 lines 505-834, test-side encoders of
call_test.go lines 111-189)

The engine encodes `Call` messages; the repository's encoder for them
lives in the round-trip test (call_test.go), which is the encode side the
round-trip claim can exercise. -/

/-- `listStream` (part_011 lines 555-559). -/
structure ListStreamHdr where
  id : Int
  span : SpanM
  md : PipelineMetadataM
deriving DecidableEq, Repr

/-- `byteStream` (part_011 lines 561-566). -/
structure ByteStreamHdr where
  id : Int
  span : SpanM
  typ : String
  md : PipelineMetadataM
deriving DecidableEq, Repr

/-- The `run.Input` field: a `PipelineDataHeader`. -/
inductive RunInput where
  | emptyInput
  | valueInput (v : ValueM)
  | listStreamInput (hdr : ListStreamHdr)
  | byteStreamInput (hdr : ByteStreamHdr)

/-- `evaluatedCall` (part_011 lines 524-528). -/
structure EvaluatedCallM where
  head : SpanM
  positional : List ValueM
  named : List (String × ValueM)

/-- `run` (part_011 lines 518-522). -/
structure RunM where
  name : String
  call : EvaluatedCallM
  input : RunInput

/-- The `call.Call` alternatives `decodeCall` can produce (part_011 lines
580-631), with `CustomValueOp` left out — it resolves ids in the plugin's
live custom value registry (see `decodeCustomValueM`). -/
inductive CallMsg where
  | signatureCall
  | metadataCall
  | runCall (r : RunM)

/-- `NamedParams.encodeMsgpack` pairs (part_011 lines 769-791): each entry
is a two-item tuple of an `npName` — whose span is always the zero value,
the encoder never sets it — and the value. -/
def encodeNamedPairs : List (String × ValueM) → Except String (List Tok)
  | [] => .ok []
  | (k, v) :: xs =>
      eBind (encodeValueM v) fun tv =>
        eBind (encodeNamedPairs xs) fun txs =>
          .ok (.arrLen 2 :: .mapLen 2 :: .str "item" :: .str k :: .str "span" ::
            (encodeSpanM ⟨0, 0⟩ ++ tv ++ txs))

/-- `evaluatedCall.encodeMsgpack` (call_test.go lines 166-189) with
`positionalParams.encodeMsgpack` (part_011 lines 732-746): `head`,
`positional`, `named`. -/
def encodeEvaluatedCall (ec : EvaluatedCallM) : Except String (List Tok) :=
  eBind (encodeValueItems ec.positional) fun tp =>
    eBind (encodeNamedPairs ec.named) fun tn =>
      .ok ([.mapLen 3, .str "head"] ++ encodeSpanM ec.head ++
        (.str "positional" :: .arrLen ec.positional.length :: tp) ++
        (.str "named" :: .arrLen ec.named.length :: tn))

/-- The input switch of `run.encodeMsgpack` (call_test.go lines 148-163):
nil and `empty` both write the `Empty` string; a `Value` goes through
`pipelineValue` with zero metadata; a `listStream` writes only its id. -/
def encodeRunInput : RunInput → Except String (List Tok)
  | .emptyInput => .ok [.str "Empty"]
  | .valueInput v =>
      eBind (encodeValueM v) fun tv =>
        .ok (encodeMapStart "Value" ++ .arrLen 2 :: tv ++
          encodePipelineMetadata ⟨"", "", ""⟩)
  | .listStreamInput hdr =>
      .ok (encodeMapStart "ListStream" ++ encodeMapStart "id" ++ [.int hdr.id])
  | .byteStreamInput _ => .error "unsupported Input type"

/-- `run.encodeMsgpack` (call_test.go lines 128-164): `name`, `call`,
`input`. -/
def encodeRunM (r : RunM) : Except String (List Tok) :=
  eBind (encodeEvaluatedCall r.call) fun tc =>
    eBind (encodeRunInput r.input) fun ti =>
      .ok ([.mapLen 3, .str "name", .str r.name, .str "call"] ++ tc ++
        .str "input" :: ti)

/-- `call.encodeMsgpack` (call_test.go lines 111-126): the `Call` tuple,
then the command name or the `Run` wrapper.  The test encoder supports no
other alternative. -/
def encodeCallMsg (id : Int) : CallMsg → Except String (List Tok)
  | .signatureCall => .ok (encodeTupleInMap "Call" id ++ [.str "Signature"])
  | .metadataCall => .error "unsupported Call type"
  | .runCall r =>
      eBind (encodeRunM r) fun tr =>
        .ok (encodeTupleInMap "Call" id ++ encodeMapStart "Run" ++ tr)

/-- Reflection decode of `npName` (part_011 lines 836-839): keys `item`
and `span`, unknown keys skipped. -/
def decodeNpName (fuel : Nat) (toks : List Tok) :
    Except String ((String × SpanM) × List Tok) :=
  eBind (decMapLen toks) fun (cnt, toks) =>
    decodeFieldLoop
      (fun acc key toks =>
        match key with
        | "item" => eBind (decStr toks) fun (s, toks) => .ok ((s, acc.2), toks)
        | "span" => eBind (decodeSpanM toks) fun (sp, toks) => .ok ((acc.1, sp), toks)
        | _ => eBind (decodeMObjF fuel toks) fun (_, toks) => .ok (acc, toks))
      (cnt.getD 0) ("", ⟨0, 0⟩) toks

/-- The entry loop of `NamedParams.decodeMsgpack` (part_011 lines
802-832): a two-item tuple, the `npName` key — its span is dropped — and
the value, with wire-nil standing for the zero `Value`. -/
def decodeNamedLoop (fuel : Nat) (sub : List Tok → Except String (ValueM × List Tok)) :
    Nat → List Tok → Except String (List (String × ValueM) × List Tok)
  | 0, _toks => .ok ([], _toks)
  | n + 1, toks =>
      eBind (decArrLen toks) fun (tl, toks) =>
        match tl with
        | some 2 =>
            eBind (decodeNpName fuel toks) fun (nm, toks) =>
              eBind (peekTok toks) fun c =>
                eBind
                  (if isNilCode c then
                    eBind (decNil toks) fun toks => .ok (ValueM.mk .nothing ⟨0, 0⟩, toks)
                  else sub toks) fun (v, toks) =>
                  eBind (decodeNamedLoop fuel sub n toks) fun (xs, toks) =>
                    .ok ((nm.1, v) :: xs, toks)
        | _ => .error "NamedParams tuple should have 2 items"

/-- `NamedParams.decodeMsgpack` (part_011 lines 793-834): a wire-nil count
leaves the preset empty map. -/
def decodeNamedParams (fuel : Nat) (sub : List Tok → Except String (ValueM × List Tok))
    (toks : List Tok) : Except String (List (String × ValueM) × List Tok) :=
  eBind (decArrLen toks) fun (cnt, toks) =>
    match cnt with
    | none => .ok ([], toks)
    | some n => decodeNamedLoop fuel sub n toks

/-- One key of `evaluatedCall.decodeMsgpack` (part_011 lines 649-662);
`positionalParams.decodeMsgpack` (part_011 lines 748-764) handles the
positional array, with a wire-nil count leaving the nil slice.  Unknown
keys make the absent `decodeMap` helper skip the value. -/
def decodeEvaluatedCallField (fuel : Nat)
    (sub : List Tok → Except String (ValueM × List Tok))
    (acc : EvaluatedCallM) (key : String) (toks : List Tok) :
    Except String (EvaluatedCallM × List Tok) :=
  match key with
  | "head" =>
      eBind (decodeSpanM toks) fun (sp, toks) => .ok ({ acc with head := sp }, toks)
  | "positional" =>
      eBind (decArrLen toks) fun (cnt, toks) =>
        match cnt with
        | none => .ok (acc, toks)
        | some n =>
            eBind (decodeListLoop sub n toks) fun (items, toks) =>
              .ok ({ acc with positional := items }, toks)
  | "named" =>
      eBind (decodeNamedParams fuel sub toks) fun (np, toks) =>
        .ok ({ acc with named := np }, toks)
  | _ => eBind (decodeMObjF fuel toks) fun (_, toks) => .ok (acc, toks)

/-- `evaluatedCall.decodeMsgpack` (part_011 lines 649-662), via the absent
`decodeMap` helper modelled as the key loop. -/
def decodeEvaluatedCallM (fuel : Nat) (toks : List Tok) :
    Except String (EvaluatedCallM × List Tok) :=
  eBind (decMapLen toks) fun (cnt, toks) =>
    decodeFieldLoop (decodeEvaluatedCallField fuel (fun ts => decodeValueM fuel ts))
      (cnt.getD 0) ⟨⟨0, 0⟩, [], []⟩ toks

/-- One key of the reflection decode of `listStream` (tags `id`, `span`,
`metadata`). -/
def decodeListStreamField (fuel : Nat) (acc : ListStreamHdr) (key : String)
    (toks : List Tok) : Except String (ListStreamHdr × List Tok) :=
  match key with
  | "id" => eBind (decInt64 toks) fun (i, toks) => .ok ({ acc with id := i }, toks)
  | "span" => eBind (decodeSpanM toks) fun (sp, toks) => .ok ({ acc with span := sp }, toks)
  | "metadata" =>
      eBind (decodePipelineMetadata toks) fun (md, toks) => .ok ({ acc with md := md }, toks)
  | _ => eBind (decodeMObjF fuel toks) fun (_, toks) => .ok (acc, toks)

/-- Reflection decode of `listStream` (part_011 lines 691-696). -/
def decodeListStreamHdr (fuel : Nat) (toks : List Tok) :
    Except String (ListStreamHdr × List Tok) :=
  eBind (decMapLen toks) fun (cnt, toks) =>
    decodeFieldLoop (decodeListStreamField fuel) (cnt.getD 0)
      ⟨0, ⟨0, 0⟩, ⟨"", "", ""⟩⟩ toks

/-- One key of the reflection decode of `byteStream` (tags `id`, `span`,
`type`, `metadata`). -/
def decodeByteStreamField (fuel : Nat) (acc : ByteStreamHdr) (key : String)
    (toks : List Tok) : Except String (ByteStreamHdr × List Tok) :=
  match key with
  | "id" => eBind (decInt64 toks) fun (i, toks) => .ok ({ acc with id := i }, toks)
  | "span" => eBind (decodeSpanM toks) fun (sp, toks) => .ok ({ acc with span := sp }, toks)
  | "type" => eBind (decStr toks) fun (s, toks) => .ok ({ acc with typ := s }, toks)
  | "metadata" =>
      eBind (decodePipelineMetadata toks) fun (md, toks) => .ok ({ acc with md := md }, toks)
  | _ => eBind (decodeMObjF fuel toks) fun (_, toks) => .ok (acc, toks)

/-- Reflection decode of `byteStream` (part_011 lines 697-702). -/
def decodeByteStreamHdr (fuel : Nat) (toks : List Tok) :
    Except String (ByteStreamHdr × List Tok) :=
  eBind (decMapLen toks) fun (cnt, toks) =>
    decodeFieldLoop (decodeByteStreamField fuel) (cnt.getD 0)
      ⟨0, ⟨0, 0⟩, "", ⟨"", "", ""⟩⟩ toks

/-- `decodePipelineDataHeader` (part_011 lines 664-709): the `Empty`
string, or a wrapper map around `Value` (a two-item tuple whose metadata
is decoded and dropped), `ListStream` or `ByteStream`. -/
def decodePipelineDataHeader (fuel : Nat) (toks : List Tok) :
    Except String (RunInput × List Tok) :=
  eBind (peekTok toks) fun c =>
    if isStrCode c then
      eBind (decStr toks) fun (name, toks) =>
        if name = "Empty" then .ok (.emptyInput, toks)
        else .error ("expected PipelineHeader Empty, got " ++ name)
    else if isFixedMapCode c then
      eBind (decodeWrapperMap toks) fun (name, toks) =>
        match name with
        | "Value" =>
            eBind (decArrLen toks) fun (n, toks) =>
              match n with
              | some 2 =>
                  eBind (decodeValueM fuel toks) fun (v, toks) =>
                    eBind (decodePipelineMetadata toks) fun (_, toks) =>
                      .ok (.valueInput v, toks)
              | _ => .error "expected two item tuple"
        | "ListStream" =>
            eBind (decodeListStreamHdr fuel toks) fun (h, toks) =>
              .ok (.listStreamInput h, toks)
        | "ByteStream" =>
            eBind (decodeByteStreamHdr fuel toks) fun (h, toks) =>
              .ok (.byteStreamInput h, toks)
        | _ => .error ("unknown PipelineDataHeader value " ++ name)
    else .error "unexpected type in PipelineDataHeader"

/-- One key of `run.decodeMsgpack` (part_011 lines 633-647); unknown keys
make the absent `decodeMap` helper skip the value. -/
def decodeRunField (fuel : Nat) (acc : RunM) (key : String) (toks : List Tok) :
    Except String (RunM × List Tok) :=
  match key with
  | "name" => eBind (decStr toks) fun (s, toks) => .ok ({ acc with name := s }, toks)
  | "input" =>
      eBind (decodePipelineDataHeader fuel toks) fun (inp, toks) =>
        .ok ({ acc with input := inp }, toks)
  | "call" =>
      eBind (decodeEvaluatedCallM fuel toks) fun (ec, toks) =>
        .ok ({ acc with call := ec }, toks)
  | _ => eBind (decodeMObjF fuel toks) fun (_, toks) => .ok (acc, toks)

/-- `run.decodeMsgpack` (part_011 lines 633-647); the preset from
`decodeCall` is the zero run with an empty named map, and a nil input on
the Go side encodes the same as `empty`, which stands in for it here. -/
def decodeRunM (fuel : Nat) (toks : List Tok) : Except String (RunM × List Tok) :=
  eBind (decMapLen toks) fun (cnt, toks) =>
    decodeFieldLoop (decodeRunField fuel) (cnt.getD 0)
      ⟨"", ⟨⟨0, 0⟩, [], []⟩, .emptyInput⟩ toks

/-- `decodeCall` (part_011 lines 580-631) composed with the wrapper read
of `decodeInputMsg` (the Call branch of `handleMsgDecode`): the `Call`
tuple, then a bare command string or a wrapper map naming the call kind.
The `CustomValueOp` arm resolves ids in the plugin's live custom value
registry (modelled standalone by `decodeCustomValueM`) and is not needed
by any claim. -/
def decodeCallM (fuel : Nat) (toks : List Tok) :
    Except String ((Int × CallMsg) × List Tok) :=
  eBind (decodeWrapperMap toks) fun (name, toks) =>
    match name with
    | "Call" =>
        eBind (decodeTupleStart toks) fun (id, toks) =>
          eBind (peekTok toks) fun c =>
            if isStrCode c then
              eBind (decStr toks) fun (s, toks) =>
                match s with
                | "Signature" => .ok ((id, .signatureCall), toks)
                | "Metadata" => .ok ((id, .metadataCall), toks)
                | _ => .error ("unknown Call command " ++ s)
            else if isFixedMapCode c then
              eBind (decodeWrapperMap toks) fun (kind, toks) =>
                match kind with
                | "Run" =>
                    eBind (decodeRunM fuel toks) fun (r, toks) =>
                      .ok ((id, .runCall r), toks)
                | "CustomValueOp" =>
                    .error "CustomValueOp requires the live custom value registry"
                | _ => .error ("unknown Call type " ++ kind)
            else .error "unsupported Call value"
    | _ => .error ("unknown message " ++ name)

def wfRunInput : RunInput → Bool
  | .emptyInput => true
  | .valueInput v => wfValueM v
  | .listStreamInput hdr =>
      decide (inI64 hdr.id) && decide (hdr.span = ⟨0, 0⟩) &&
        decide (hdr.md = ⟨"", "", ""⟩)
  | .byteStreamInput _ => false

def wfEvaluatedCall (ec : EvaluatedCallM) : Bool :=
  decide (WFSpan ec.head) && wfValueItems ec.positional && wfRecordPairs ec.named

/-- Conditions under which a `Call/Run` message survives the wire: spans
fit int64, every argument value is well formed, the input is one the
encoder supports, and a list stream input carries only its id — the
encoder writes nothing else. -/
def wfRunM (r : RunM) : Bool :=
  wfEvaluatedCall r.call && wfRunInput r.input

/-! ## Key-value segment reasoning

A map-shaped wire object is a header followed by key/value segments; the
decoders above consume them with `decodeFieldLoop`.  `flattenSegs` lays a
segment list out as tokens and `SegsOK` certifies that a loop action
consumes each segment, turning one accumulated struct into the next. -/

def flattenSegs : List (String × List Tok) → List Tok
  | [] => []
  | (k, v) :: ss => .str k :: (v ++ flattenSegs ss)

/-- The loop action consumes the listed segments, transforming the
accumulator from `acc` to `fin`. -/
inductive SegsOK {σ : Type} (action : σ → String → List Tok → Except String (σ × List Tok)) :
    List (String × List Tok) → σ → σ → Prop where
  | nil (acc : σ) : SegsOK action [] acc acc
  | cons {k : String} {v : List Tok} {acc mid fin : σ} {ss : List (String × List Tok)} :
      (∀ r, action acc k (v ++ r) = .ok (mid, r)) →
      SegsOK action ss mid fin → SegsOK action ((k, v) :: ss) acc fin

/-- The token list of a successful encode (`[]` on error); lets a concrete
round-trip instance name the encoder's output without spelling it out. -/
def eToks : Except String (List Tok) → List Tok
  | .ok l => l
  | .error _ => []

/-! ### Theorems -/

@[simp] theorem eBind_ok {α β : Type} (a : α) (f : α → Except String β) :
    eBind (.ok a) f = f a := rfl

@[simp] theorem eBind_error {α β : Type} (e : String) (f : α → Except String β) :
    eBind (.error e) f = .error e := rfl

theorem mainMsgLoop_continues (e : LoopEvent) (rest : List LoopEvent)
    (h : loopContinues e) : mainMsgLoop (e :: rest) = mainMsgLoop rest := by
  cases e with
  | strMsg s => simp only [loopContinues] at h; simp [mainMsgLoop, h]
  | handledMsg ok => rfl
  | eof => exact absurd h (by simp [loopContinues])
  | interruptErr => exact absurd h (by simp [loopContinues])
  | decodeErr e => rfl

theorem mainMsgLoop_goodbye_iff (evts : List LoopEvent) :
    mainMsgLoop evts = some .goodbye ↔
      ∃ pre rest, evts = pre ++ .strMsg "Goodbye" :: rest ∧ ∀ e ∈ pre, loopContinues e := by
  induction evts with
  | nil =>
      constructor
      · intro h; simp [mainMsgLoop] at h
      · rintro ⟨pre, rest, h, -⟩; exact absurd h (by simp)
  | cons e rest ih =>
      constructor
      · intro h
        cases e with
        | strMsg s =>
            by_cases hs : s = "Goodbye"
            · exact ⟨[], rest, by simp [hs], by simp⟩
            · rw [mainMsgLoop_continues _ _ (by simpa [loopContinues] using hs)] at h
              obtain ⟨pre, rest', heq, hpre⟩ := ih.mp h
              refine ⟨.strMsg s :: pre, rest', by simp [heq], ?_⟩
              intro x hx
              rcases List.mem_cons.mp hx with hx | hx
              · subst hx; simpa [loopContinues] using hs
              · exact hpre x hx
        | handledMsg ok =>
            obtain ⟨pre, rest', heq, hpre⟩ := ih.mp h
            refine ⟨.handledMsg ok :: pre, rest', by simp [heq], ?_⟩
            intro x hx
            rcases List.mem_cons.mp hx with hx | hx
            · subst hx; trivial
            · exact hpre x hx
        | eof => simp [mainMsgLoop] at h
        | interruptErr => simp [mainMsgLoop] at h
        | decodeErr msg =>
            obtain ⟨pre, rest', heq, hpre⟩ := ih.mp h
            refine ⟨.decodeErr msg :: pre, rest', by simp [heq], ?_⟩
            intro x hx
            rcases List.mem_cons.mp hx with hx | hx
            · subst hx; trivial
            · exact hpre x hx
      · rintro ⟨pre, rest', heq, hpre⟩
        cases pre with
        | nil =>
            simp at heq
            rcases heq with ⟨h1, h2⟩
            subst h1; subst h2
            simp [mainMsgLoop]
        | cons p ps =>
            simp at heq
            rcases heq with ⟨h1, h2⟩
            subst h1
            rw [mainMsgLoop_continues _ _ (hpre _ (List.mem_cons_self _ _))]
            exact ih.mpr ⟨ps, rest', h2, fun x hx => hpre x (List.mem_cons_of_mem _ hx)⟩

/-- C4: the main message loop terminates with the Goodbye sentinel exactly
when a top-level decode yields the literal string "Goodbye" (before any
terminating event); a per-frame decode error that does not indicate loss of
framing, and an error from handling a single message, never terminate the
loop; byte-source EOF terminates the loop normally. -/
theorem C4_mainMsgLoop_termination (evts rest : List LoopEvent) (e : LoopEvent)
    (hc : loopContinues e) :
    (mainMsgLoop evts = some .goodbye ↔
        ∃ pre tail, evts = pre ++ .strMsg "Goodbye" :: tail ∧ ∀ x ∈ pre, loopContinues x) ∧
      mainMsgLoop (e :: rest) = mainMsgLoop rest ∧
      (∀ m, mainMsgLoop (.decodeErr m :: rest) = mainMsgLoop rest) ∧
      (∀ ok, mainMsgLoop (.handledMsg ok :: rest) = mainMsgLoop rest) ∧
      mainMsgLoop (.eof :: rest) = some .eofExit :=
  ⟨mainMsgLoop_goodbye_iff evts,
   mainMsgLoop_continues e rest hc,
   fun _ => rfl,
   fun _ => rfl,
   rfl⟩

theorem C4_mainMsgLoop_termination_witness :
    loopContinues (.decodeErr "bad frame") ∧
      (mainMsgLoop [.decodeErr "bad frame", .handledMsg false, .strMsg "Goodbye"] =
          some .goodbye ↔
        ∃ pre tail,
          [LoopEvent.decodeErr "bad frame", .handledMsg false, .strMsg "Goodbye"] =
              pre ++ .strMsg "Goodbye" :: tail ∧ ∀ x ∈ pre, loopContinues x) ∧
      mainMsgLoop [.decodeErr "bad frame", .strMsg "Goodbye"] =
        mainMsgLoop [.strMsg "Goodbye"] := by
  refine ⟨by simp [loopContinues], ?_, ?_⟩
  · exact (C4_mainMsgLoop_termination
      [.decodeErr "bad frame", .handledMsg false, .strMsg "Goodbye"]
      [.strMsg "Goodbye"] (.decodeErr "bad frame") (by simp [loopContinues])).1
  · exact (C4_mainMsgLoop_termination
      [.decodeErr "bad frame", .handledMsg false, .strMsg "Goodbye"]
      [.strMsg "Goodbye"] (.decodeErr "bad frame") (by simp [loopContinues])).2.1

/-- C7: promoting an unsigned 64-bit input with `ToValue` yields an error
payload iff the input exceeds `math.MaxInt64`, and otherwise the `Int` value
equal to it. -/
theorem C7_toValue_uint64 (u : Nat) (_hu : u < 2 ^ 64) :
    ((∃ m, toValue_uint64 u = .errPayload m) ↔ u > maxI64.toNat) ∧
      (u ≤ maxI64.toNat → toValue_uint64 u = .intPayload (u : Int)) := by
  by_cases hgt : u > maxI64.toNat
  · refine ⟨⟨fun _ => hgt,
      fun _ => ⟨"uint " ++ toString u ++ " is too large for int64", ?_⟩⟩,
      fun hle => absurd hgt (by omega)⟩
    simp [toValue_uint64, hgt]
  · refine ⟨⟨?_, fun h => absurd h hgt⟩, fun _ => ?_⟩
    · rintro ⟨m, hm⟩
      simp [toValue_uint64, hgt] at hm
    · simp [toValue_uint64, hgt]

theorem C7_toValue_uint64_witness :
    (2 ^ 63 : Nat) < 2 ^ 64 ∧
      (((∃ m, toValue_uint64 (2 ^ 63) = .errPayload m) ↔ 2 ^ 63 > maxI64.toNat) ∧
        (2 ^ 63 ≤ maxI64.toNat → toValue_uint64 (2 ^ 63) = .intPayload ((2 ^ 63 : Nat) : Int))) :=
  ⟨by norm_num, C7_toValue_uint64 (2 ^ 63) (by norm_num)⟩

/-- C9: for both output stream kinds, an `Ack` landing on a full `sent` slot
(a second `Ack` with no send outstanding to consume the first) is rejected
with exactly the message "received unexpected Ack"; the first `Ack` into an
empty slot succeeds and fills it. -/
theorem C9_unexpected_ack (s s' : SentChan) :
    (rawStreamOut_ack { full := false } = .ok { full := true } ∧
        listStreamOut_ack { full := false } = .ok { full := true }) ∧
      (rawStreamOut_ack s = .ok s' → rawStreamOut_ack s' = .error "received unexpected Ack") ∧
      (listStreamOut_ack s = .ok s' → listStreamOut_ack s' = .error "received unexpected Ack") := by
  refine ⟨⟨rfl, rfl⟩, ?_, ?_⟩
  · intro h
    rcases s with ⟨f⟩
    rcases s' with ⟨f'⟩
    cases f
    · cases f'
      · exact absurd h (by simp [rawStreamOut_ack])
      · rfl
    · simp [rawStreamOut_ack] at h
  · intro h
    rcases s with ⟨f⟩
    rcases s' with ⟨f'⟩
    cases f
    · cases f'
      · exact absurd h (by simp [listStreamOut_ack])
      · rfl
    · simp [listStreamOut_ack] at h

theorem C9_unexpected_ack_witness :
    rawStreamOut_ack { full := true } = .error "received unexpected Ack" ∧
      listStreamOut_ack { full := true } = .error "received unexpected Ack" :=
  ⟨(C9_unexpected_ack ⟨false⟩ ⟨true⟩).2.1 rfl, (C9_unexpected_ack ⟨false⟩ ⟨true⟩).2.2 rfl⟩

/-- C10: calling `ReturnListStream` (resp. `ReturnRawStream`) again when the
recorded response is a stream of the same kind returns the already-open
channel (resp. writer) with a nil error and leaves the slot unchanged; the
"response has been already sent" error occurs exactly when the slot holds a
response of a different kind. -/
theorem C10_repeat_return_stream (n ch w : Nat) (s : RespSlot) :
    returnListStream n (.listStream ch) = .ok (ch, .listStream ch) ∧
      returnRawStream n (.rawStream w) = .ok (w, .rawStream w) ∧
      (returnListStream n s = .error "response has been already sent" ↔
        s = .value ∨ ∃ v, s = .rawStream v) ∧
      (returnRawStream n s = .error "response has been already sent" ↔
        s = .value ∨ ∃ v, s = .listStream v) := by
  refine ⟨rfl, rfl, ?_, ?_⟩
  · cases s <;> simp [returnListStream]
  · cases s <;> simp [returnRawStream]

theorem C10_repeat_return_stream_witness :
    returnListStream 9 (.listStream 4) = .ok (4, .listStream 4) ∧
      returnRawStream 9 (.rawStream 5) = .ok (5, .rawStream 5) ∧
      returnListStream 9 .value = .error "response has been already sent" :=
  ⟨(C10_repeat_return_stream 9 4 5 .value).1,
   (C10_repeat_return_stream 9 4 5 .value).2.1,
   ((C10_repeat_return_stream 9 4 5 .value).2.2.1).mpr (Or.inl rfl)⟩

/-- C1 (code evaluation): when a `Run` handler returns an error before any
response was recorded (response slot unset, no stream open), the completion
path of `Plugin.handleRun` emits the `CallResponse/Error` frame and then,
because `returnError` never fills the write-once slot, `returnNothing` also
emits an empty-`PipelineData` `CallResponse`: two `CallResponse` frames where
the specification requires exactly the error one. -/
theorem C1_error_then_empty_response :
    handleRunCompletionFrames 1 true .unset =
        [.callResponseError 1, .callResponsePipelineEmpty 1] ∧
      (handleRunCompletionFrames 1 true .unset).countP (fun f => isCallResponse f) = 2 := by
  exact ⟨rfl, rfl⟩

theorem opDecode_wire (c o : String) (rest : List Tok) :
    Operator_DecodeMsgpack (encodeOperatorWire c o ++ rest) =
      match op_class_names.indexOf? c with
      | none => .error ("unknown Operator class \"" ++ c ++ "\"")
      | some idx =>
        match (op_classes.getD idx ("", [])).2.indexOf? o with
        | none =>
            .error ("unknown Operator \"" ++ o ++ "\" in class \"" ++ c ++ "\"")
        | some opIdx => .ok (idx * 2 ^ 16 + opIdx, rest) := by
  cases hidx : op_class_names.indexOf? c with
  | none =>
      simp [Operator_DecodeMsgpack, encodeOperatorWire, decodeWrapperMap, decMapLen,
        decStr, hidx]
  | some idx =>
      cases hop : (op_classes.getD idx ("", [])).2.indexOf? o with
      | none =>
          simp only [Operator_DecodeMsgpack, encodeOperatorWire, decodeWrapperMap,
            decMapLen, decStr, List.cons_append, List.nil_append, eBind_ok, hidx, hop]
      | some opIdx =>
          simp only [Operator_DecodeMsgpack, encodeOperatorWire, decodeWrapperMap,
            decMapLen, decStr, List.cons_append, List.nil_append, eBind_ok, hidx, hop]

theorem op_class_lookup :
    ∀ ci < op_classes.length,
      op_class_names.indexOf? (op_classes.getD ci ("", [])).1 = some ci := by
  decide

theorem op_op_lookup :
    ∀ ci < op_classes.length, ∀ oi < (op_classes.getD ci ("", [])).2.length,
      (op_classes.getD ci ("", [])).2.indexOf?
          ((op_classes.getD ci ("", [])).2.getD oi "") = some oi := by
  decide

theorem indexOf?_eq_none_of_not_mem {l : List String} {a : String} (h : a ∉ l) :
    l.indexOf? a = none := by
  rw [List.indexOf?_eq_none_iff]
  intro x hx
  simp only [beq_iff_eq]
  intro hxa
  exact h (hxa ▸ hx)

/-- C6: for every pair (class, op) of the defined operator tables, decoding
the wire form of that pair yields the operator value `classIndex <<< 16 +
opIndex`; an unknown class name fails with exactly the diagnostic
`unknown Operator class "X"`, and an unknown op name within a known class
fails with exactly `unknown Operator "Y" in class "X"` (for names on which
Go's %q is plain quoting). -/
theorem C6_operator_codec :
    (∀ ci, ci < op_classes.length → ∀ oi, oi < (op_classes.getD ci ("", [])).2.length →
      ∀ rest, Operator_DecodeMsgpack
          (encodeOperatorWire (op_classes.getD ci ("", [])).1
            ((op_classes.getD ci ("", [])).2.getD oi "") ++ rest) =
        .ok (ci * 2 ^ 16 + oi, rest)) ∧
    (∀ c o rest, c ∉ op_class_names → goQuotePlain c →
      Operator_DecodeMsgpack (encodeOperatorWire c o ++ rest) =
        .error ("unknown Operator class \"" ++ c ++ "\"")) ∧
    (∀ ci, ci < op_classes.length → ∀ o rest,
      o ∉ (op_classes.getD ci ("", [])).2 → goQuotePlain o →
      Operator_DecodeMsgpack (encodeOperatorWire (op_classes.getD ci ("", [])).1 o ++ rest) =
        .error ("unknown Operator \"" ++ o ++ "\" in class \"" ++
          (op_classes.getD ci ("", [])).1 ++ "\"")) := by
  refine ⟨?_, ?_, ?_⟩
  · intro ci hci oi hoi rest
    simp only [opDecode_wire, op_class_lookup ci hci, op_op_lookup ci hci oi hoi]
  · intro c o rest hc _
    simp only [opDecode_wire, indexOf?_eq_none_of_not_mem hc]
  · intro ci hci o rest ho _
    simp only [opDecode_wire, op_class_lookup ci hci, indexOf?_eq_none_of_not_mem ho]

theorem C6_operator_codec_witness :
    (3 < op_classes.length ∧ 0 < (op_classes.getD 3 ("", [])).2.length ∧
      Operator_DecodeMsgpack (encodeOperatorWire "Bits" "BitOr") =
        .ok (3 * 2 ^ 16 + 0, [])) ∧
      ("Foo" ∉ op_class_names ∧ goQuotePlain "Foo" ∧
        Operator_DecodeMsgpack (encodeOperatorWire "Foo" "BitOr") =
          .error "unknown Operator class \"Foo\"") ∧
      ("Frobnicate" ∉ (op_classes.getD 1 ("", [])).2 ∧ goQuotePlain "Frobnicate" ∧
        Operator_DecodeMsgpack (encodeOperatorWire "Math" "Frobnicate") =
          .error "unknown Operator \"Frobnicate\" in class \"Math\"") := by
  refine ⟨⟨by norm_num [op_classes], by norm_num [op_classes], ?_⟩,
    ⟨by decide, by decide, ?_⟩, ⟨by decide, by decide, ?_⟩⟩
  · have := (C6_operator_codec).1 3 (by norm_num [op_classes]) 0
      (by norm_num [op_classes]) []
    simpa [op_classes] using this
  · have := (C6_operator_codec).2.1 "Foo" "BitOr" [] (by decide) (by decide)
    simpa using this
  · have := (C6_operator_codec).2.2 1 (by norm_num [op_classes]) "Frobnicate" []
      (by decide) (by decide)
    simpa [op_classes] using this

theorem wrap64_eq_self {x : Int} (h1 : minI64 ≤ x) (h2 : x ≤ maxI64) : wrap64 x = x := by
  simp only [wrap64, minI64, maxI64] at *
  omega

theorem wrap64_high {x : Int} (h1 : maxI64 < x) (h2 : x ≤ maxI64 + 2 ^ 64) :
    wrap64 x = x - 2 ^ 64 := by
  simp only [wrap64, minI64, maxI64] at *
  omega

theorem wrap64_low {x : Int} (h1 : x < minI64) (h2 : minI64 - 2 ^ 64 ≤ x) :
    wrap64 x = x + 2 ^ 64 := by
  simp only [wrap64, minI64, maxI64] at *
  omega

theorem wrap64_bounds (x : Int) : minI64 ≤ wrap64 x ∧ wrap64 x ≤ maxI64 := by
  simp only [wrap64, minI64, maxI64]
  omega

theorem map_range_one (i step : Int) :
    List.map (fun k : Nat => i + (k : Int) * step) (List.range 1) = [i] := by
  rw [show List.range 1 = [0] by decide]
  simp

theorem countUpLoop_eq (E step : Int) (hs : 0 < step) (hstep : step ≤ maxI64)
    (hE : E ≤ maxI64) :
    ∀ fuel i, minI64 ≤ i → upCount E step i < fuel →
      countUpLoop E step fuel i =
        (List.range (upCount E step i)).map (fun k : Nat => i + (k : Int) * step) := by
  intro fuel
  induction fuel with
  | zero => intro i _ h; exact absurd h (by omega)
  | succ fuel ih =>
    intro i hi hcnt
    by_cases hle : i ≤ E
    · have hcount : upCount E step i = (E - i).toNat / step.toNat + 1 := by
        simp [upCount, hle]
      by_cases hov : i + step ≤ maxI64
      · have hwrap : wrap64 (i + step) = i + step :=
          wrap64_eq_self (by simp only [minI64] at *; omega) hov
        have hok : addI64 i step = (i + step, true) := by
          simp only [addI64, hwrap]
          rw [decide_eq_true (show i + step > i by omega),
            decide_eq_true (show step > 0 from hs)]
          rfl
        by_cases hle2 : i + step ≤ E
        · have hc2 : upCount E step (i + step) = (E - i - step).toNat / step.toNat + 1 := by
            simp only [upCount, if_pos hle2]
            congr 2
            omega
          have hsplit : upCount E step i = upCount E step (i + step) + 1 := by
            rw [hcount, hc2]
            have h1 : (E - i).toNat = (E - i - step).toNat + step.toNat := by omega
            rw [h1, Nat.add_div_right _ (by omega)]
          have hrec := ih (i + step) (by simp only [minI64] at *; omega) (by omega)
          simp only [countUpLoop, if_pos hle, hok, hrec]
          rw [hsplit, List.range_succ_eq_map, List.map_cons, List.map_map]
          congr 1
          · push_cast
            ring
          · apply List.map_congr_left
            intro k _
            simp only [Function.comp_apply, Nat.succ_eq_add_one]
            push_cast
            ring
        · have hone : upCount E step i = 1 := by
            rw [hcount, Nat.div_eq_of_lt (by omega)]
          have hfuel1 : 1 ≤ fuel := by omega
          simp only [countUpLoop, if_pos hle, hok, hone]
          rw [show fuel = (fuel - 1) + 1 by omega]
          simp only [countUpLoop, if_neg hle2]
          rw [map_range_one]
      · have hwrap : wrap64 (i + step) = i + step - 2 ^ 64 :=
          wrap64_high (by omega) (by simp only [maxI64] at *; omega)
        have hok : addI64 i step = (i + step - 2 ^ 64, false) := by
          simp only [addI64, hwrap]
          rw [decide_eq_false (show ¬ i + step - 2 ^ 64 > i by
              simp only [maxI64] at hstep; omega),
            decide_eq_true (show step > 0 from hs)]
          rfl
        have hone : upCount E step i = 1 := by
          rw [hcount, Nat.div_eq_of_lt (by omega)]
        simp only [countUpLoop, if_pos hle, hok, hone]
        rw [map_range_one]
    · have hzero : upCount E step i = 0 := by simp [upCount, hle]
      simp [countUpLoop, hle, hzero]

theorem countDownLoop_eq (E step : Int) (hs : step < 0) (hstep : minI64 ≤ step)
    (hE : minI64 ≤ E) :
    ∀ fuel i, i ≤ maxI64 → downCount E step i < fuel →
      countDownLoop E step fuel i =
        (List.range (downCount E step i)).map (fun k : Nat => i + (k : Int) * step) := by
  intro fuel
  induction fuel with
  | zero => intro i _ h; exact absurd h (by omega)
  | succ fuel ih =>
    intro i hi hcnt
    by_cases hge : i ≥ E
    · have hcount : downCount E step i = (i - E).toNat / (-step).toNat + 1 := by
        simp [downCount, hge]
      by_cases hov : minI64 ≤ i + step
      · have hwrap : wrap64 (i + step) = i + step :=
          wrap64_eq_self hov (by simp only [maxI64] at *; omega)
        have hok : addI64 i step = (i + step, true) := by
          simp only [addI64, hwrap]
          rw [decide_eq_false (show ¬ i + step > i by omega),
            decide_eq_false (show ¬ step > 0 by omega)]
          rfl
        by_cases hge2 : i + step ≥ E
        · have hc2 : downCount E step (i + step) = (i + step - E).toNat / (-step).toNat + 1 := by
            simp [downCount, hge2]
          have hsplit : downCount E step i = downCount E step (i + step) + 1 := by
            rw [hcount, hc2]
            have h1 : (i - E).toNat = (i + step - E).toNat + (-step).toNat := by omega
            rw [h1, Nat.add_div_right _ (by omega)]
          have hrec := ih (i + step) (by simp only [maxI64] at *; omega) (by omega)
          simp only [countDownLoop, if_pos hge, hok, hrec]
          rw [hsplit, List.range_succ_eq_map, List.map_cons, List.map_map]
          congr 1
          · push_cast
            ring
          · apply List.map_congr_left
            intro k _
            simp only [Function.comp_apply, Nat.succ_eq_add_one]
            push_cast
            ring
        · have hone : downCount E step i = 1 := by
            rw [hcount, Nat.div_eq_of_lt (by omega)]
          have hfuel1 : 1 ≤ fuel := by omega
          simp only [countDownLoop, if_pos hge, hok, hone]
          rw [show fuel = (fuel - 1) + 1 by omega]
          simp only [countDownLoop, if_neg hge2]
          rw [map_range_one]
      · have hwrap : wrap64 (i + step) = i + step + 2 ^ 64 :=
          wrap64_low (by omega) (by simp only [minI64] at *; omega)
        have hok : addI64 i step = (i + step + 2 ^ 64, false) := by
          simp only [addI64, hwrap]
          rw [decide_eq_true (show i + step + 2 ^ 64 > i by
              simp only [minI64] at hstep; omega),
            decide_eq_false (show ¬ step > 0 by omega)]
          rfl
        have hone : downCount E step i = 1 := by
          rw [hcount, Nat.div_eq_of_lt (by simp only [minI64] at *; omega)]
        simp only [countDownLoop, if_pos hge, hok, hone]
        rw [map_range_one]
    · have hzero : downCount E step i = 0 := by simp [downCount, hge]
      simp [countDownLoop, hge, hzero]

theorem upCount_lt_fuel {E step i : Int} (hE : E ≤ maxI64) (hi : minI64 ≤ i) :
    upCount E step i < rangeFuel := by
  have h1 : upCount E step i ≤ (E - i).toNat + 1 := by
    unfold upCount
    split
    · exact Nat.add_le_add_right (Nat.div_le_self _ _) 1
    · omega
  simp only [maxI64, minI64, rangeFuel] at *
  omega

theorem downCount_lt_fuel {E step i : Int} (hE : minI64 ≤ E) (hi : i ≤ maxI64) :
    downCount E step i < rangeFuel := by
  have h1 : downCount E step i ≤ (i - E).toNat + 1 := by
    unfold downCount
    split
    · exact Nat.add_le_add_right (Nat.div_le_self _ _) 1
    · omega
  simp only [maxI64, minI64, rangeFuel] at *
  omega

theorem codeUpTerminal_le (r : IntRangeM) (hwf : WFIntRange r) :
    codeUpTerminal r ≤ maxI64 := by
  obtain ⟨h1, h2, h3⟩ := hwf
  unfold codeUpTerminal
  cases r.bound
  · exact h3.2
  · exact (wrap64_bounds _).2
  · exact le_refl _

theorem codeDownTerminal_ge (r : IntRangeM) (hwf : WFIntRange r) :
    minI64 ≤ codeDownTerminal r := by
  obtain ⟨h1, h2, h3⟩ := hwf
  unfold codeDownTerminal
  cases r.bound
  · exact h3.1
  · exact (wrap64_bounds _).1
  · exact le_refl _

/-- C5 (amended): for a well-formed `IntRange` with nonzero step, `All()`
yields exactly the arithmetic progression `start + k*step` for
`k < upCount/downCount` against the terminal the code computes — which
matches the claim's terminal (`end` for Included, one before `end` for
Excluded, the int64 extremum for Unbounded, with `start + step` overflow
ending the iteration) in all cases except an `Excluded` bound whose `end` is
the int64 extremum of the iteration direction, where the code's `end ∓ 1`
wraps around and the range iterates as if unbounded. -/
theorem C5_intRange_all (r : IntRangeM) (hwf : WFIntRange r) :
    (0 < r.step →
      IntRange_All r =
        (List.range (upCount (codeUpTerminal r) r.step r.start)).map
          (fun k : Nat => r.start + (k : Int) * r.step)) ∧
    (r.step < 0 →
      IntRange_All r =
        (List.range (downCount (codeDownTerminal r) r.step r.start)).map
          (fun k : Nat => r.start + (k : Int) * r.step)) ∧
    (r.step = 0 → IntRange_All r = []) ∧
    ((r.bound = .excluded → r.endv ≠ minI64) → codeUpTerminal r = specUpTerminal r) ∧
    ((r.bound = .excluded → r.endv ≠ maxI64) → codeDownTerminal r = specDownTerminal r) := by
  obtain ⟨hstart, hstep, hend⟩ := hwf
  refine ⟨?_, ?_, ?_, ?_, ?_⟩
  · intro hs
    have : IntRange_All r = countUp r := by simp [IntRange_All, hs]
    rw [this]
    exact countUpLoop_eq (codeUpTerminal r) r.step hs hstep.2
      (codeUpTerminal_le r ⟨hstart, hstep, hend⟩) rangeFuel r.start hstart.1
      (upCount_lt_fuel (codeUpTerminal_le r ⟨hstart, hstep, hend⟩) hstart.1)
  · intro hs
    have : IntRange_All r = countDown r := by
      have hns : ¬ r.step > 0 := by omega
      simp [IntRange_All, hns, hs]
    rw [this]
    exact countDownLoop_eq (codeDownTerminal r) r.step hs hstep.1
      (codeDownTerminal_ge r ⟨hstart, hstep, hend⟩) rangeFuel r.start hstart.2
      (downCount_lt_fuel (codeDownTerminal_ge r ⟨hstart, hstep, hend⟩) hstart.2)
  · intro hs
    simp [IntRange_All, hs]
  · intro hx
    unfold codeUpTerminal specUpTerminal
    cases hb : r.bound
    · rfl
    · have hne := hx hb
      have h1 := hend.1
      have h2 := hend.2
      rw [wrap64_eq_self (by simp only [minI64, maxI64] at *; omega)
        (by simp only [minI64, maxI64] at *; omega)]
    · rfl
  · intro hx
    unfold codeDownTerminal specDownTerminal
    cases hb : r.bound
    · rfl
    · have hne := hx hb
      have h1 := hend.1
      have h2 := hend.2
      rw [wrap64_eq_self (by simp only [minI64, maxI64] at *; omega)
        (by simp only [minI64, maxI64] at *; omega)]
    · rfl

theorem C5_intRange_all_witness :
    WFIntRange ⟨1, 2, 5, .included⟩ ∧
      IntRange_All ⟨1, 2, 5, .included⟩ =
        (List.range (upCount (codeUpTerminal ⟨1, 2, 5, .included⟩) 2 1)).map
          (fun k : Nat => 1 + (k : Int) * 2) :=
  ⟨by decide, (C5_intRange_all ⟨1, 2, 5, .included⟩ (by decide)).1 (by norm_num)⟩

theorem countUpLoop_head (E step i : Int) (fuel : Nat) (hf : 0 < fuel) (hle : i ≤ E) :
    (countUpLoop E step fuel i).head? = some i := by
  cases fuel with
  | zero => omega
  | succ f => simp [countUpLoop, hle]

/-- C5 counterexample: the range `minInt64..<minInt64` with step 1 passes
`Validate`, yet its iteration yields its start value `minInt64`, which is
not strictly before the `Excluded` end `minInt64` — the code's
`end = v.End - 1` wraps to maxInt64 and the range iterates as if unbounded,
contradicting the claim's reading of the `Excluded` bound. -/
theorem C5_counterexample :
    IntRange_Validate ⟨minI64, 1, minI64, .excluded⟩ = .ok () ∧
      (⟨minI64, 1, minI64, .excluded⟩ : IntRangeM).step ≠ 0 ∧
      minI64 ∈ IntRange_All ⟨minI64, 1, minI64, .excluded⟩ ∧
      ¬ (minI64 < (⟨minI64, 1, minI64, .excluded⟩ : IntRangeM).endv) := by
  have hterm : codeUpTerminal ⟨minI64, 1, minI64, .excluded⟩ = maxI64 := by
    unfold codeUpTerminal
    rw [wrap64_low (by simp only [minI64]; omega) (by simp only [minI64]; omega)]
    simp only [minI64, maxI64]
    ring
  have hall : IntRange_All ⟨minI64, 1, minI64, .excluded⟩ =
      countUpLoop maxI64 1 rangeFuel minI64 := by
    simp only [IntRange_All, countUp]
    rw [hterm]
    norm_num
  refine ⟨by decide, by decide, ?_, by simp⟩
  rw [hall]
  have hhead := countUpLoop_head maxI64 1 minI64 rangeFuel
    (by simp only [rangeFuel]; omega) (by simp only [minI64, maxI64]; omega)
  exact List.mem_of_mem_head? (by rw [hhead]; rfl)

theorem listStream_invariant {α : Type} (s : ListStreamInState α)
    (h : ListStreamReachable α s) :
    s.received = s.delivered ++ phaseHold s.phase ++ s.buf ∧
      s.acks + ackDebt s.phase = s.delivered.length := by
  induction h with
  | init => simp [phaseHold, ackDebt]
  | step hr hs ih =>
      obtain ⟨ih1, ih2⟩ := ih
      cases hs with
      | recv v =>
          constructor
          · simp only []
            rw [ih1]
            simp
          · simpa using ih2
      | pop v rest hphase hbuf =>
          constructor
          · simp only []
            rw [ih1, hphase, hbuf]
            simp [phaseHold]
          · simp only []
            rw [hphase] at ih2
            simpa [phaseHold, ackDebt] using ih2
      | deliverStep v hphase =>
          constructor
          · simp only []
            rw [ih1, hphase]
            simp [phaseHold]
          · simp only []
            rw [hphase] at ih2
            simp only [phaseHold, ackDebt] at *
            simp
            omega
      | ackStep hphase =>
          constructor
          · simp only []
            rw [ih1, hphase]
            simp [phaseHold]
          · simp only []
            rw [hphase] at ih2
            simp only [phaseHold, ackDebt] at *
            omega

/-- C3: in every reachable state of a list input stream, the sequence
delivered to the consumer is a prefix of the sequence of `Data` payloads
received (in order); the number of `Ack`s emitted never exceeds the number
of delivered items (an `Ack` is only ever sent after its item became visible
to the consumer) and lags it by at most the one in-flight item; and once the
worker is idle with an empty buffer, the delivered sequence equals the
received sequence exactly and exactly one `Ack` was emitted per item. -/
theorem C3_list_input_stream {α : Type} (s : ListStreamInState α)
    (h : ListStreamReachable α s) :
    (∃ t, s.received = s.delivered ++ t) ∧
      s.acks ≤ s.delivered.length ∧
      s.delivered.length ≤ s.acks + 1 ∧
      (s.buf = [] → s.phase = .idle →
        s.delivered = s.received ∧ s.acks = s.received.length) := by
  obtain ⟨h1, h2⟩ := listStream_invariant s h
  refine ⟨⟨phaseHold s.phase ++ s.buf, by rw [h1, List.append_assoc]⟩, ?_, ?_, ?_⟩
  · have : ackDebt s.phase ≤ 1 := by cases s.phase <;> simp [ackDebt]
    omega
  · have : ackDebt s.phase ≤ 1 := by cases s.phase <;> simp [ackDebt]
    omega
  · intro hbuf hphase
    rw [hphase] at h1 h2
    rw [hbuf] at h1
    simp only [phaseHold, ackDebt, List.append_nil] at h1 h2
    exact ⟨h1.symm, by rw [h1]; omega⟩

theorem C3_list_input_stream_witness :
    ∃ s : ListStreamInState Nat, ListStreamReachable Nat s ∧
      s.received = [7] ∧ s.delivered = [7] ∧ s.acks = 1 ∧
      ((∃ t, s.received = s.delivered ++ t) ∧
        s.acks ≤ s.delivered.length ∧
        s.delivered.length ≤ s.acks + 1 ∧
        (s.buf = [] → s.phase = .idle →
          s.delivered = s.received ∧ s.acks = s.received.length)) := by
  refine ⟨⟨[7], [], .idle, [7], 1⟩, ?_, rfl, rfl, rfl, ?_⟩
  · have h0 : ListStreamReachable Nat ⟨[], [], .idle, [], 0⟩ :=
      ListStreamReachable.init
    have h1 : ListStreamReachable Nat ⟨[7], [7], .idle, [], 0⟩ :=
      ListStreamReachable.step h0 (ListStreamStep.recv _ 7)
    have h2 : ListStreamReachable Nat ⟨[7], [], .deliver 7, [], 0⟩ :=
      ListStreamReachable.step h1 (ListStreamStep.pop _ 7 [] rfl rfl)
    have h3 : ListStreamReachable Nat ⟨[7], [], .acking, [7], 0⟩ :=
      ListStreamReachable.step h2 (ListStreamStep.deliverStep _ 7 rfl)
    exact ListStreamReachable.step h3 (ListStreamStep.ackStep _ rfl)
  · apply C3_list_input_stream
    have h0 : ListStreamReachable Nat ⟨[], [], .idle, [], 0⟩ :=
      ListStreamReachable.init
    have h1 : ListStreamReachable Nat ⟨[7], [7], .idle, [], 0⟩ :=
      ListStreamReachable.step h0 (ListStreamStep.recv _ 7)
    have h2 : ListStreamReachable Nat ⟨[7], [], .deliver 7, [], 0⟩ :=
      ListStreamReachable.step h1 (ListStreamStep.pop _ 7 [] rfl rfl)
    have h3 : ListStreamReachable Nat ⟨[7], [], .acking, [7], 0⟩ :=
      ListStreamReachable.step h2 (ListStreamStep.deliverStep _ 7 rfl)
    exact ListStreamReachable.step h3 (ListStreamStep.ackStep _ rfl)

mutual

theorem decodeMObjF_encode : ∀ (m : MObj) (fuel : Nat) (rest : List Tok),
    (encodeMObj m).length ≤ fuel →
    decodeMObjF fuel (encodeMObj m ++ rest) = .ok (m, rest)
  | .nilm, fuel, rest, h => by
      obtain ⟨f, rfl⟩ : ∃ f, fuel = f + 1 :=
        ⟨fuel - 1, by simp [encodeMObj] at h; omega⟩
      simp [encodeMObj, decodeMObjF]
  | .boolm b, fuel, rest, h => by
      obtain ⟨f, rfl⟩ : ∃ f, fuel = f + 1 :=
        ⟨fuel - 1, by simp [encodeMObj] at h; omega⟩
      simp [encodeMObj, decodeMObjF]
  | .intm i, fuel, rest, h => by
      obtain ⟨f, rfl⟩ : ∃ f, fuel = f + 1 :=
        ⟨fuel - 1, by simp [encodeMObj] at h; omega⟩
      simp [encodeMObj, decodeMObjF]
  | .strm sv, fuel, rest, h => by
      obtain ⟨f, rfl⟩ : ∃ f, fuel = f + 1 :=
        ⟨fuel - 1, by simp [encodeMObj] at h; omega⟩
      simp [encodeMObj, decodeMObjF]
  | .binm b, fuel, rest, h => by
      obtain ⟨f, rfl⟩ : ∃ f, fuel = f + 1 :=
        ⟨fuel - 1, by simp [encodeMObj] at h; omega⟩
      simp [encodeMObj, decodeMObjF]
  | .f64m bits, fuel, rest, h => by
      obtain ⟨f, rfl⟩ : ∃ f, fuel = f + 1 :=
        ⟨fuel - 1, by simp [encodeMObj] at h; omega⟩
      simp [encodeMObj, decodeMObjF]
  | .arrm items, fuel, rest, h => by
      obtain ⟨f, rfl⟩ : ∃ f, fuel = f + 1 :=
        ⟨fuel - 1, by simp [encodeMObj] at h; omega⟩
      have hlen : (encodeMObjList items).length ≤ f := by
        simp [encodeMObj] at h
        omega
      simp only [encodeMObj, List.cons_append, decodeMObjF,
        decodeMObjListF_encode items f rest hlen, eBind_ok]
  | .mapm pairs, fuel, rest, h => by
      obtain ⟨f, rfl⟩ : ∃ f, fuel = f + 1 :=
        ⟨fuel - 1, by simp [encodeMObj] at h; omega⟩
      have hlen : (encodeMObjPairs pairs).length ≤ f := by
        simp [encodeMObj] at h
        omega
      simp only [encodeMObj, List.cons_append, decodeMObjF,
        decodeMObjPairsF_encode pairs f rest hlen, eBind_ok]

theorem decodeMObjListF_encode : ∀ (items : List MObj) (fuel : Nat) (rest : List Tok),
    (encodeMObjList items).length ≤ fuel →
    decodeMObjListF fuel items.length (encodeMObjList items ++ rest) = .ok (items, rest)
  | [], fuel, rest, _ => by simp [encodeMObjList, decodeMObjListF]
  | x :: xs, fuel, rest, h => by
      have hx : (encodeMObj x).length ≤ fuel := by
        simp [encodeMObjList] at h
        omega
      have hxs : (encodeMObjList xs).length ≤ fuel := by
        simp [encodeMObjList] at h
        omega
      simp only [encodeMObjList, List.length_cons, List.append_assoc, decodeMObjListF,
        decodeMObjF_encode x fuel (encodeMObjList xs ++ rest) hx, eBind_ok,
        decodeMObjListF_encode xs fuel rest hxs]

theorem decodeMObjPairsF_encode :
    ∀ (pairs : List (MObj × MObj)) (fuel : Nat) (rest : List Tok),
    (encodeMObjPairs pairs).length ≤ fuel →
    decodeMObjPairsF fuel pairs.length (encodeMObjPairs pairs ++ rest) = .ok (pairs, rest)
  | [], fuel, rest, _ => by simp [encodeMObjPairs, decodeMObjPairsF]
  | (k, v) :: xs, fuel, rest, h => by
      have hk : (encodeMObj k).length ≤ fuel := by
        simp [encodeMObjPairs] at h
        omega
      have hv : (encodeMObj v).length ≤ fuel := by
        simp [encodeMObjPairs] at h
        omega
      have hxs : (encodeMObjPairs xs).length ≤ fuel := by
        simp [encodeMObjPairs] at h
        omega
      simp only [encodeMObjPairs, List.length_cons, List.append_assoc, decodeMObjPairsF,
        decodeMObjF_encode k fuel (encodeMObj v ++ (encodeMObjPairs xs ++ rest)) hk,
        eBind_ok,
        decodeMObjF_encode v fuel (encodeMObjPairs xs ++ rest) hv,
        decodeMObjPairsF_encode xs fuel rest hxs]

end

theorem decodeSpan_encode (sp : SpanM) (hwf : WFSpan sp) (rest : List Tok) :
    decodeSpanM (encodeSpanM sp ++ rest) = .ok (sp, rest) := by
  obtain ⟨⟨h1a, h1b⟩, ⟨h2a, h2b⟩⟩ := hwf
  obtain ⟨a, b⟩ := sp
  simp only [SpanM.mk.injEq] at *
  simp [encodeSpanM, decodeSpanM, decMapLen, decodeSpanLoop, decStr, decodeSpanField,
    decInt64, h1a, h1b, h2a, h2b]

theorem readDigit_digitChar (d : Nat) (hd : d ≤ 9) (rest : List Char) :
    readDigit (digitChar d :: rest) = .ok (d, rest) := by
  interval_cases d <;> rfl

theorem read2_pad2 (n : Nat) (hn : n ≤ 99) (rest : List Char) :
    read2 (pad2 n ++ rest) = .ok (n, rest) := by
  simp only [pad2, List.cons_append, List.nil_append, read2]
  rw [readDigit_digitChar (n / 10) (by omega), eBind_ok,
    readDigit_digitChar (n % 10) (by omega), eBind_ok]
  have h : n / 10 * 10 + n % 10 = n := by omega
  rw [h]

theorem read4_pad4 (n : Nat) (hn : n ≤ 9999) (rest : List Char) :
    read4 (pad4 n ++ rest) = .ok (n, rest) := by
  simp only [pad4, List.cons_append, List.nil_append, read4]
  rw [readDigit_digitChar (n / 1000) (by omega), eBind_ok,
    readDigit_digitChar (n / 100 % 10) (by omega), eBind_ok,
    readDigit_digitChar (n / 10 % 10) (by omega), eBind_ok,
    readDigit_digitChar (n % 10) (by omega), eBind_ok]
  have h : n / 1000 * 1000 + n / 100 % 10 * 100 + n / 10 % 10 * 10 + n % 10 = n := by
    omega
  rw [h]

theorem expectChar_self (c : Char) (rest : List Char) :
    expectChar c (c :: rest) = .ok rest := by
  simp [expectChar]

theorem parseOffset_format (off : Int) (h1 : -1439 ≤ off) (h2 : off ≤ 1439)
    (rest : List Char) :
    parseOffset (formatOffset off ++ rest) = .ok (off, rest) := by
  by_cases h0 : off = 0
  · subst h0
    simp [formatOffset, parseOffset]
  · have habs : off.natAbs ≤ 1439 := by omega
    have hhh : off.natAbs / 60 ≤ 99 := by omega
    have hmm : off.natAbs % 60 ≤ 99 := by omega
    by_cases hpos : 0 < off
    · simp only [formatOffset, if_neg h0, if_pos hpos, List.cons_append,
        List.append_assoc, parseOffset]
      rw [if_neg (by decide : ¬ ('+' : Char) = 'Z'), if_pos (by simp),
        read2_pad2 _ hhh, eBind_ok, expectChar_self, eBind_ok,
        read2_pad2 _ hmm, eBind_ok,
        if_pos (by omega : off.natAbs / 60 ≤ 23),
        if_pos (by omega : off.natAbs % 60 ≤ 59), if_pos trivial]
      have hval : ((off.natAbs / 60 : Nat) * 60 + (off.natAbs % 60 : Nat) : Int) = off := by
        omega
      rw [hval]
    · simp only [formatOffset, if_neg h0, if_neg hpos, List.cons_append,
        List.append_assoc, parseOffset]
      rw [if_neg (by decide : ¬ ('-' : Char) = 'Z'), if_pos (by simp),
        read2_pad2 _ hhh, eBind_ok, expectChar_self, eBind_ok,
        read2_pad2 _ hmm, eBind_ok,
        if_pos (by omega : off.natAbs / 60 ≤ 23),
        if_pos (by omega : off.natAbs % 60 ≤ 59),
        if_neg (by decide : ¬ ('-' : Char) = '+')]
      have hval : (-((off.natAbs / 60 : Nat) * 60 + (off.natAbs % 60 : Nat)) : Int) = off := by
        omega
      rw [hval]

theorem parseFraction_formatOffset (off : Int) :
    parseFraction (formatOffset off) = .ok (0, formatOffset off) := by
  unfold formatOffset
  by_cases h0 : off = 0
  · simp [h0, parseFraction]
  · by_cases hpos : 0 < off <;> simp [h0, hpos, parseFraction]

theorem parseRFC3339_format (t : GoTime) (hwf : WFGoTime t) (hns : t.nanosec = 0) :
    parseRFC3339 (formatRFC3339 t) = .ok t := by
  obtain ⟨year, month, day, hour, minute, second, nanosec, offsetMin⟩ := t
  obtain ⟨hy, hm1, hm2, hd1, hd2, hh, hmin, hs, _, ho1, ho2⟩ := hwf
  simp only at hy hm1 hm2 hd1 hd2 hh hmin hs ho1 ho2 hns
  subst hns
  have hdm : daysInMonth year month ≤ 31 := by
    interval_cases month <;> simp only [daysInMonth] <;>
      (first | omega | (split <;> omega))
  simp only [formatRFC3339, List.append_assoc, List.cons_append, parseRFC3339]
  rw [read4_pad4 _ hy, eBind_ok, expectChar_self, eBind_ok,
    read2_pad2 _ (by omega), eBind_ok, expectChar_self, eBind_ok,
    read2_pad2 _ (by omega), eBind_ok, expectChar_self, eBind_ok,
    read2_pad2 _ (by omega), eBind_ok, expectChar_self, eBind_ok,
    read2_pad2 _ (by omega), eBind_ok, expectChar_self, eBind_ok,
    read2_pad2 _ (by omega), eBind_ok, parseFraction_formatOffset, eBind_ok]
  have hoff := parseOffset_format offsetMin ho1 ho2 []
  rw [List.append_nil] at hoff
  rw [hoff, eBind_ok]
  simp [hm1, hm2, hd1, hd2, hh, hmin, hs]

theorem decodeErrorLabelM_encode (fuel : Nat) (l : ErrorLabelM)
    (hwf : wfErrorLabel l = true) (rest : List Tok) :
    decodeErrorLabelM fuel (encodeErrorLabelM l ++ rest) = .ok (l, rest) := by
  obtain ⟨text, span⟩ := l
  simp only [wfErrorLabel, decide_eq_true_eq] at hwf
  simp [encodeErrorLabelM, decodeErrorLabelM, decMapLen, decodeFieldLoop, decStr,
    decodeErrorLabelField, decodeSpan_encode _ hwf]

theorem decodeErrorLabels_loop (fuel : Nat) (ls : List ErrorLabelM)
    (hwf : ls.all wfErrorLabel = true) (rest : List Tok) :
    decodeListLoop (decodeErrorLabelM fuel) ls.length (encodeErrorLabels ls ++ rest) =
      .ok (ls, rest) := by
  induction ls generalizing rest with
  | nil => simp [encodeErrorLabels, decodeListLoop]
  | cons l ls ih =>
      simp only [List.all_cons, Bool.and_eq_true] at hwf
      simp only [encodeErrorLabels, List.length_cons, List.append_assoc, decodeListLoop,
        decodeErrorLabelM_encode fuel l hwf.1, eBind_ok, ih hwf.2]

theorem SegsOK_append {σ : Type}
    (action : σ → String → List Tok → Except String (σ × List Tok)) :
    ∀ {s1 s2 : List (String × List Tok)} {acc mid fin : σ},
    SegsOK action s1 acc mid → SegsOK action s2 mid fin →
    SegsOK action (s1 ++ s2) acc fin := by
  intro s1
  induction s1 with
  | nil =>
      intro s2 acc mid fin h1 h2
      cases h1
      simpa using h2
  | cons s ss ih =>
      intro s2 acc mid fin h1 h2
      cases h1 with
      | cons hact hrest => exact SegsOK.cons hact (ih hrest h2)

theorem flattenSegs_append : ∀ (s1 s2 : List (String × List Tok)),
    flattenSegs (s1 ++ s2) = flattenSegs s1 ++ flattenSegs s2
  | [], _ => rfl
  | (k, v) :: ss, s2 => by
      simp [flattenSegs, flattenSegs_append ss s2]

theorem decodeFieldLoop_segsOK {σ : Type}
    (action : σ → String → List Tok → Except String (σ × List Tok)) :
    ∀ (segs : List (String × List Tok)) (acc fin : σ) (rest : List Tok),
    SegsOK action segs acc fin →
    decodeFieldLoop action segs.length acc (flattenSegs segs ++ rest) = .ok (fin, rest) := by
  intro segs
  induction segs with
  | nil =>
      intro acc fin rest h
      cases h
      simp [flattenSegs, decodeFieldLoop]
  | cons s ss ih =>
      intro acc fin rest h
      cases h with
      | cons hact hrest =>
          simp only [flattenSegs, List.length_cons, List.cons_append, List.append_assoc,
            decodeFieldLoop, decStr, eBind_ok, hact (flattenSegs ss ++ rest),
            ih _ _ rest hrest]

theorem decodeLabeledErrorF_encode (fuel : Nat) :
    ∀ (e : LabeledErrorM) (rest : List Tok),
    wfLabeledError e = true → (encodeLabeledErrorM e).length ≤ fuel →
    decodeLabeledErrorF fuel (encodeLabeledErrorM e ++ rest) = .ok (e, rest) := by
  induction fuel using Nat.strong_induction_on with
  | _ fuel ih =>
      intro e rest hwf hlen
      obtain ⟨msg, labels, code, url, help, inner⟩ := e
      obtain ⟨f, rfl⟩ : ∃ f, fuel = f + 1 :=
        ⟨fuel - 1, by simp [encodeLabeledErrorM] at hlen; omega⟩
      simp only [wfLabeledError, Bool.and_eq_true] at hwf
      have hlab := decodeErrorLabels_loop f labels hwf.1
      have hinn : ∀ (es : List LabeledErrorM), wfLEList es = true →
          (encodeLEList es).length ≤ f → ∀ r,
          decodeListLoop (fun ts => decodeLabeledErrorF f ts) es.length
            (encodeLEList es ++ r) = .ok (es, r) := by
        intro es
        induction es with
        | nil => intro _ _ r; simp [encodeLEList, decodeListLoop]
        | cons e0 es0 ihe =>
            intro hw hl r
            simp only [wfLEList, Bool.and_eq_true] at hw
            simp only [encodeLEList, List.length_append] at hl
            simp only [encodeLEList, List.length_cons, List.append_assoc, decodeListLoop,
              ih f (by omega) e0 _ hw.1 (by omega), eBind_ok,
              ihe hw.2 (by omega) r]
      have hinnLen : (encodeLEList inner).length ≤ f := by
        rcases inner with _ | ⟨e0, es⟩
        · simp [encodeLEList]
        · simp only [encodeLabeledErrorM, List.isEmpty_cons, List.length_cons,
            List.length_append, if_false, Bool.false_eq_true] at hlen
          omega
      have hinn2 := hinn inner hwf.2 hinnLen
      have h1 : SegsOK (decodeLEField f (fun ts => decodeLabeledErrorF f ts))
          [("msg", [.str msg])] (.mk "" [] "" "" "" []) (.mk msg [] "" "" "" []) :=
        SegsOK.cons (fun r => by simp [decodeLEField, decStr]) (SegsOK.nil _)
      have h2 : SegsOK (decodeLEField f (fun ts => decodeLabeledErrorF f ts))
          (if labels.isEmpty then [] else
            [("labels", .arrLen labels.length :: encodeErrorLabels labels)])
          (.mk msg [] "" "" "" []) (.mk msg labels "" "" "" []) := by
        rcases labels with _ | ⟨l0, ls⟩
        · exact SegsOK.nil _
        · simp only [List.length_cons] at hlab
          refine SegsOK.cons (fun r => ?_) (SegsOK.nil _)
          simp [decodeLEField, decArrLen, hlab]
      have h3 : SegsOK (decodeLEField f (fun ts => decodeLabeledErrorF f ts))
          (if code = "" then [] else [("code", [.str code])])
          (.mk msg labels "" "" "" []) (.mk msg labels code "" "" []) := by
        by_cases hc : code = ""
        · subst hc
          exact SegsOK.nil _
        · simp only [if_neg hc]
          exact SegsOK.cons (fun r => by simp [decodeLEField, decStr]) (SegsOK.nil _)
      have h4 : SegsOK (decodeLEField f (fun ts => decodeLabeledErrorF f ts))
          (if url = "" then [] else [("url", [.str url])])
          (.mk msg labels code "" "" []) (.mk msg labels code url "" []) := by
        by_cases hu3 : url = ""
        · subst hu3
          exact SegsOK.nil _
        · simp only [if_neg hu3]
          exact SegsOK.cons (fun r => by simp [decodeLEField, decStr]) (SegsOK.nil _)
      have h5 : SegsOK (decodeLEField f (fun ts => decodeLabeledErrorF f ts))
          (if help = "" then [] else [("help", [.str help])])
          (.mk msg labels code url "" []) (.mk msg labels code url help []) := by
        by_cases hh3 : help = ""
        · subst hh3
          exact SegsOK.nil _
        · simp only [if_neg hh3]
          exact SegsOK.cons (fun r => by simp [decodeLEField, decStr]) (SegsOK.nil _)
      have h6 : SegsOK (decodeLEField f (fun ts => decodeLabeledErrorF f ts))
          (if inner.isEmpty then [] else
            [("inner", .arrLen inner.length :: encodeLEList inner)])
          (.mk msg labels code url help []) (.mk msg labels code url help inner) := by
        rcases inner with _ | ⟨e0, es⟩
        · exact SegsOK.nil _
        · simp only [List.length_cons] at hinn2
          refine SegsOK.cons (fun r => ?_) (SegsOK.nil _)
          simp [decodeLEField, decArrLen, hinn2]
      have hok := SegsOK_append _ h1 (SegsOK_append _ h2 (SegsOK_append _ h3
        (SegsOK_append _ h4 (SegsOK_append _ h5 h6))))
      have hloop := decodeFieldLoop_segsOK _ _ _ _ rest hok
      simp only [encodeLabeledErrorM, List.cons_append, decodeLabeledErrorF, decMapLen,
        eBind_ok, List.append_assoc]
      convert hloop using 2
      · simp only [List.length_append, List.length_cons, List.length_nil,
          apply_ite List.length, Nat.zero_add]
        omega
      · simp [flattenSegs_append, apply_ite flattenSegs, flattenSegs]


theorem decUint_natCast (v : Nat) (hv : v < 2 ^ 64) (rest : List Tok) :
    decUint (.int (v : Int) :: rest) = .ok (v, rest) := by
  simp only [decUint]
  rw [if_pos ⟨Int.natCast_nonneg v, by exact_mod_cast hv⟩]
  simp

theorem decodePathMemberM_unfold (itemType : String) (n : Nat) (tail : List Tok) :
    decodePathMemberM (.mapLen 1 :: .str itemType :: .mapLen n :: tail) =
      eBind (decodeFieldLoop (decodePathMemberField itemType) n
        ⟨"", 0, ⟨0, 0⟩, false, true⟩ tail) fun x =>
        match itemType with
        | "Int" => .ok (.intMember x.1.iVal x.1.opt x.1.casing x.1.span, x.2)
        | "String" => .ok (.strMember x.1.sVal x.1.opt x.1.casing x.1.span, x.2)
        | _ => .error ("unsupported CellPath member type " ++ itemType) := rfl

theorem decodePathMemberM_encode (pm : PathMemberM) (hwf : wfPathMember pm = true)
    (rest : List Tok) :
    decodePathMemberM (encodePathMemberM pm ++ rest) = .ok (pm, rest) := by
  cases pm with
  | intMember v opt cas sp =>
      simp only [wfPathMember, Bool.and_eq_true, decide_eq_true_eq] at hwf
      have a1 : ∀ r, decodePathMemberField "Int" ⟨"", 0, ⟨0, 0⟩, false, true⟩ "val"
          ([.int (v : Int)] ++ r) = .ok (⟨"", v, ⟨0, 0⟩, false, true⟩, r) := fun r => by
        simp [decodePathMemberField, decUint_natCast v hwf.1]
      have a2 : ∀ r, decodePathMemberField "Int" ⟨"", v, ⟨0, 0⟩, false, true⟩ "span"
          (encodeSpanM sp ++ r) = .ok (⟨"", v, sp, false, true⟩, r) := fun r => by
        simp [decodePathMemberField, decodeSpan_encode _ hwf.2]
      have a3 : ∀ r, decodePathMemberField "Int" ⟨"", v, sp, false, true⟩ "casing"
          ([.str (if cas then "Sensitive" else "Insensitive")] ++ r) =
          .ok (⟨"", v, sp, false, cas⟩, r) := fun r => by
        cases cas <;> simp [decodePathMemberField, decStr]
      have a4 : ∀ r, decodePathMemberField "Int" ⟨"", v, sp, false, cas⟩ "optional"
          ([.boolv opt] ++ r) = .ok (⟨"", v, sp, opt, cas⟩, r) := fun r => by
        simp [decodePathMemberField, decBool]
      have hok := SegsOK.cons a1 (SegsOK.cons a2 (SegsOK.cons a3 (SegsOK.cons a4
        (SegsOK.nil _))))
      have hloop := decodeFieldLoop_segsOK (decodePathMemberField "Int") _ _ _ rest hok
      simp only [flattenSegs, List.length_cons, List.length_nil, List.cons_append,
        List.nil_append, List.append_nil, List.append_assoc, Nat.reduceAdd] at hloop
      simp only [encodePathMemberM, encodeMapStart, List.cons_append, List.nil_append,
        List.append_nil, List.append_assoc]
      rw [decodePathMemberM_unfold, hloop]
      rfl
  | strMember sv opt cas sp =>
      simp only [wfPathMember, decide_eq_true_eq] at hwf
      have a1 : ∀ r, decodePathMemberField "String" ⟨"", 0, ⟨0, 0⟩, false, true⟩ "val"
          ([.str sv] ++ r) = .ok (⟨sv, 0, ⟨0, 0⟩, false, true⟩, r) := fun r => by
        simp [decodePathMemberField, decStr]
      have a2 : ∀ r, decodePathMemberField "String" ⟨sv, 0, ⟨0, 0⟩, false, true⟩ "span"
          (encodeSpanM sp ++ r) = .ok (⟨sv, 0, sp, false, true⟩, r) := fun r => by
        simp [decodePathMemberField, decodeSpan_encode _ hwf]
      have a3 : ∀ r, decodePathMemberField "String" ⟨sv, 0, sp, false, true⟩ "casing"
          ([.str (if cas then "Sensitive" else "Insensitive")] ++ r) =
          .ok (⟨sv, 0, sp, false, cas⟩, r) := fun r => by
        cases cas <;> simp [decodePathMemberField, decStr]
      have a4 : ∀ r, decodePathMemberField "String" ⟨sv, 0, sp, false, cas⟩ "optional"
          ([.boolv opt] ++ r) = .ok (⟨sv, 0, sp, opt, cas⟩, r) := fun r => by
        simp [decodePathMemberField, decBool]
      have hok := SegsOK.cons a1 (SegsOK.cons a2 (SegsOK.cons a3 (SegsOK.cons a4
        (SegsOK.nil _))))
      have hloop := decodeFieldLoop_segsOK (decodePathMemberField "String") _ _ _ rest hok
      simp only [flattenSegs, List.length_cons, List.length_nil, List.cons_append,
        List.nil_append, List.append_nil, List.append_assoc, Nat.reduceAdd] at hloop
      simp only [encodePathMemberM, encodeMapStart, List.cons_append, List.nil_append,
        List.append_nil, List.append_assoc]
      rw [decodePathMemberM_unfold, hloop]
      rfl

theorem decodePathMembers_loop (ms : List PathMemberM)
    (hwf : ms.all wfPathMember = true) (rest : List Tok) :
    decodeListLoop decodePathMemberM ms.length (encodePathMembers ms ++ rest) =
      .ok (ms, rest) := by
  induction ms generalizing rest with
  | nil => simp [encodePathMembers, decodeListLoop]
  | cons m ms ih =>
      simp only [List.all_cons, Bool.and_eq_true] at hwf
      simp only [encodePathMembers, List.length_cons, List.append_assoc, decodeListLoop,
        decodePathMemberM_encode m hwf.1, eBind_ok, ih hwf.2]

theorem decodeCellPathM_encode (ms : List PathMemberM)
    (hwf : ms.all wfPathMember = true) (rest : List Tok) :
    decodeCellPathM (encodeCellPathM ms ++ rest) = .ok (ms, rest) := by
  simp [encodeCellPathM, decodeCellPathM, decodeWrapperMap, decMapLen, decStr, decArrLen,
    decodePathMembers_loop ms hwf]

theorem decodeMsgpackRange_unfold (n : Nat) (tail : List Tok) :
    decodeMsgpackRange (.mapLen 1 :: .str "IntRange" :: .mapLen n :: tail) =
      decodeFieldLoop decodeIntRangeField n ⟨0, 0, 0, .included⟩ tail := rfl

theorem decodeMsgpackRange_encode (r : IntRangeM) (ts : List Tok)
    (hwf : wfRange r = true) (henc : IntRange_EncodeMsgpack r = .ok ts) (rest : List Tok) :
    decodeMsgpackRange (ts ++ rest) = .ok (r, rest) := by
  simp only [wfRange, Bool.and_eq_true, decide_eq_true_eq] at hwf
  obtain ⟨⟨hi64, hval⟩, hub⟩ := hwf
  obtain ⟨⟨hs1, hs2⟩, ⟨hp1, hp2⟩, ⟨he1, he2⟩⟩ := hi64
  simp only [IntRange_EncodeMsgpack, hval, eBind_ok] at henc
  obtain ⟨start, step, endv, bound⟩ := r
  simp only at hs1 hs2 hp1 hp2 he1 he2 hub
  cases henc
  have hend : ∀ rr, decodeEndBound ⟨start, step, 0, .included⟩
      (encodeEndBound ⟨start, step, endv, bound⟩ ++ rr) =
      .ok (⟨start, step, endv, bound⟩, rr) := by
    intro rr
    cases bound with
    | unbounded =>
        have h0 : endv = 0 := by simpa using hub
        subst h0
        simp [encodeEndBound, decodeEndBound, decodeEndBoundName, peekTok, isMapCode,
          isStrCode, decStr]
    | included =>
        simp [encodeEndBound, decodeEndBound, decodeEndBoundName, peekTok, isMapCode,
          decMapLen, decStr, decInt64, he1, he2]
    | excluded =>
        simp [encodeEndBound, decodeEndBound, decodeEndBoundName, peekTok, isMapCode,
          decMapLen, decStr, decInt64, he1, he2]
  have a1 : ∀ rr, decodeIntRangeField ⟨0, 0, 0, .included⟩ "start"
      ([.int start] ++ rr) = .ok (⟨start, 0, 0, .included⟩, rr) := fun rr => by
    simp [decodeIntRangeField, decInt64, hs1, hs2]
  have a2 : ∀ rr, decodeIntRangeField ⟨start, 0, 0, .included⟩ "step"
      ([.int step] ++ rr) = .ok (⟨start, step, 0, .included⟩, rr) := fun rr => by
    simp [decodeIntRangeField, decInt64, hp1, hp2]
  have a3 : ∀ rr, decodeIntRangeField ⟨start, step, 0, .included⟩ "end"
      (encodeEndBound ⟨start, step, endv, bound⟩ ++ rr) =
      .ok (⟨start, step, endv, bound⟩, rr) := fun rr => by
    simp [decodeIntRangeField, hend]
  have hok := SegsOK.cons a1 (SegsOK.cons a2 (SegsOK.cons a3 (SegsOK.nil _)))
  have hloop := decodeFieldLoop_segsOK decodeIntRangeField _ _ _ rest hok
  simp only [flattenSegs, List.length_cons, List.length_nil, List.cons_append,
    List.nil_append, List.append_nil, List.append_assoc, Nat.reduceAdd] at hloop
  simp only [encodeMapStart, List.cons_append, List.nil_append, List.append_nil,
    List.append_assoc]
  rw [decodeMsgpackRange_unfold, hloop]

theorem encodeMObj_head_not_nil (m : MObj) (hm : m ≠ .nilm) :
    ∃ t ts, encodeMObj m = t :: ts ∧ isNilCode t = false := by
  cases m <;> simp [encodeMObj, isNilCode] at hm ⊢

theorem decodeClosureM_unfold (fuel : Nat) (tail : List Tok) :
    decodeClosureM fuel (.mapLen 2 :: tail) =
      decodeFieldLoop (decodeClosureField fuel) 2 (0, none) tail := rfl

theorem decodeClosureM_encode_none (fuel : Nat) (bid : Nat) (hbid : bid < 2 ^ 64)
    (rest : List Tok) :
    decodeClosureM fuel (encodeClosureM bid none ++ rest) = .ok ((bid, none), rest) := by
  have b1 : ∀ r, decodeClosureField fuel ((0 : Nat), (none : Option MObj))
      "block_id" ([.int (bid : Int)] ++ r) = .ok ((bid, (none : Option MObj)), r) :=
    fun r => by simp [decodeClosureField, decUint_natCast bid hbid]
  have b2 : ∀ r, decodeClosureField fuel (bid, (none : Option MObj)) "captures"
      ([.nilv] ++ r) = .ok ((bid, (none : Option MObj)), r) := fun r => by
    simp [decodeClosureField, peekTok, isNilCode, decNil]
  have hok := SegsOK.cons b1 (SegsOK.cons b2 (SegsOK.nil _))
  have hloop := decodeFieldLoop_segsOK (decodeClosureField fuel) _ _ _ rest hok
  simp only [flattenSegs, List.length_cons, List.length_nil, List.cons_append,
    List.nil_append, List.append_nil, List.append_assoc, Nat.reduceAdd] at hloop
  simp only [encodeClosureM, List.cons_append, List.nil_append, List.append_nil,
    List.append_assoc]
  rw [decodeClosureM_unfold, hloop]

theorem decodeClosureM_encode_some (fuel : Nat) (bid : Nat) (m : MObj)
    (hbid : bid < 2 ^ 64) (hm : m ≠ .nilm)
    (hmlen : (encodeMObj m).length ≤ fuel) (rest : List Tok) :
    decodeClosureM fuel (encodeClosureM bid (some m) ++ rest) =
      .ok ((bid, some m), rest) := by
  obtain ⟨t, ts, hts, hnil⟩ := encodeMObj_head_not_nil m hm
  have b1 : ∀ r, decodeClosureField fuel ((0 : Nat), (none : Option MObj))
      "block_id" ([.int (bid : Int)] ++ r) = .ok ((bid, (none : Option MObj)), r) :=
    fun r => by simp [decodeClosureField, decUint_natCast bid hbid]
  have b2 : ∀ r, decodeClosureField fuel (bid, (none : Option MObj)) "captures"
      (encodeMObj m ++ r) = .ok ((bid, some m), r) := fun r => by
    have hdec := decodeMObjF_encode m fuel r hmlen
    rw [hts] at hdec ⊢
    simp only [List.cons_append] at hdec
    simp [decodeClosureField, peekTok, hnil, hdec]
  have hok := SegsOK.cons b1 (SegsOK.cons b2 (SegsOK.nil _))
  have hloop := decodeFieldLoop_segsOK (decodeClosureField fuel) _ _ _ rest hok
  simp only [flattenSegs, List.length_cons, List.length_nil, List.cons_append,
    List.nil_append, List.append_nil, List.append_assoc, Nat.reduceAdd] at hloop
  simp only [encodeClosureM, List.cons_append, List.nil_append, List.append_nil,
    List.append_assoc]
  rw [decodeClosureM_unfold, hloop]

theorem decodeClosureM_encode (fuel : Nat) (bid : Nat) (caps : Option MObj)
    (hbid : bid < 2 ^ 64) (hcaps : caps ≠ some .nilm)
    (hlen : (encodeClosureM bid caps).length ≤ fuel) (rest : List Tok) :
    decodeClosureM fuel (encodeClosureM bid caps ++ rest) = .ok ((bid, caps), rest) := by
  cases caps with
  | none => exact decodeClosureM_encode_none fuel bid hbid rest
  | some m =>
      have hm : m ≠ .nilm := fun h => hcaps (by rw [h])
      have hmlen : (encodeMObj m).length ≤ fuel := by
        simp only [encodeClosureM, List.length_append, List.length_cons] at hlen
        omega
      exact decodeClosureM_encode_some fuel bid m hbid hm hmlen rest

theorem decodeCustomValueM_encode (cvals : Nat → Option (String × Bool)) (fuel : Nat)
    (id : Nat) (name : String) (nod : Bool) (rest : List Tok) :
    decodeCustomValueM cvals fuel (encodeCustomValueM id name nod ++ rest) =
      .error "msgpack: invalid code decoding array length" := by
  cases nod <;>
    simp [encodeCustomValueM, decodeCustomValueM, decMapLen, decodeFieldLoop, decStr,
      decodeCustomValueField, readCVID, decArrLen]

theorem decodeHelloMsg_encode (h : HelloM) (fuel : Nat) (rest : List Tok) :
    decodeHelloMsg (fuel + 1) (hello_EncodeMsgpack h ++ rest) = .ok (h, rest) := by
  obtain ⟨protocol, version, ls⟩ := h
  cases ls <;>
    simp [hello_EncodeMsgpack, encodeMapStart, decodeHelloMsg, decodeWrapperMap,
      decMapLen, decStr, decodeFieldLoop, decodeHelloField, features_DecodeMsgpack,
      decArrLen, featuresLoop, decodeGoMap, decodeListLoop, decodeMObjF, lookupGoMap,
      isLocalSocketName]

theorem decodeStreamCtlMsg_encode (m : StreamCtlMsg) (hwf : wfStreamCtl m = true)
    (rest : List Tok) :
    decodeStreamCtlMsg (encodeStreamCtlMsg m ++ rest) = .ok (m, rest) := by
  cases m <;>
    simp_all [wfStreamCtl, inI64, encodeStreamCtlMsg, decodeStreamCtlMsg,
      decodeWrapperMap, decMapLen, decStr, decInt64]

theorem decInt64_inI64 (i : Int) (hi : inI64 i) (rest : List Tok) :
    decInt64 (.int i :: rest) = .ok (i, rest) := by
  simp [decInt64, hi.1, hi.2]

theorem decodeBinaryM_bin (b : List Nat) (rest : List Tok) :
    decodeBinaryM (.bin b :: rest) = .ok (some b, rest) := by
  simp [decodeBinaryM, peekTok, isBinCode, decBytes]

theorem decodeValueM_unfold (f : Nat) (name : String) (n : Nat) (tail : List Tok) :
    decodeValueM (f + 1) (.mapLen 1 :: .str name :: .mapLen n :: tail) =
      if name = "Glob" then decodeGlobM (.mapLen n :: tail)
      else decodeFieldLoop (decodeValueField f (fun ts => decodeValueM f ts) name) n
        (.mk .nothing ⟨0, 0⟩) tail := rfl

theorem decodeGlobM_unfold (n : Nat) (tail : List Tok) :
    decodeGlobM (.mapLen n :: tail) =
      eBind (decodeFieldLoop decodeGlobField n ("", false, ⟨0, 0⟩) tail) fun x =>
        .ok (.mk (.glob x.1.1 x.1.2.1) x.1.2.2, x.2) := rfl

theorem decodeValueField_span (f : Nat)
    (sub : List Tok → Except String (ValueM × List Tok)) (name : String)
    (pv : NuValue) (sp0 sp : SpanM) (hsp : WFSpan sp) (r : List Tok) :
    decodeValueField f sub name (.mk pv sp0) "span" (encodeSpanM sp ++ r) =
      .ok (.mk pv sp, r) := by
  simp [decodeValueField, decodeSpan_encode _ hsp, ValueM.setSpan]

theorem decodeValueM_wrap (f : Nat) (name key : String) (hname : ¬ name = "Glob")
    (pv : NuValue) (sp : SpanM) (hsp : WFSpan sp) (VAL : List Tok)
    (hval : ∀ r, decodeValueField f (fun ts => decodeValueM f ts) name
        (.mk .nothing ⟨0, 0⟩) key (VAL ++ r) = .ok (.mk pv ⟨0, 0⟩, r))
    (rest : List Tok) :
    decodeValueM (f + 1) (.mapLen 1 :: .str name :: .mapLen 2 :: .str key ::
      (VAL ++ .str "span" :: (encodeSpanM sp ++ rest))) = .ok (.mk pv sp, rest) := by
  have hspan := fun r => decodeValueField_span f (fun ts => decodeValueM f ts) name
    pv ⟨0, 0⟩ sp hsp r
  have hok := SegsOK.cons hval (SegsOK.cons hspan (SegsOK.nil _))
  have hloop := decodeFieldLoop_segsOK
    (decodeValueField f (fun ts => decodeValueM f ts) name) _ _ _ rest hok
  simp only [flattenSegs, List.length_cons, List.length_nil, List.cons_append,
    List.nil_append, List.append_nil, List.append_assoc, Nat.reduceAdd] at hloop
  rw [decodeValueM_unfold, if_neg hname]
  exact hloop

theorem decodeValueM_wrapNothing (f : Nat) (sp : SpanM) (hsp : WFSpan sp)
    (rest : List Tok) :
    decodeValueM (f + 1) (.mapLen 1 :: .str "Nothing" :: .mapLen 1 :: .str "span" ::
      (encodeSpanM sp ++ rest)) = .ok (.mk .nothing sp, rest) := by
  have hspan := fun r => decodeValueField_span f (fun ts => decodeValueM f ts) "Nothing"
    .nothing ⟨0, 0⟩ sp hsp r
  have hok := SegsOK.cons hspan (SegsOK.nil _)
  have hloop := decodeFieldLoop_segsOK
    (decodeValueField f (fun ts => decodeValueM f ts) "Nothing") _ _ _ rest hok
  simp only [flattenSegs, List.length_cons, List.length_nil, List.cons_append,
    List.nil_append, List.append_nil, List.append_assoc, Nat.reduceAdd] at hloop
  rw [decodeValueM_unfold, if_neg (by decide)]
  exact hloop

theorem decodeValueM_wrapGlob (f : Nat) (v : String) (ne : Bool) (sp : SpanM)
    (hsp : WFSpan sp) (rest : List Tok) :
    decodeValueM (f + 1) (.mapLen 1 :: .str "Glob" :: .mapLen 3 :: .str "val" ::
      .str v :: .str "no_expand" :: .boolv ne :: .str "span" ::
      (encodeSpanM sp ++ rest)) = .ok (.mk (.glob v ne) sp, rest) := by
  have a1 : ∀ r, decodeGlobField ("", false, ⟨0, 0⟩) "val" ([.str v] ++ r) =
      .ok ((v, false, ⟨0, 0⟩), r) := fun r => by simp [decodeGlobField, decStr]
  have a2 : ∀ r, decodeGlobField (v, false, ⟨0, 0⟩) "no_expand" ([.boolv ne] ++ r) =
      .ok ((v, ne, ⟨0, 0⟩), r) := fun r => by simp [decodeGlobField, decBool]
  have a3 : ∀ r, decodeGlobField (v, ne, ⟨0, 0⟩) "span" (encodeSpanM sp ++ r) =
      .ok ((v, ne, sp), r) := fun r => by simp [decodeGlobField, decodeSpan_encode _ hsp]
  have hok := SegsOK.cons a1 (SegsOK.cons a2 (SegsOK.cons a3 (SegsOK.nil _)))
  have hloop := decodeFieldLoop_segsOK decodeGlobField _ _ _ rest hok
  simp only [flattenSegs, List.length_cons, List.length_nil, List.cons_append,
    List.nil_append, List.append_nil, List.append_assoc, Nat.reduceAdd] at hloop
  rw [decodeValueM_unfold, if_pos rfl, decodeGlobM_unfold, hloop]
  rfl

theorem decodeValueM_encode (fuel : Nat) :
    ∀ (v : ValueM) (ts rest : List Tok),
    wfValueM v = true → encodeValueM v = .ok ts → ts.length ≤ fuel →
    decodeValueM fuel (ts ++ rest) = .ok (v, rest) := by
  induction fuel using Nat.strong_induction_on with
  | _ fuel ih =>
    intro v ts rest hwf henc hlen
    obtain ⟨pv, sp⟩ := v
    simp only [wfValueM, Bool.and_eq_true, decide_eq_true_eq] at hwf
    obtain ⟨hpv, hsp⟩ := hwf
    cases fuel with
    | zero =>
        have hts : ts = [] := List.length_eq_zero.mp (Nat.le_zero.mp hlen)
        subst hts
        cases hp : encodePayload pv with
        | error e => simp [encodeValueM, hp] at henc
        | ok p => simp [encodeValueM, hp] at henc
    | succ f =>
        have hitems : ∀ (items : List ValueM) (tsl : List Tok),
            wfValueItems items = true → encodeValueItems items = .ok tsl →
            tsl.length ≤ f → ∀ r,
            decodeListLoop (fun t => decodeValueM f t) items.length (tsl ++ r) =
              .ok (items, r) := by
          intro items
          induction items with
          | nil =>
              intro tsl hw he hl r
              cases he
              simp [decodeListLoop]
          | cons x xs ihx =>
              intro tsl hw he hl r
              simp only [wfValueItems, Bool.and_eq_true] at hw
              obtain ⟨hw1, hw2⟩ := hw
              cases h1 : encodeValueM x with
              | error e => simp [encodeValueItems, h1] at he
              | ok tv =>
                cases h2 : encodeValueItems xs with
                | error e => simp [encodeValueItems, h1, h2] at he
                | ok tvs =>
                  simp only [encodeValueItems, h1, h2, eBind_ok] at he
                  cases he
                  have hl1 : tv.length ≤ f := by
                    simp only [List.length_append] at hl; omega
                  have hl2 : tvs.length ≤ f := by
                    simp only [List.length_append] at hl; omega
                  simp only [List.length_cons, decodeListLoop, List.append_assoc,
                    ih f (by omega) x tv (tvs ++ r) hw1 h1 hl1, eBind_ok,
                    ihx tvs hw2 h2 hl2 r]
        have hrec : ∀ (fields : List (String × ValueM)) (tsl : List Tok),
            wfRecordPairs fields = true → encodeRecordPairs fields = .ok tsl →
            tsl.length ≤ f → ∀ r,
            decodeRecordLoop (fun t => decodeValueM f t) fields.length (tsl ++ r) =
              .ok (fields, r) := by
          intro fields
          induction fields with
          | nil =>
              intro tsl hw he hl r
              cases he
              simp [decodeRecordLoop]
          | cons kv xs ihx =>
              obtain ⟨k, x⟩ := kv
              intro tsl hw he hl r
              simp only [wfRecordPairs, Bool.and_eq_true] at hw
              obtain ⟨hw1, hw2⟩ := hw
              cases h1 : encodeValueM x with
              | error e => simp [encodeRecordPairs, h1] at he
              | ok tv =>
                cases h2 : encodeRecordPairs xs with
                | error e => simp [encodeRecordPairs, h1, h2] at he
                | ok tvs =>
                  simp only [encodeRecordPairs, h1, h2, eBind_ok] at he
                  cases he
                  have hl1 : tv.length ≤ f := by
                    simp only [List.length_cons, List.length_append] at hl; omega
                  have hl2 : tvs.length ≤ f := by
                    simp only [List.length_cons, List.length_append] at hl; omega
                  simp only [List.length_cons, decodeRecordLoop, List.cons_append,
                    List.append_assoc, decStr, isStrCode, eBind_ok, if_true,
                    ih f (by omega) x tv (tvs ++ r) hw1 h1 hl1,
                    ihx tvs hw2 h2 hl2 r]
        cases pv with
        | nothing =>
            simp only [encodeValueM, encodePayload, eBind_ok] at henc
            cases henc
            simp only [List.cons_append, List.append_assoc, List.nil_append]
            exact decodeValueM_wrapNothing f sp hsp rest
        | boolv b =>
            simp only [encodeValueM, encodePayload, eBind_ok] at henc
            cases henc
            simp only [startValueToks, List.cons_append, List.append_assoc,
              List.nil_append]
            exact decodeValueM_wrap f "Bool" "val" (by decide) (.boolv b) sp hsp
              [.boolv b]
              (fun r => by simp [decodeValueField, decBool, ValueM.setVal]) rest
        | intv i =>
            simp only [wfPayload, decide_eq_true_eq] at hpv
            simp only [encodeValueM, encodePayload, eBind_ok] at henc
            cases henc
            simp only [startValueToks, List.cons_append, List.append_assoc,
              List.nil_append]
            exact decodeValueM_wrap f "Int" "val" (by decide) (.intv i) sp hsp
              [.int i]
              (fun r => by simp [decodeValueField, decInt64_inI64 i hpv, ValueM.setVal])
              rest
        | floatv bits =>
            simp only [encodeValueM, encodePayload, eBind_ok] at henc
            cases henc
            simp only [startValueToks, List.cons_append, List.append_assoc,
              List.nil_append]
            exact decodeValueM_wrap f "Float" "val" (by decide) (.floatv bits) sp hsp
              [.f64 bits]
              (fun r => by simp [decodeValueField, decF64, ValueM.setVal]) rest
        | strv s =>
            simp only [encodeValueM, encodePayload, eBind_ok] at henc
            cases henc
            simp only [startValueToks, List.cons_append, List.append_assoc,
              List.nil_append]
            exact decodeValueM_wrap f "String" "val" (by decide) (.strv s) sp hsp
              [.str s]
              (fun r => by simp [decodeValueField, decStr, isStrCode, ValueM.setVal])
              rest
        | binary b =>
            simp only [encodeValueM, encodePayload, eBind_ok] at henc
            cases henc
            simp only [startValueToks, List.cons_append, List.append_assoc,
              List.nil_append]
            exact decodeValueM_wrap f "Binary" "val" (by decide) (.binary b) sp hsp
              [.bin b]
              (fun r => by simp [decodeValueField, decodeBinaryM_bin, ValueM.setVal])
              rest
        | filesize i =>
            simp only [wfPayload, decide_eq_true_eq] at hpv
            simp only [encodeValueM, encodePayload, eBind_ok] at henc
            cases henc
            simp only [startValueToks, List.cons_append, List.append_assoc,
              List.nil_append]
            exact decodeValueM_wrap f "Filesize" "val" (by decide) (.filesize i) sp hsp
              [.int i]
              (fun r => by simp [decodeValueField, decInt64_inI64 i hpv, ValueM.setVal])
              rest
        | duration i =>
            simp only [wfPayload, decide_eq_true_eq] at hpv
            simp only [encodeValueM, encodePayload, eBind_ok] at henc
            cases henc
            simp only [startValueToks, List.cons_append, List.append_assoc,
              List.nil_append]
            exact decodeValueM_wrap f "Duration" "val" (by decide) (.duration i) sp hsp
              [.int i]
              (fun r => by simp [decodeValueField, decInt64_inI64 i hpv, ValueM.setVal])
              rest
        | datev t =>
            simp only [wfPayload, wfGoDate, Bool.and_eq_true, decide_eq_true_eq] at hpv
            obtain ⟨hW, hns⟩ := hpv
            have hd : parseRFC3339 (String.mk (formatRFC3339 t)).data = .ok t :=
              parseRFC3339_format t hW hns
            simp only [encodeValueM, encodePayload, eBind_ok] at henc
            cases henc
            simp only [startValueToks, List.cons_append, List.append_assoc,
              List.nil_append]
            exact decodeValueM_wrap f "Date" "val" (by decide) (.datev t) sp hsp
              [.str (String.mk (formatRFC3339 t))]
              (fun r => by simp [decodeValueField, decStr, isStrCode, hd, ValueM.setVal])
              rest
        | blockv n =>
            simp only [wfPayload, decide_eq_true_eq] at hpv
            simp only [encodeValueM, encodePayload,
              if_neg (not_lt.mpr hpv), eBind_ok] at henc
            cases henc
            have hin : inI64 (n : Int) := by
              constructor
              · simp only [minI64]
                omega
              · exact hpv
            have hlt : (n : Int) < 2 ^ 64 :=
              lt_of_le_of_lt hpv (by norm_num [maxI64])
            have hb : ((n : Int).emod 18446744073709551616).toNat = n := by
              show ((n : Int) % 18446744073709551616).toNat = n
              have h64 : (18446744073709551616 : Int) = 2 ^ 64 := by norm_num
              rw [h64, Int.emod_eq_of_lt (Int.natCast_nonneg n) hlt, Int.toNat_natCast]
            simp only [startValueToks, List.cons_append, List.append_assoc,
              List.nil_append]
            exact decodeValueM_wrap f "Block" "val" (by decide) (.blockv n) sp hsp
              [.int n]
              (fun r => by
                simp [decodeValueField, decInt64_inI64 _ hin, hb, ValueM.setVal])
              rest
        | glob v ne =>
            simp only [encodeValueM, encodePayload, eBind_ok] at henc
            cases henc
            simp only [List.cons_append, List.append_assoc, List.nil_append]
            exact decodeValueM_wrapGlob f v ne sp hsp rest
        | record fields =>
            simp only [wfPayload] at hpv
            cases hrf : encodeRecordPairs fields with
            | error e => simp [encodeValueM, encodePayload, hrf] at henc
            | ok tsr =>
                simp only [encodeValueM, encodePayload, hrf, eBind_ok] at henc
                cases henc
                have hlr : tsr.length ≤ f := by
                  simp only [List.length_cons, List.length_append, List.length_nil,
                    encodeSpanM, List.cons_append, List.nil_append] at hlen
                  omega
                simp only [List.cons_append, List.append_assoc, List.nil_append]
                exact decodeValueM_wrap f "Record" "val" (by decide) (.record fields)
                  sp hsp (.mapLen fields.length :: tsr)
                  (fun r => by
                    simp [decodeValueField, decMapLen, isFixedMapCode, isMapCode,
                      hrec fields tsr hpv hrf hlr r, ValueM.setVal])
                  rest
        | listv items =>
            simp only [wfPayload] at hpv
            cases hlf : encodeValueItems items with
            | error e => simp [encodeValueM, encodePayload, hlf] at henc
            | ok tsl =>
                simp only [encodeValueM, encodePayload, hlf, eBind_ok] at henc
                cases henc
                have hll : tsl.length ≤ f := by
                  simp only [List.length_cons, List.length_append, List.length_nil,
                    encodeSpanM, List.cons_append, List.nil_append] at hlen
                  omega
                simp only [List.cons_append, List.append_assoc, List.nil_append]
                exact decodeValueM_wrap f "List" "vals" (by decide) (.listv items)
                  sp hsp (.arrLen items.length :: tsl)
                  (fun r => by
                    simp [decodeValueField, decArrLen, isArrCode,
                      hitems items tsl hpv hlf hll r, ValueM.setVal])
                  rest
        | closure bid caps =>
            simp only [wfPayload, Bool.and_eq_true, decide_eq_true_eq] at hpv
            obtain ⟨hbid, hcm⟩ := hpv
            have hne : caps ≠ some .nilm := by
              intro h
              subst h
              simp at hcm
            simp only [encodeValueM, encodePayload, eBind_ok] at henc
            cases henc
            have hcl : (encodeClosureM bid caps).length ≤ f := by
              simp only [List.length_cons, List.length_append, List.length_nil,
                startValueToks, encodeSpanM, List.cons_append, List.nil_append] at hlen
              omega
            simp only [startValueToks, List.cons_append, List.append_assoc,
              List.nil_append]
            exact decodeValueM_wrap f "Closure" "val" (by decide) (.closure bid caps)
              sp hsp (encodeClosureM bid caps)
              (fun r => by
                simp [decodeValueField, decodeClosureM_encode f bid caps hbid hne hcl r,
                  ValueM.setVal])
              rest
        | rangev r =>
            simp only [wfPayload] at hpv
            cases hre : IntRange_EncodeMsgpack r with
            | error e => simp [encodeValueM, encodePayload, hre] at henc
            | ok tr =>
                simp only [encodeValueM, encodePayload, hre, eBind_ok] at henc
                cases henc
                simp only [startValueToks, List.cons_append, List.append_assoc,
                  List.nil_append]
                exact decodeValueM_wrap f "Range" "val" (by decide) (.rangev r) sp hsp tr
                  (fun rr => by
                    simp [decodeValueField, decodeMsgpackRange_encode r tr hpv hre rr,
                      ValueM.setVal])
                  rest
        | cellpath ms =>
            simp only [wfPayload] at hpv
            simp only [encodeValueM, encodePayload, eBind_ok] at henc
            cases henc
            simp only [startValueToks, List.cons_append, List.append_assoc,
              List.nil_append]
            exact decodeValueM_wrap f "CellPath" "val" (by decide) (.cellpath ms) sp hsp
              (encodeCellPathM ms)
              (fun r => by
                simp [decodeValueField, decodeCellPathM_encode ms hpv r, ValueM.setVal])
              rest
        | errorv e =>
            simp only [wfPayload] at hpv
            simp only [encodeValueM, encodePayload, eBind_ok] at henc
            cases henc
            have hle : (encodeLabeledErrorM e).length ≤ f := by
              simp only [List.length_cons, List.length_append, List.length_nil,
                encodeSpanM, List.cons_append, List.nil_append] at hlen
              omega
            simp only [List.cons_append, List.append_assoc, List.nil_append]
            exact decodeValueM_wrap f "Error" "error" (by decide) (.errorv e) sp hsp
              (encodeLabeledErrorM e)
              (fun r => by
                simp [decodeValueField, decodeLabeledErrorF_encode f e r hpv hle,
                  ValueM.setVal])
              rest

theorem WFSpan_zero : WFSpan (⟨0, 0⟩ : SpanM) :=
  ⟨⟨by norm_num [minI64], by norm_num [maxI64]⟩,
   ⟨by norm_num [minI64], by norm_num [maxI64]⟩⟩

theorem encodeValueM_shape (v : ValueM) (tv : List Tok)
    (h : encodeValueM v = .ok tv) : ∃ t, tv = .mapLen 1 :: t := by
  obtain ⟨pv, sp⟩ := v
  cases hp : encodePayload pv with
  | error e => simp [encodeValueM, hp] at h
  | ok p =>
      simp only [encodeValueM, hp, eBind_ok, Except.ok.injEq] at h
      exact ⟨_, h.symm⟩

theorem decodeValueItems_encode (fuel : Nat) (items : List ValueM) (tsl : List Tok)
    (hw : wfValueItems items = true) (he : encodeValueItems items = .ok tsl)
    (hl : tsl.length ≤ fuel) (r : List Tok) :
    decodeListLoop (fun t => decodeValueM fuel t) items.length (tsl ++ r) =
      .ok (items, r) := by
  induction items generalizing tsl with
  | nil =>
      cases he
      simp [decodeListLoop]
  | cons x xs ihx =>
      simp only [wfValueItems, Bool.and_eq_true] at hw
      obtain ⟨hw1, hw2⟩ := hw
      cases h1 : encodeValueM x with
      | error e => simp [encodeValueItems, h1] at he
      | ok tv =>
        cases h2 : encodeValueItems xs with
        | error e => simp [encodeValueItems, h1, h2] at he
        | ok tvs =>
          simp only [encodeValueItems, h1, h2, eBind_ok] at he
          cases he
          have hl1 : tv.length ≤ fuel := by
            simp only [List.length_append] at hl; omega
          have hl2 : tvs.length ≤ fuel := by
            simp only [List.length_append] at hl; omega
          simp only [List.length_cons, decodeListLoop, List.append_assoc,
            decodeValueM_encode fuel x tv (tvs ++ r) hw1 h1 hl1, eBind_ok,
            ihx tvs hw2 h2 hl2]

theorem decodeDataMsg_encode (fuel : Nat) (d : DataMsg) (ts : List Tok)
    (hwf : wfDataMsg d = true) (henc : encodeDataMsg d = .ok ts)
    (hlen : ts.length ≤ fuel) (rest : List Tok) :
    decodeDataMsg fuel (ts ++ rest) = .ok (d, rest) := by
  obtain ⟨id, payload⟩ := d
  simp only [wfDataMsg, Bool.and_eq_true, decide_eq_true_eq] at hwf
  obtain ⟨hid, hp⟩ := hwf
  cases payload with
  | listData v =>
      simp only at hp
      cases hv : encodeValueM v with
      | error e => simp [encodeDataMsg, hv] at henc
      | ok tv =>
          simp only [encodeDataMsg, hv, eBind_ok] at henc
          cases henc
          have hlv : tv.length ≤ fuel := by
            simp only [encodeTupleInMap, encodeMapStart, List.length_append,
              List.length_cons, List.length_nil] at hlen
            omega
          simp [decodeDataMsg, encodeTupleInMap, encodeMapStart, decodeWrapperMap,
            decMapLen, decStr, decodeTupleStart, decArrLen, decInt64, hid.1, hid.2,
            decodeValueM_encode fuel v tv rest hp hv hlv]
  | rawOk b =>
      cases b with
      | none => simp at hp
      | some bs =>
          simp only [encodeDataMsg] at henc
          cases henc
          simp [decodeDataMsg, encodeTupleInMap, encodeMapStart, msgpackEncodeBytes,
            decodeWrapperMap, decMapLen, decStr, decodeTupleStart, decArrLen,
            decInt64, hid.1, hid.2, decodeBinaryM_bin]
  | rawErr e =>
      simp only at hp
      simp only [encodeDataMsg] at henc
      cases henc
      have hle : (encodeLabeledErrorM e).length ≤ fuel := by
        simp only [encodeTupleInMap, encodeMapStart, List.length_append,
          List.length_cons, List.length_nil] at hlen
        omega
      simp [decodeDataMsg, encodeTupleInMap, encodeMapStart, decodeWrapperMap,
        decMapLen, decStr, decodeTupleStart, decArrLen, decInt64, hid.1, hid.2,
        decodeLabeledErrorF_encode fuel e rest hp hle]

theorem decodeNpName_encode (fuel : Nat) (k : String) (r : List Tok) :
    decodeNpName fuel (.mapLen 2 :: .str "item" :: .str k :: .str "span" ::
      (encodeSpanM ⟨0, 0⟩ ++ r)) = .ok ((k, ⟨0, 0⟩), r) := by
  simp [decodeNpName, decMapLen, decodeFieldLoop, decStr,
    decodeSpan_encode _ WFSpan_zero]

theorem decodeNamedLoop_encode (fuel : Nat) (xs : List (String × ValueM)) (tn : List Tok)
    (hw : wfRecordPairs xs = true) (he : encodeNamedPairs xs = .ok tn)
    (hl : tn.length ≤ fuel) (r : List Tok) :
    decodeNamedLoop fuel (fun t => decodeValueM fuel t) xs.length (tn ++ r) =
      .ok (xs, r) := by
  induction xs generalizing tn with
  | nil =>
      cases he
      simp [decodeNamedLoop]
  | cons kv xs ihx =>
      obtain ⟨k, v⟩ := kv
      simp only [wfRecordPairs, Bool.and_eq_true] at hw
      obtain ⟨hw1, hw2⟩ := hw
      cases h1 : encodeValueM v with
      | error e => simp [encodeNamedPairs, h1] at he
      | ok tv =>
        cases h2 : encodeNamedPairs xs with
        | error e => simp [encodeNamedPairs, h1, h2] at he
        | ok txs =>
          simp only [encodeNamedPairs, h1, h2, eBind_ok] at he
          cases he
          have hl1 : tv.length ≤ fuel := by
            simp only [List.length_cons, List.length_append, encodeSpanM,
              List.cons_append, List.nil_append, List.length_nil] at hl
            omega
          have hl2 : txs.length ≤ fuel := by
            simp only [List.length_cons, List.length_append, encodeSpanM,
              List.cons_append, List.nil_append, List.length_nil] at hl
            omega
          obtain ⟨tvt, hshape⟩ := encodeValueM_shape v tv h1
          have hv := decodeValueM_encode fuel v tv (txs ++ r) hw1 h1 hl1
          have hx := ihx txs hw2 h2 hl2
          subst hshape
          simp only [List.cons_append] at hv
          have hnp := decodeNpName_encode fuel k
            (.mapLen 1 :: (tvt ++ (txs ++ r)))
          simp only [List.length_cons, decodeNamedLoop, List.cons_append,
            List.append_assoc, List.nil_append, decArrLen, eBind_ok, hnp,
            peekTok, isNilCode, Bool.false_eq_true, if_false, hv, hx]

theorem decodeEvaluatedCallM_unfold (fuel n : Nat) (tail : List Tok) :
    decodeEvaluatedCallM fuel (.mapLen n :: tail) =
      decodeFieldLoop (decodeEvaluatedCallField fuel (fun ts => decodeValueM fuel ts))
        n ⟨⟨0, 0⟩, [], []⟩ tail := rfl

theorem decodeEvaluatedCallM_encode (fuel : Nat) (ec : EvaluatedCallM) (tc : List Tok)
    (hwf : wfEvaluatedCall ec = true) (henc : encodeEvaluatedCall ec = .ok tc)
    (hlen : tc.length ≤ fuel) (rest : List Tok) :
    decodeEvaluatedCallM fuel (tc ++ rest) = .ok (ec, rest) := by
  obtain ⟨head, positional, named⟩ := ec
  simp only [wfEvaluatedCall, Bool.and_eq_true, decide_eq_true_eq] at hwf
  obtain ⟨⟨hhead, hpos⟩, hnamed⟩ := hwf
  cases h1 : encodeValueItems positional with
  | error e => simp [encodeEvaluatedCall, h1] at henc
  | ok tp =>
    cases h2 : encodeNamedPairs named with
    | error e => simp [encodeEvaluatedCall, h1, h2] at henc
    | ok tn =>
      simp only [encodeEvaluatedCall, h1, h2, eBind_ok] at henc
      cases henc
      have hlp : tp.length ≤ fuel := by
        simp only [List.length_cons, List.length_append, encodeSpanM,
          List.cons_append, List.nil_append, List.length_nil] at hlen
        omega
      have hln : tn.length ≤ fuel := by
        simp only [List.length_cons, List.length_append, encodeSpanM,
          List.cons_append, List.nil_append, List.length_nil] at hlen
        omega
      have a1 : ∀ r, decodeEvaluatedCallField fuel (fun ts => decodeValueM fuel ts)
          ⟨⟨0, 0⟩, [], []⟩ "head" (encodeSpanM head ++ r) =
          .ok (⟨head, [], []⟩, r) := fun r => by
        simp [decodeEvaluatedCallField, decodeSpan_encode _ hhead]
      have a2 : ∀ r, decodeEvaluatedCallField fuel (fun ts => decodeValueM fuel ts)
          ⟨head, [], []⟩ "positional" ((.arrLen positional.length :: tp) ++ r) =
          .ok (⟨head, positional, []⟩, r) := fun r => by
        simp [decodeEvaluatedCallField, decArrLen,
          decodeValueItems_encode fuel positional tp hpos h1 hlp r]
      have a3 : ∀ r, decodeEvaluatedCallField fuel (fun ts => decodeValueM fuel ts)
          ⟨head, positional, []⟩ "named" ((.arrLen named.length :: tn) ++ r) =
          .ok (⟨head, positional, named⟩, r) := fun r => by
        simp [decodeEvaluatedCallField, decodeNamedParams, decArrLen,
          decodeNamedLoop_encode fuel named tn hnamed h2 hln r]
      have hok := SegsOK.cons a1 (SegsOK.cons a2 (SegsOK.cons a3 (SegsOK.nil _)))
      have hloop := decodeFieldLoop_segsOK
        (decodeEvaluatedCallField fuel (fun ts => decodeValueM fuel ts)) _ _ _ rest hok
      simp only [flattenSegs, List.length_cons, List.length_nil, List.cons_append,
        List.nil_append, List.append_nil, List.append_assoc, Nat.reduceAdd] at hloop
      simp only [List.cons_append, List.append_assoc, List.nil_append]
      rw [decodeEvaluatedCallM_unfold]
      exact hloop

theorem decodePipelineDataHeader_encode (fuel : Nat) (inp : RunInput) (ti : List Tok)
    (hwf : wfRunInput inp = true) (henc : encodeRunInput inp = .ok ti)
    (hlen : ti.length ≤ fuel) (r : List Tok) :
    decodePipelineDataHeader fuel (ti ++ r) = .ok (inp, r) := by
  cases inp with
  | emptyInput =>
      simp only [encodeRunInput, Except.ok.injEq] at henc
      subst henc
      simp [decodePipelineDataHeader, peekTok, isStrCode, decStr]
  | valueInput v =>
      simp only [wfRunInput] at hwf
      cases hv : encodeValueM v with
      | error e => simp [encodeRunInput, hv] at henc
      | ok tv =>
          simp only [encodeRunInput, hv, eBind_ok] at henc
          cases henc
          have hlv : tv.length ≤ fuel := by
            simp only [encodeMapStart, encodePipelineMetadata, List.length_cons,
              List.length_append, List.length_nil, List.cons_append,
              List.nil_append] at hlen
            split at hlen <;> simp_all <;> omega
          simp [decodePipelineDataHeader, encodeMapStart, peekTok, isStrCode,
            isFixedMapCode, decodeWrapperMap, decMapLen, decStr, decArrLen,
            encodePipelineMetadata,
            decodeValueM_encode fuel v tv (.nilv :: r) hwf hv hlv,
            decodePipelineMetadata, isNilCode, decNil]
  | listStreamInput hdr =>
      obtain ⟨i, sp, md⟩ := hdr
      simp only [wfRunInput, Bool.and_eq_true, decide_eq_true_eq] at hwf
      obtain ⟨⟨hid, hspan⟩, hmd⟩ := hwf
      subst hspan
      subst hmd
      simp only [encodeRunInput, Except.ok.injEq] at henc
      subst henc
      simp [decodePipelineDataHeader, encodeMapStart, peekTok, isStrCode,
        isFixedMapCode, decodeWrapperMap, decMapLen, decStr, decodeListStreamHdr,
        decodeFieldLoop, decodeListStreamField, decInt64, hid.1, hid.2]
  | byteStreamInput hdr => simp [wfRunInput] at hwf

theorem decodeRunM_unfold (fuel n : Nat) (tail : List Tok) :
    decodeRunM fuel (.mapLen n :: tail) =
      decodeFieldLoop (decodeRunField fuel) n
        ⟨"", ⟨⟨0, 0⟩, [], []⟩, .emptyInput⟩ tail := rfl

theorem decodeRunM_encode (fuel : Nat) (r : RunM) (tr : List Tok)
    (hwf : wfRunM r = true) (henc : encodeRunM r = .ok tr) (hlen : tr.length ≤ fuel)
    (rest : List Tok) :
    decodeRunM fuel (tr ++ rest) = .ok (r, rest) := by
  obtain ⟨name, call, input⟩ := r
  simp only [wfRunM, Bool.and_eq_true] at hwf
  obtain ⟨hcall, hinput⟩ := hwf
  cases hc : encodeEvaluatedCall call with
  | error e => simp [encodeRunM, hc] at henc
  | ok tc =>
    cases hi : encodeRunInput input with
    | error e => simp [encodeRunM, hc, hi] at henc
    | ok ti =>
      simp only [encodeRunM, hc, hi, eBind_ok] at henc
      cases henc
      have hlc : tc.length ≤ fuel := by
        simp only [List.length_cons, List.length_append, List.length_nil,
          List.cons_append, List.nil_append] at hlen
        omega
      have hli : ti.length ≤ fuel := by
        simp only [List.length_cons, List.length_append, List.length_nil,
          List.cons_append, List.nil_append] at hlen
        omega
      have a1 : ∀ r', decodeRunField fuel ⟨"", ⟨⟨0, 0⟩, [], []⟩, .emptyInput⟩ "name"
          ([.str name] ++ r') = .ok (⟨name, ⟨⟨0, 0⟩, [], []⟩, .emptyInput⟩, r') :=
        fun r' => by simp [decodeRunField, decStr]
      have a2 : ∀ r', decodeRunField fuel ⟨name, ⟨⟨0, 0⟩, [], []⟩, .emptyInput⟩ "call"
          (tc ++ r') = .ok (⟨name, call, .emptyInput⟩, r') := fun r' => by
        simp [decodeRunField, decodeEvaluatedCallM_encode fuel call tc hcall hc hlc r']
      have a3 : ∀ r', decodeRunField fuel ⟨name, call, .emptyInput⟩ "input"
          (ti ++ r') = .ok (⟨name, call, input⟩, r') := fun r' => by
        simp [decodeRunField,
          decodePipelineDataHeader_encode fuel input ti hinput hi hli r']
      have hok := SegsOK.cons a1 (SegsOK.cons a2 (SegsOK.cons a3 (SegsOK.nil _)))
      have hloop := decodeFieldLoop_segsOK (decodeRunField fuel) _ _ _ rest hok
      simp only [flattenSegs, List.length_cons, List.length_nil, List.cons_append,
        List.nil_append, List.append_nil, List.append_assoc, Nat.reduceAdd] at hloop
      simp only [List.cons_append, List.append_assoc, List.nil_append]
      rw [decodeRunM_unfold]
      exact hloop

theorem decodeCallM_encode (fuel : Nat) (id : Int) (r : RunM) (ts : List Tok)
    (hid : inI64 id) (hwf : wfRunM r = true)
    (henc : encodeCallMsg id (.runCall r) = .ok ts) (hlen : ts.length ≤ fuel)
    (rest : List Tok) :
    decodeCallM fuel (ts ++ rest) = .ok ((id, .runCall r), rest) := by
  cases hr : encodeRunM r with
  | error e => simp [encodeCallMsg, hr] at henc
  | ok tr =>
      simp only [encodeCallMsg, hr, eBind_ok] at henc
      cases henc
      have hlr : tr.length ≤ fuel := by
        simp only [encodeTupleInMap, encodeMapStart, List.length_append,
          List.length_cons, List.length_nil] at hlen
        omega
      have hrun := decodeRunM_encode fuel r tr hwf hr hlr rest
      simp [decodeCallM, encodeTupleInMap, encodeMapStart, decodeWrapperMap,
        decMapLen, decStr, decodeTupleStart, decArrLen, decInt64, hid.1, hid.2,
        peekTok, isStrCode, isFixedMapCode, hrun]

/-- C2: decode of encode is the identity for `Hello`, `Span`, every `Value`
variant the codec round-trips, every `PathMember`, `Error` (`LabeledError`),
`IntRange`, `Ack`/`End`/`Drop` stream-control messages, `Data` with `Value`,
bytes and `Error` payloads, and `Call\x7bRun\x7d` — for well-formed instances:
spans and ids within int64, dates on whole seconds, non-nil raw bytes,
closure captures that are not a bare wire-nil, and an `Unbounded` range
carrying `End = 0` (the encoder discards `End` for unbounded ranges, see the
counterexample). -/
theorem C2_roundtrip :
    (∀ (h : HelloM) (fuel : Nat) (rest : List Tok),
        decodeHelloMsg (fuel + 1) (hello_EncodeMsgpack h ++ rest) = .ok (h, rest)) ∧
    (∀ (sp : SpanM) (rest : List Tok), WFSpan sp →
        decodeSpanM (encodeSpanM sp ++ rest) = .ok (sp, rest)) ∧
    (∀ (fuel : Nat) (v : ValueM) (ts rest : List Tok), wfValueM v = true →
        encodeValueM v = .ok ts → ts.length ≤ fuel →
        decodeValueM fuel (ts ++ rest) = .ok (v, rest)) ∧
    (∀ (pm : PathMemberM) (rest : List Tok), wfPathMember pm = true →
        decodePathMemberM (encodePathMemberM pm ++ rest) = .ok (pm, rest)) ∧
    (∀ (fuel : Nat) (e : LabeledErrorM) (rest : List Tok), wfLabeledError e = true →
        (encodeLabeledErrorM e).length ≤ fuel →
        decodeLabeledErrorF fuel (encodeLabeledErrorM e ++ rest) = .ok (e, rest)) ∧
    (∀ (r : IntRangeM) (ts rest : List Tok), wfRange r = true →
        IntRange_EncodeMsgpack r = .ok ts →
        decodeMsgpackRange (ts ++ rest) = .ok (r, rest)) ∧
    (∀ (m : StreamCtlMsg) (rest : List Tok), wfStreamCtl m = true →
        decodeStreamCtlMsg (encodeStreamCtlMsg m ++ rest) = .ok (m, rest)) ∧
    (∀ (fuel : Nat) (d : DataMsg) (ts rest : List Tok), wfDataMsg d = true →
        encodeDataMsg d = .ok ts → ts.length ≤ fuel →
        decodeDataMsg fuel (ts ++ rest) = .ok (d, rest)) ∧
    (∀ (fuel : Nat) (id : Int) (r : RunM) (ts rest : List Tok), inI64 id →
        wfRunM r = true → encodeCallMsg id (.runCall r) = .ok ts → ts.length ≤ fuel →
        decodeCallM fuel (ts ++ rest) = .ok ((id, .runCall r), rest)) :=
  ⟨fun h fuel rest => decodeHelloMsg_encode h fuel rest,
   fun sp rest hw => decodeSpan_encode sp hw rest,
   fun fuel v ts rest => decodeValueM_encode fuel v ts rest,
   fun pm rest hw => decodePathMemberM_encode pm hw rest,
   fun fuel e rest hw hl => decodeLabeledErrorF_encode fuel e rest hw hl,
   fun r ts rest hw he => decodeMsgpackRange_encode r ts hw he rest,
   fun m rest hw => decodeStreamCtlMsg_encode m hw rest,
   fun fuel d ts rest h1 h2 h3 => decodeDataMsg_encode fuel d ts h1 h2 h3 rest,
   fun fuel id r ts rest h1 h2 h3 h4 => decodeCallM_encode fuel id r ts h1 h2 h3 h4 rest⟩

/-- C2 counterexample: the spec claims `decode(encode(X)) == X` for every
`IntRange`, but `IntRange.EncodeMsgpack` writes only the bare string
`"Unbounded"` for an unbounded bound, discarding `End`; decoding the wire
form of `\x7bStart: 0, Step: 1, End: 5, Bound: Unbounded\x7d` yields `End = 0`,
not 5. -/
theorem C2_counterexample :
    IntRange_EncodeMsgpack ⟨0, 1, 5, .unbounded⟩ =
      .ok (eToks (IntRange_EncodeMsgpack ⟨0, 1, 5, .unbounded⟩)) ∧
    decodeMsgpackRange (eToks (IntRange_EncodeMsgpack ⟨0, 1, 5, .unbounded⟩) ++ []) =
      .ok (⟨0, 1, 0, .unbounded⟩, []) ∧
    (IntRangeM.mk 0 1 0 .unbounded ≠ IntRangeM.mk 0 1 5 .unbounded) :=
  ⟨rfl, rfl, by decide⟩

theorem C2_roundtrip_witness :
    decodeHelloMsg (0 + 1) (hello_EncodeMsgpack ⟨"nu-plugin", "0.94.0", false⟩ ++ []) =
      .ok (⟨"nu-plugin", "0.94.0", false⟩, []) ∧
    decodeSpanM (encodeSpanM ⟨1, 2⟩ ++ []) = .ok (⟨1, 2⟩, []) ∧
    decodeValueM 11 (eToks (encodeValueM (.mk (.boolv true) ⟨0, 0⟩)) ++ []) =
      .ok (.mk (.boolv true) ⟨0, 0⟩, []) ∧
    decodePathMemberM (encodePathMemberM (.strMember "a" false true ⟨0, 0⟩) ++ []) =
      .ok (.strMember "a" false true ⟨0, 0⟩, []) ∧
    decodeLabeledErrorF 4 (encodeLabeledErrorM (.mk "boom" [] "" "" "" []) ++ []) =
      .ok (.mk "boom" [] "" "" "" [], []) ∧
    decodeMsgpackRange (eToks (IntRange_EncodeMsgpack ⟨0, 1, 5, .included⟩) ++ []) =
      .ok (⟨0, 1, 5, .included⟩, []) ∧
    decodeStreamCtlMsg (encodeStreamCtlMsg (.ackMsg 7) ++ []) = .ok (.ackMsg 7, []) ∧
    decodeDataMsg 9 (eToks (encodeDataMsg ⟨3, .rawOk (some [1, 2])⟩) ++ []) =
      .ok (⟨3, .rawOk (some [1, 2])⟩, []) ∧
    decodeCallM 23 (eToks (encodeCallMsg 1 (.runCall ⟨"inc", ⟨⟨0, 0⟩, [], []⟩,
        .emptyInput⟩)) ++ []) =
      .ok ((1, .runCall ⟨"inc", ⟨⟨0, 0⟩, [], []⟩, .emptyInput⟩), []) := by
  obtain ⟨h1, h2, h3, h4, h5, h6, h7, h8, h9⟩ := C2_roundtrip
  exact ⟨h1 ⟨"nu-plugin", "0.94.0", false⟩ 0 [],
    h2 ⟨1, 2⟩ [] (by decide),
    h3 11 (.mk (.boolv true) ⟨0, 0⟩) _ [] (by decide) rfl (by decide),
    h4 (.strMember "a" false true ⟨0, 0⟩) [] (by decide),
    h5 4 (.mk "boom" [] "" "" "" []) [] (by decide) (by decide),
    h6 ⟨0, 1, 5, .included⟩ _ [] (by decide) rfl,
    h7 (.ackMsg 7) [] (by decide),
    h8 9 ⟨3, .rawOk (some [1, 2])⟩ _ [] (by decide) rfl (by decide),
    h9 23 1 ⟨"inc", ⟨⟨0, 0⟩, [], []⟩, .emptyInput⟩ _ [] (by decide) (by decide) rfl
      (by decide)⟩

/-- C8: the `[]byte` branch of `Value.encodeMsgpack` always writes the
msgpack `bin` type — a nil slice becomes a zero-length `bin`, never the
wire-nil that the bare `EncodeBytes` primitive would write. -/
theorem C8_binary_always_bin :
    (∀ b : Option (List Nat),
        encodeBinaryBranch b = startValueToks "Binary" ++ [.bin (b.getD [])]) ∧
    encodeBinaryBranch none = startValueToks "Binary" ++ [.bin []] ∧
    msgpackEncodeBytes none = .nilv ∧
    (∀ bs : List Nat,
        encodePayload (.binary bs) = .ok (startValueToks "Binary" ++ [.bin bs])) := by
  refine ⟨fun b => ?_, rfl, rfl, fun bs => rfl⟩
  cases b <;> rfl
